import Mathlib

/-!
Ranking core of `riot/core/ranker.go`.

A shallow embedding of the `Ranker` of `github.com/riposa/riot/core`: the
document registry, the two ranking loops (`RankDocID`, `RankDocs`), the
pagination helper `maxOutput` and the dispatcher `Rank`, followed by the
properties established about them. The scoring methods of `engine_test.go` and
the clean-up of rotated log files of `logging/log.go` are embedded as well.

Conventions of the embedding

* Go `int` is a 64-bit two's-complement integer: values are `Int`s and the one
  addition of the file that can overflow goes through `wrapInt`.
* Go `float32` scores are IEEE 754 binary32 values (`Score`): not-a-number,
  infinities, signed zeros and finite numbers, with every operation rounded to
  the nearest value, ties to even. Each operation of an expression rounds on
  its own (no fused multiply-add).
* Go maps are partial functions (`Nat → Option _`) or association lists; a
  `nil` map reads like an empty one, and the code never writes to a `nil` map.
* A Go slice is a `List`; a `nil` slice is `[]`.
* `log.Fatal` and a runtime panic end the call: results live in
  `Except Failure _`. Log output is not part of the state.
* `sort.Sort` belongs to the Go standard library, not to this repository. It
  enters as a parameter (`Sorter`); its documented contract is `Sorter.Lawful`.
  Where a concrete run is needed, the algorithm of the standard library is
  written out: `smallSort` for the releases up to 1.18 (short inputs), `pdqSort`
  for the releases from 1.19 on.
* `Init`, `AddDoc` and `RemoveDoc` return the registry they leave behind together
  with the failure, if any (`Effect`). The write lock they take is not modelled.
* The ranking functions exist twice: as functions of the registry (`Rank`), and
  statement by statement over a machine state with the read-lock counter and
  the trace of effects (`Rank.run`). The second refines the first.
-/

namespace Riot

/-! ## Scores: `float32`

Scores are `float32` values (IEEE 754 binary32): a not-a-number, the two
infinities, the two zeros, and the finite numbers with 24 significant bits.
A finite number is carried as the rational it denotes; every arithmetic
operation rounds its exact result to the nearest `float32`, ties to even, as the
hardware does. All not-a-number bit patterns are one value. -/

/-- The number of halvings that take `n` below 2, for at most `fuel` halvings. -/
def log2Fuel : Nat → Nat → Nat
  | 0, _ => 0
  | fuel + 1, n => if n < 2 then 0 else log2Fuel fuel (n / 2) + 1

/-- The binary logarithm of a positive natural number, rounded down. -/
def natLog2 (n : Nat) : Nat := log2Fuel n n

/-- The binary logarithm of a positive rational, rounded down: the exponent
`e` with `2^e ≤ q < 2^(e+1)`. -/
def floorLog2 (q : ℚ) : Int :=
  let e : Int := (natLog2 q.num.natAbs : Int) - (natLog2 q.den : Int)
  if (2 : ℚ) ^ e ≤ q then e else e - 1

/-- The integer nearest to a rational, the even one of two equally near. -/
def roundHalfEven (q : ℚ) : Int :=
  let f := ⌊q⌋
  let d := q - f
  if d < 1 / 2 then f
  else if 1 / 2 < d then f + 1
  else if f % 2 = 0 then f else f + 1

/-- The multiple of the `float32` spacing nearest to a positive rational `m`,
ties to even: 24 significant bits at the exponent of `m`, and the spacing
`2^-149` of the subnormal numbers below `2^-126`. -/
def roundPos (m : ℚ) : ℚ :=
  let e : Int := max (floorLog2 m) (-126)
  let ulp : ℚ := 2 ^ (e - 23)
  (roundHalfEven (m / ulp) : ℚ) * ulp

/-- A `float32` value. The type is wider than `float32`: `num q` exists for
every rational `q`, while a `float32` number is a non-zero `q` with 24
significant bits in the exponent range. `Score.round` and the operations built
on it return `float32` values, the fixtures use `float32` values, and what is
established for all values of the type holds for the `float32` values among
them. -/
inductive Score where
  | nan
  | inf (negative : Bool)
  | zero (negative : Bool)
  | num (q : ℚ)
deriving DecidableEq

/-- Rounding of an exact result to `float32`: to the nearest value, ties to
even; a result that rounds to `2^128` or beyond overflows to an infinity, one
that rounds to nothing underflows to the zero of its sign. -/
def Score.round (q : ℚ) : Score :=
  if q = 0 then .zero false
  else
    let v := roundPos (if q < 0 then -q else q)
    if v = 0 then .zero (decide (q < 0))
    else if (2 : ℚ) ^ (128 : Nat) ≤ v then .inf (decide (q < 0))
    else .num (if q < 0 then -v else v)

/-- The value is a not-a-number. -/
def Score.isNaN : Score → Bool
  | .nan => true
  | _ => false

/-- The value is an infinity. -/
def Score.isInf : Score → Bool
  | .inf _ => true
  | _ => false

/-- The sign bit of a value that is a number. -/
def Score.negative : Score → Bool
  | .nan => false
  | .inf s => s
  | .zero s => s
  | .num q => decide (q < 0)

/-- The rational that a finite value denotes (0 for the others). -/
def Score.val : Score → ℚ
  | .num q => q
  | _ => 0

/-- The side of the number line: -1 and 1 for the infinities, 0 otherwise. -/
def Score.cls : Score → Int
  | .inf true => -1
  | .inf false => 1
  | _ => 0

/-- The comparison `a < b` of `float32`: false when either side is a
not-a-number; the two zeros are equal. -/
def Score.lt (a b : Score) : Bool :=
  !a.isNaN && !b.isNaN &&
    (decide (a.cls < b.cls) || (decide (a.cls = b.cls) && decide (a.val < b.val)))

/-- The comparison `a <= b` of `float32`: false when either side is a
not-a-number. -/
def Score.le (a b : Score) : Bool :=
  !a.isNaN && !b.isNaN && !b.lt a

/-- The sum `a + b` of `float32`. -/
def Score.add : Score → Score → Score
  | .nan, _ => .nan
  | _, .nan => .nan
  | .inf s, .inf t => if s = t then .inf s else .nan
  | .inf s, _ => .inf s
  | _, .inf t => .inf t
  | .zero s, .zero t => .zero (s && t)
  | a, b => if a.val + b.val = 0 then .zero false else Score.round (a.val + b.val)

/-- The product `a * b` of `float32`. -/
def Score.mul (a b : Score) : Score :=
  if a.isNaN || b.isNaN then .nan
  else if a.isInf || b.isInf then
    if decide (a.val = 0) && !a.isInf || decide (b.val = 0) && !b.isInf then .nan
    else .inf (xor a.negative b.negative)
  else if a.val * b.val = 0 then .zero (xor a.negative b.negative)
  else Score.round (a.val * b.val)

/-- The quotient `a / b` of `float32`. -/
def Score.div (a b : Score) : Score :=
  if a.isNaN || b.isNaN then .nan
  else if a.isInf then
    if b.isInf then .nan else .inf (xor a.negative b.negative)
  else if b.isInf then .zero (xor a.negative b.negative)
  else if b.val = 0 then
    if a.val = 0 then .nan else .inf (xor a.negative b.negative)
  else if a.val / b.val = 0 then .zero (xor a.negative b.negative)
  else Score.round (a.val / b.val)

/-- The conversion `float32(n)` of an integer. -/
def Score.ofInt (n : Int) : Score := Score.round n

instance : OfNat Score n := ⟨Score.round n⟩
instance : IntCast Score := ⟨Score.ofInt⟩
instance : Add Score := ⟨Score.add⟩
instance : Mul Score := ⟨Score.mul⟩
instance : Div Score := ⟨Score.div⟩
instance : LT Score := ⟨fun a b => a.lt b = true⟩
instance : LE Score := ⟨fun a b => a.le b = true⟩
instance (a b : Score) : Decidable (a < b) := inferInstanceAs (Decidable (a.lt b = true))
instance (a b : Score) : Decidable (a ≤ b) := inferInstanceAs (Decidable (a.le b = true))

/-! ## Data model -/

/-- How a call can end without a result: `log.Fatal` or a runtime panic. -/
inductive Failure where
  | fatal
  | panic
deriving DecidableEq, Repr

/-- Modelled from the spec: `types.IndexedDoc` is not among the source
files. Section 3 of the specification lists its components: `DocId`,
`TokenProximity` (signed), `BM25` (float), `TokenLocs` and `TokenSnippetLocs`
(sequences of token positions that the ranker only passes through). -/
structure IndexedDoc where
  DocId : Nat
  TokenProximity : Int
  BM25 : Score
  TokenSnippetLocs : List Int
  TokenLocs : List Int
deriving DecidableEq

/-- Modelled from the spec: `types.Attribute` is not among the source
files; the ranker reads only its `Value` component (`ori.Value`). -/
structure Attribute (ν : Type) where
  Value : ν
deriving DecidableEq

/-- A `map[string]types.Attribute` as an association list, read with
`List.lookup`. The `nil` map is `[]`. -/
abbrev AttrMap (ν : Type) := List (String × Attribute ν)

/-- Modelled from the spec: the type of `FilterOptions.Val` is not among
the source files. The ranker uses a filter value only through its method
`Compare(stored, op) (bool, error)`; the value is represented by that method. -/
structure FilterVal (ν ω : Type) where
  Compare : ν → ω → Except String Bool

/-- Modelled from the spec: `types.FilterOptions` is not among the
source files. Section 3 lists `Attr` (attribute name), `Val` (comparable
value) and `Op` (comparison operator). -/
structure FilterOptions (ν ω : Type) where
  Attr : String
  Val : FilterVal ν ω
  Op : ω

/-- The `ScoringCriteria` interface: one method `Score(doc, fields) []float32`.
The `fields` argument is an `interface{}`: `none` is the `nil` interface. -/
structure ScoringCriteria (φ : Type) where
  Score : IndexedDoc → Option φ → List Score

/-- Modelled from the spec: `types.RankOpts` is not among the source
files. Section 3 lists `ScoringCriteria`, `ReverseOrder`, `OutputOffset` and
`MaxOutputs`; the last two are Go `int`s. -/
structure RankOpts (φ : Type) where
  ScoringCriteria : ScoringCriteria φ
  ReverseOrder : Bool
  OutputOffset : Int
  MaxOutputs : Int

/-- Modelled from the spec: `types.ScoredID` is not among the source
files; its components are those the composite literal in `RankDocID` sets. -/
structure ScoredID where
  DocId : Nat
  Scores : List Score
  TokenSnippetLocs : List Int
  TokenLocs : List Int
deriving DecidableEq

/-- Modelled from the spec: `types.ScoredDoc` is not among the source
files; its components are those the composite literal in `RankDocs` sets. -/
structure ScoredDoc (φ ν : Type) where
  DocId : Nat
  Fields : Option φ
  Content : String
  Attri : AttrMap ν
  Scores : List Score
  TokenSnippetLocs : List Int
  TokenLocs : List Int
deriving DecidableEq

/-- The `Ranker` struct: the four maps guarded by the lock, and the two flags.
Map values of type `interface{}` are `Option φ` (`none` is a stored `nil`). -/
structure Ranker (φ ν : Type) where
  fields : Nat → Option (Option φ)
  docs : Nat → Option Bool
  content : Nat → Option String
  attri : Nat → Option (AttrMap ν)
  idOnly : Bool
  initialized : Bool

/-- The read `ranker.lock.fields[id]`: the zero value `nil` when `id` is no key. -/
def Ranker.fieldsAt {φ ν : Type} (r : Ranker φ ν) (id : Nat) : Option φ :=
  (r.fields id).getD none

/-- The read `ranker.lock.content[id]`: the empty string when `id` is no key. -/
def Ranker.contentAt {φ ν : Type} (r : Ranker φ ν) (id : Nat) : String :=
  (r.content id).getD ""

/-- The read `ranker.lock.attri[id]`: the `nil` map when `id` is no key. -/
def Ranker.attriAt {φ ν : Type} (r : Ranker φ ν) (id : Nat) : AttrMap ν :=
  (r.attri id).getD []

/-! ## Machine integers and pagination -/

/-- Largest Go `int` on a 64-bit platform. -/
def maxInt : Int := 2 ^ 63 - 1

/-- Smallest Go `int` on a 64-bit platform. -/
def minInt : Int := -(2 ^ 63)

/-- Reduction of a mathematical integer to the 64-bit two's-complement range. -/
def wrapInt (x : Int) : Int := (x + 2 ^ 63) % 2 ^ 64 - 2 ^ 63

/-- Go's `+` on `int`. -/
def addInt (a b : Int) : Int := wrapInt (a + b)

/-- Modelled from the spec: `utils.MinInt` is not among the source
files; the specification reads `utils.MinInt(a, b)` as `min(a, b)`. -/
def MinInt (a b : Int) : Int := if a < b then a else b

/-- The function `maxOutput` of `ranker.go`: the bounds `(start, end)` of the
page. -/
def maxOutput {φ : Type} (options : RankOpts φ) (docsLen : Int) : Int × Int :=
  if options.MaxOutputs ≠ 0 then
    (MinInt options.OutputOffset docsLen,
      MinInt (addInt options.OutputOffset options.MaxOutputs) docsLen)
  else
    (MinInt options.OutputOffset docsLen, docsLen)

/-- The slice expression `s[start:end]`. Go panics unless
`0 ≤ start ≤ end ≤ cap(s)`; `maxOutput` never returns an `end` above `len(s)`,
so the capacity is never consulted and the length stands in for it. -/
def sliceRange {α : Type} (s : List α) (start stop : Int) : Except Failure (List α) :=
  if 0 ≤ start ∧ start ≤ stop ∧ stop ≤ (s.length : Int) then
    .ok ((s.drop start.toNat).take (stop.toNat - start.toNat))
  else
    .error Failure.panic

/-! ## Ordering of results -/

/-- Modelled from the spec: the method `Less` of `types.ScoredDocs` and
`types.ScoredIDs` is not among the source files. The specification orders
results by their primary (first) score; the tests `TestEngineIndexDoc` and
`TestReverseOrder` fix the direction: `Less(i, j)` holds when record `i` has the
HIGHER score, so that plain `sort.Sort` puts the best document first. The
comparisons are those of `float32`: where neither score is greater than the
other (equal numbers, or a not-a-number on either side) the next position is
looked at, and the longer sequence comes first when one is used up. The
properties established about the order of results speak of the primary score
only. -/
def lessScores : List Score → List Score → Bool
  | x :: xs, y :: ys =>
    if x > y then true
    else if x < y then false
    else lessScores xs ys
  | xs, ys => decide (xs.length > ys.length)

/-- The method `ScoredIDs.Less`, on the records themselves. -/
def ScoredIDs.Less (a b : ScoredID) : Bool := lessScores a.Scores b.Scores

/-- The method `ScoredDocs.Less`, on the records themselves. -/
def ScoredDocs.Less {φ ν : Type} (a b : ScoredDoc φ ν) : Bool :=
  lessScores a.Scores b.Scores

/-- The standard-library call `sort.Sort(data)`: given the `Less` of the
collection it returns the rearranged collection. -/
structure Sorter where
  sort : {α : Type} → (α → α → Bool) → List α → List α

/-- The comparison `sort.Reverse(data).Less`: the arguments change places. -/
def reverseLess {α : Type} (less : α → α → Bool) : α → α → Bool :=
  fun a b => less b a

/-! ## The ranking loops -/

/-- One iteration of the loop of `RankDocID` on candidate `d`; the state is
`(outputDocs, numDocs)`. -/
def RankDocID.visit {φ ν : Type} (r : Ranker φ ν) (options : RankOpts φ)
    (countDocsOnly : Bool) (st : List ScoredID × Nat) (d : IndexedDoc) :
    List ScoredID × Nat :=
  match r.docs d.DocId with
  | some _ =>
    let fs := r.fieldsAt d.DocId
    let scores := options.ScoringCriteria.Score d fs
    if scores.length > 0 then
      let outputDocs :=
        if !countDocsOnly then
          st.1 ++ [{ DocId := d.DocId, Scores := scores,
                     TokenSnippetLocs := d.TokenSnippetLocs, TokenLocs := d.TokenLocs }]
        else st.1
      (outputDocs, st.2 + 1)
    else st
  | none => st

/-- The function `Ranker.RankDocID`. -/
def RankDocID {φ ν : Type} (S : Sorter) (r : Ranker φ ν) (docs : List IndexedDoc)
    (options : RankOpts φ) (countDocsOnly : Bool) :
    Except Failure (List ScoredID × Nat) :=
  let st := docs.foldl (RankDocID.visit r options countDocsOnly) ([], 0)
  if !countDocsOnly then
    let outputDocs :=
      if options.ReverseOrder then S.sort (reverseLess ScoredIDs.Less) st.1
      else S.sort ScoredIDs.Less st.1
    let docsLen : Int := outputDocs.length
    let bounds := maxOutput options docsLen
    (sliceRange outputDocs bounds.1 bounds.2).map (fun page => (page, st.2))
  else
    .ok (st.1, st.2)

/-- The filter loop of `RankDocs` for one document: `true` when the loop leaves
`overFlag` at 1. A missing attribute and a failed comparison are logged and the
loop goes on; a comparison that answers `false` sets the flag and breaks. -/
def RankDocs.overFlag {ν ω : Type} (attri : AttrMap ν) :
    List (FilterOptions ν ω) → Bool
  | [] => false
  | f :: rest =>
    match attri.lookup f.Attr with
    | some ori =>
      match f.Val.Compare ori.Value f.Op with
      | .ok res => if res == true then RankDocs.overFlag attri rest else true
      | .error _ => RankDocs.overFlag attri rest
    | none => RankDocs.overFlag attri rest

/-- The filter step of `RankDocs` with the `nil` slice told apart from the
empty one: `if filterOpt != nil { for _, f := range filterOpt { ... } }`. The
value `none` is the `nil` slice. -/
def RankDocs.overFlagOf {ν ω : Type} (attri : AttrMap ν) :
    Option (List (FilterOptions ν ω)) → Bool
  | none => false
  | some filterOpt => RankDocs.overFlag attri filterOpt

/-- One iteration of the loop of `RankDocs` on candidate `d`; the state is
`(outputDocs, numDocs)`. The `continue` of the source leaves the iteration
before `numDocs++`. -/
def RankDocs.visit {φ ν ω : Type} (r : Ranker φ ν) (options : RankOpts φ)
    (countDocsOnly : Bool) (filterOpt : List (FilterOptions ν ω))
    (st : List (ScoredDoc φ ν) × Nat) (d : IndexedDoc) :
    List (ScoredDoc φ ν) × Nat :=
  match r.docs d.DocId with
  | some _ =>
    let fs := r.fieldsAt d.DocId
    let content := r.contentAt d.DocId
    let attri := r.attriAt d.DocId
    let scores := options.ScoringCriteria.Score d fs
    if scores.length > 0 then
      if !countDocsOnly then
        if RankDocs.overFlag attri filterOpt then
          st
        else
          (st.1 ++ [{ DocId := d.DocId, Fields := fs, Content := content, Attri := attri,
                      Scores := scores, TokenSnippetLocs := d.TokenSnippetLocs,
                      TokenLocs := d.TokenLocs }], st.2 + 1)
      else (st.1, st.2 + 1)
    else st
  | none => st

/-- The function `Ranker.RankDocs`. -/
def RankDocs {φ ν ω : Type} (S : Sorter) (r : Ranker φ ν) (docs : List IndexedDoc)
    (options : RankOpts φ) (countDocsOnly : Bool)
    (filterOpt : List (FilterOptions ν ω)) (orderAtTheEnd : Bool) :
    Except Failure (List (ScoredDoc φ ν) × Nat) :=
  let st := docs.foldl (RankDocs.visit r options countDocsOnly filterOpt) ([], 0)
  if !countDocsOnly && !orderAtTheEnd then
    let outputDocs :=
      if options.ReverseOrder then S.sort (reverseLess ScoredDocs.Less) st.1
      else S.sort ScoredDocs.Less st.1
    let docsLen : Int := outputDocs.length
    let bounds := maxOutput options docsLen
    (sliceRange outputDocs bounds.1 bounds.2).map (fun page => (page, st.2))
  else
    .ok (st.1, st.2)

/-- The `interface{}` that `Rank` returns: a `types.ScoredIDs` or a
`types.ScoredDocs`. -/
inductive RankOutput (φ ν : Type) where
  | ids (out : List ScoredID)
  | docs (out : List (ScoredDoc φ ν))
deriving DecidableEq

/-- The function `Ranker.Rank`. -/
def Rank {φ ν ω : Type} (S : Sorter) (r : Ranker φ ν) (docs : List IndexedDoc)
    (options : RankOpts φ) (countDocsOnly : Bool)
    (filterOpt : List (FilterOptions ν ω)) (orderAtTheEnd : Bool) :
    Except Failure (RankOutput φ ν × Nat) :=
  if r.initialized == false then
    .error Failure.fatal
  else if r.idOnly then
    (RankDocID S r docs options countDocsOnly).map
      (fun res => (RankOutput.ids res.1, res.2))
  else
    (RankDocs S r docs options countDocsOnly filterOpt orderAtTheEnd).map
      (fun res => (RankOutput.docs res.1, res.2))

/-! ## The registry operations -/

/-- How a call of `Init`, `AddDoc` or `RemoveDoc` ends: the registry it leaves
behind, and the failure if it did not return normally. -/
structure Effect (φ ν : Type) where
  state : Ranker φ ν
  failure : Option Failure

/-- A Go map without keys (`make(map...)`; also how a `nil` map reads). -/
def emptyMap {α : Type} : Nat → Option α := fun _ => none

/-- The assignment `m[k] = v`. -/
def mapSet {α : Type} (m : Nat → Option α) (k : Nat) (v : α) : Nat → Option α :=
  fun i => if i = k then some v else m i

/-- The statement `delete(m, k)`. -/
def mapDelete {α : Type} (m : Nat → Option α) (k : Nat) : Nat → Option α :=
  fun i => if i = k then none else m i

/-- The zero value of the `Ranker` struct (`var ranker Ranker`): `nil` maps and
both flags unset. -/
def Ranker.zero {φ ν : Type} : Ranker φ ν where
  fields := emptyMap
  docs := emptyMap
  content := emptyMap
  attri := emptyMap
  idOnly := false
  initialized := false

/-- One of the variadic `content ...interface{}` arguments of `AddDoc`, told
apart by its dynamic type: the `nil` interface, a `string`, a
`map[string]types.Attribute`, or a value of another type (named by a tag). -/
inductive ContentArg (ν : Type) where
  | nil
  | str (s : String)
  | attrs (m : AttrMap ν)
  | other (tag : Nat)

/-- The function `Ranker.Init`. -/
def Init {φ ν : Type} (r : Ranker φ ν) (onlyID : List Bool) : Effect φ ν :=
  if r.initialized == true then
    { state := r, failure := some Failure.fatal }
  else
    let r1 : Ranker φ ν :=
      { r with initialized := true, fields := emptyMap, docs := emptyMap }
    let r2 : Ranker φ ν :=
      match onlyID with
      | b :: _ => { r1 with idOnly := b }
      | [] => r1
    if !r2.idOnly then
      { state := { r2 with content := emptyMap, attri := emptyMap }, failure := none }
    else
      { state := r2, failure := none }

/-- The statement `if len(content) > 0 { ranker.lock.content[docId] =
content[0].(string) }` of `AddDoc`: the type assertion panics on anything but a
string. -/
def AddDoc.storeContent {φ ν : Type} (r : Ranker φ ν) (docId : Nat)
    (content : List (ContentArg ν)) : Effect φ ν :=
  match content with
  | [] => { state := r, failure := none }
  | ContentArg.str s :: _ =>
    { state := { r with content := mapSet r.content docId s }, failure := none }
  | _ :: _ => { state := r, failure := some Failure.panic }

/-- The statement `if len(content) > 1 { if c, ok :=
content[1].(map[string]types.Attribute); ok { ranker.lock.attri[docId] = c } }`
of `AddDoc`. -/
def AddDoc.storeAttri {φ ν : Type} (r : Ranker φ ν) (docId : Nat)
    (content : List (ContentArg ν)) : Ranker φ ν :=
  match content with
  | _ :: ContentArg.attrs c :: _ => { r with attri := mapSet r.attri docId c }
  | _ => r

/-- The function `Ranker.AddDoc`. A panic of the type assertion leaves the
entries already written in place. -/
def AddDoc {φ ν : Type} (r : Ranker φ ν) (docId : Nat) (fields : Option φ)
    (content : List (ContentArg ν)) : Effect φ ν :=
  if r.initialized == false then
    { state := r, failure := some Failure.fatal }
  else
    let r1 : Ranker φ ν :=
      { r with fields := mapSet r.fields docId fields, docs := mapSet r.docs docId true }
    if !r1.idOnly then
      let e := AddDoc.storeContent r1 docId content
      match e.failure with
      | some f => { state := e.state, failure := some f }
      | none => { state := AddDoc.storeAttri e.state docId content, failure := none }
    else
      { state := r1, failure := none }

/-- The function `Ranker.RemoveDoc`. -/
def RemoveDoc {φ ν : Type} (r : Ranker φ ν) (docId : Nat) : Effect φ ν :=
  if r.initialized == false then
    { state := r, failure := some Failure.fatal }
  else
    let r1 : Ranker φ ν :=
      { r with fields := mapDelete r.fields docId, docs := mapDelete r.docs docId }
    if !r1.idOnly then
      { state := { r1 with content := mapDelete r1.content docId,
                           attri := mapDelete r1.attri docId },
        failure := none }
    else
      { state := r1, failure := none }

/-- The registry states that calls can produce: `Init` on the zero value,
followed by any `AddDoc` and `RemoveDoc` calls that return normally. -/
inductive Reachable {φ ν : Type} : Ranker φ ν → Prop where
  | init (onlyID : List Bool) : Reachable (Init Ranker.zero onlyID).state
  | addDoc {r : Ranker φ ν} (docId : Nat) (fields : Option φ)
      (content : List (ContentArg ν)) :
      Reachable r → (AddDoc r docId fields content).failure = none →
      Reachable (AddDoc r docId fields content).state
  | removeDoc {r : Ranker φ ν} (docId : Nat) :
      Reachable r → (RemoveDoc r docId).failure = none →
      Reachable (RemoveDoc r docId).state

/-! ## The ranking code with its effects

The same functions once more, statement by statement, over a machine state that
holds the registry, the hold counter of the read lock and the sequence of
effects performed: lock operations, calls of `Score` and `Compare`, and log
lines. -/

/-- An effect of the ranking code. Calls of `Score` and `Compare` record the
value of the read-lock hold counter at the time of the call. -/
inductive Event where
  | rlock
  | runlock
  | score (docId : Nat) (held : Nat)
  | compare (attr : String) (held : Nat)
  | logError (err : String)
  | logWarning (attr : String)
deriving DecidableEq

/-- The machine state of a `Rank` call. -/
structure Machine (φ ν : Type) where
  ranker : Ranker φ ν
  held : Nat
  trace : List Event

/-- The call `ranker.lock.RLock()`. -/
def Machine.RLock {φ ν : Type} (m : Machine φ ν) : Machine φ ν :=
  { m with held := m.held + 1, trace := m.trace ++ [Event.rlock] }

/-- The call `ranker.lock.RUnlock()`. -/
def Machine.RUnlock {φ ν : Type} (m : Machine φ ν) : Machine φ ν :=
  { m with held := m.held - 1, trace := m.trace ++ [Event.runlock] }

/-- Recording of one effect. -/
def Machine.emit {φ ν : Type} (m : Machine φ ν) (e : Event) : Machine φ ν :=
  { m with trace := m.trace ++ [e] }

/-- One iteration of the loop of `RankDocID`, with effects. -/
def RankDocID.visitRun {φ ν : Type} (options : RankOpts φ) (countDocsOnly : Bool)
    (st : (List ScoredID × Nat) × Machine φ ν) (d : IndexedDoc) :
    (List ScoredID × Nat) × Machine φ ν :=
  let m1 := st.2.RLock
  match m1.ranker.docs d.DocId with
  | some _ =>
    let fs := m1.ranker.fieldsAt d.DocId
    let m2 := m1.RUnlock
    let m3 := m2.emit (Event.score d.DocId m2.held)
    let scores := options.ScoringCriteria.Score d fs
    if scores.length > 0 then
      let outputDocs :=
        if !countDocsOnly then
          st.1.1 ++ [{ DocId := d.DocId, Scores := scores,
                       TokenSnippetLocs := d.TokenSnippetLocs, TokenLocs := d.TokenLocs }]
        else st.1.1
      ((outputDocs, st.1.2 + 1), m3)
    else (st.1, m3)
  | none => (st.1, m1.RUnlock)

/-- The function `Ranker.RankDocID`, with effects. -/
def RankDocID.run {φ ν : Type} (S : Sorter) (m : Machine φ ν) (docs : List IndexedDoc)
    (options : RankOpts φ) (countDocsOnly : Bool) :
    Except Failure (List ScoredID × Nat) × Machine φ ν :=
  let st := docs.foldl (RankDocID.visitRun options countDocsOnly) (([], 0), m)
  if !countDocsOnly then
    let outputDocs :=
      if options.ReverseOrder then S.sort (reverseLess ScoredIDs.Less) st.1.1
      else S.sort ScoredIDs.Less st.1.1
    let docsLen : Int := outputDocs.length
    let bounds := maxOutput options docsLen
    ((sliceRange outputDocs bounds.1 bounds.2).map (fun page => (page, st.1.2)), st.2)
  else
    (.ok (st.1.1, st.1.2), st.2)

/-- The filter loop of `RankDocs` for one document, with effects: the flag
`overFlag == 1` and the machine state after the loop. -/
def RankDocs.filterRun {φ ν ω : Type} (attri : AttrMap ν) :
    List (FilterOptions ν ω) → Machine φ ν → Bool × Machine φ ν
  | [], m => (false, m)
  | f :: rest, m =>
    match attri.lookup f.Attr with
    | some ori =>
      let m1 := m.emit (Event.compare f.Attr m.held)
      match f.Val.Compare ori.Value f.Op with
      | .ok res => if res == true then RankDocs.filterRun attri rest m1 else (true, m1)
      | .error err => RankDocs.filterRun attri rest (m1.emit (Event.logError err))
    | none => RankDocs.filterRun attri rest (m.emit (Event.logWarning f.Attr))

/-- One iteration of the loop of `RankDocs`, with effects. -/
def RankDocs.visitRun {φ ν ω : Type} (options : RankOpts φ) (countDocsOnly : Bool)
    (filterOpt : List (FilterOptions ν ω))
    (st : (List (ScoredDoc φ ν) × Nat) × Machine φ ν) (d : IndexedDoc) :
    (List (ScoredDoc φ ν) × Nat) × Machine φ ν :=
  let m1 := st.2.RLock
  match m1.ranker.docs d.DocId with
  | some _ =>
    let fs := m1.ranker.fieldsAt d.DocId
    let content := m1.ranker.contentAt d.DocId
    let attri := m1.ranker.attriAt d.DocId
    let m2 := m1.RUnlock
    let m3 := m2.emit (Event.score d.DocId m2.held)
    let scores := options.ScoringCriteria.Score d fs
    if scores.length > 0 then
      if !countDocsOnly then
        let filtered := RankDocs.filterRun attri filterOpt m3
        if filtered.1 then
          (st.1, filtered.2)
        else
          ((st.1.1 ++ [{ DocId := d.DocId, Fields := fs, Content := content,
                         Attri := attri, Scores := scores,
                         TokenSnippetLocs := d.TokenSnippetLocs,
                         TokenLocs := d.TokenLocs }], st.1.2 + 1), filtered.2)
      else ((st.1.1, st.1.2 + 1), m3)
    else (st.1, m3)
  | none => (st.1, m1.RUnlock)

/-- The function `Ranker.RankDocs`, with effects. -/
def RankDocs.run {φ ν ω : Type} (S : Sorter) (m : Machine φ ν) (docs : List IndexedDoc)
    (options : RankOpts φ) (countDocsOnly : Bool)
    (filterOpt : List (FilterOptions ν ω)) (orderAtTheEnd : Bool) :
    Except Failure (List (ScoredDoc φ ν) × Nat) × Machine φ ν :=
  let st := docs.foldl (RankDocs.visitRun options countDocsOnly filterOpt) (([], 0), m)
  if !countDocsOnly && !orderAtTheEnd then
    let outputDocs :=
      if options.ReverseOrder then S.sort (reverseLess ScoredDocs.Less) st.1.1
      else S.sort ScoredDocs.Less st.1.1
    let docsLen : Int := outputDocs.length
    let bounds := maxOutput options docsLen
    ((sliceRange outputDocs bounds.1 bounds.2).map (fun page => (page, st.1.2)), st.2)
  else
    (.ok (st.1.1, st.1.2), st.2)

/-- The function `Ranker.Rank`, with effects. -/
def Rank.run {φ ν ω : Type} (S : Sorter) (m : Machine φ ν) (docs : List IndexedDoc)
    (options : RankOpts φ) (countDocsOnly : Bool)
    (filterOpt : List (FilterOptions ν ω)) (orderAtTheEnd : Bool) :
    Except Failure (RankOutput φ ν × Nat) × Machine φ ν :=
  if m.ranker.initialized == false then
    (.error Failure.fatal, m)
  else if m.ranker.idOnly then
    let res := RankDocID.run S m docs options countDocsOnly
    (res.1.map (fun out => (RankOutput.ids out.1, out.2)), res.2)
  else
    let res := RankDocs.run S m docs options countDocsOnly filterOpt orderAtTheEnd
    (res.1.map (fun out => (RankOutput.docs out.1, out.2)), res.2)

/-! ## A concrete `sort.Sort` for small inputs -/

/-- One run of the inner loop of `sort.insertionSort`: the new element `x` moves
left while `Less(x, left neighbour)` holds. The sorted stretch is passed last
element first. -/
def insertBack {α : Type} (less : α → α → Bool) (x : α) : List α → List α
  | [] => [x]
  | y :: ys => if less x y then y :: insertBack less x ys else x :: y :: ys

/-- The function `sort.insertionSort` on a whole slice. -/
def insertionSort {α : Type} (less : α → α → Bool) (xs : List α) : List α :=
  (xs.foldl (fun acc x => insertBack less x acc) []).reverse

/-- Compare-and-swap of the elements at equal positions of two stretches: the
element of the second stretch moves forward when `Less` puts it first. -/
def exchange {α : Type} (less : α → α → Bool) : List α → List α → List α × List α
  | a :: as, b :: bs =>
    let rest := exchange less as bs
    if less b a then (b :: rest.1, a :: rest.2) else (a :: rest.1, b :: rest.2)
  | as, bs => (as, bs)

/-- The pass with gap 6 that `sort.quickSort` runs on a stretch of at most 12
elements: `for i := a + 6; i < b; i++ { if Less(i, i-6) { Swap(i, i-6) } }`. -/
def shellPass {α : Type} (less : α → α → Bool) (xs : List α) : List α :=
  let halves := exchange less (xs.take 6) (xs.drop 6)
  halves.1 ++ halves.2

/-- What `sort.Sort` does to a slice of at most 12 elements in the Go releases
up to 1.18: the gap-6 pass of `quickSort`, then `insertionSort`. These are the
releases the repository's tests are written for (`TestTry` expects the panic
text `index out of range` without index and length, as the older runtimes print
it). From Go 1.19 on such a slice goes through `insertionSort` alone; on six
elements or fewer the gap-6 pass does nothing and all releases agree. On longer
inputs this function is one more sorter that meets the contract, nothing else. -/
def smallSort : Sorter where
  sort := fun less xs => insertionSort less (shellPass less xs)

/-! ## `sort.Sort` from Go 1.19 on

The pattern-defeating quicksort of `sort/zsortinterface.go` in the Go releases
from 1.19 on, function by function, on a collection held as a list.
`Less(i, j)` and `Swap(i, j)` go by index, as through `sort.Interface`. A loop
carries a bound on the number of its rounds; the length of the collection is
always enough. -/

/-- The call `data.Less(i, j)`. -/
def lessAt {α : Type} (less : α → α → Bool) (xs : List α) (i j : Nat) : Bool :=
  match xs[i]?, xs[j]? with
  | some a, some b => less a b
  | _, _ => false

/-- The call `data.Swap(i, j)`. -/
def swapAt {α : Type} (xs : List α) (i j : Nat) : List α :=
  match xs[i]?, xs[j]? with
  | some a, some b => (xs.set i b).set j a
  | _, _ => xs

/-- The inner loop of `insertionSort`:
`for j := i; j > a && data.Less(j, j-1); j-- { data.Swap(j, j-1) }`. -/
def pdqsort.sink {α : Type} (less : α → α → Bool) (a : Nat) : Nat → List α → List α
  | 0, xs => xs
  | j + 1, xs =>
    if j + 1 > a && lessAt less xs (j + 1) j then
      pdqsort.sink less a j (swapAt xs (j + 1) j)
    else xs

/-- The function `insertionSort(data, a, b)`:
`for i := a + 1; i < b; i++`, the inner loop. -/
def pdqsort.insertionSort {α : Type} (less : α → α → Bool) (xs : List α) (a b : Nat) :
    List α :=
  (List.range' (a + 1) (b - (a + 1))).foldl (fun acc i => pdqsort.sink less a i acc) xs

/-- The function `siftDown(data, lo, hi, first)`, with `root` starting at `lo`. -/
def pdqsort.siftDown {α : Type} (less : α → α → Bool) (hi first : Nat) :
    Nat → Nat → List α → List α
  | 0, _, xs => xs
  | fuel + 1, root, xs =>
    if 2 * root + 1 ≥ hi then xs
    else
      let child :=
        if 2 * root + 1 + 1 < hi &&
            lessAt less xs (first + (2 * root + 1)) (first + (2 * root + 1) + 1) then
          2 * root + 1 + 1
        else 2 * root + 1
      if !lessAt less xs (first + root) (first + child) then xs
      else pdqsort.siftDown less hi first fuel child (swapAt xs (first + root) (first + child))

/-- The function `heapSort(data, a, b)`: build the heap
(`for i := (hi - 1) / 2; i >= 0; i--`), then pop the elements
(`for i := hi - 1; i >= 0; i--`). -/
def pdqsort.heapSort {α : Type} (less : α → α → Bool) (xs : List α) (a b : Nat) : List α :=
  let built := (List.range ((b - a - 1) / 2 + 1)).reverse.foldl
    (fun acc i => pdqsort.siftDown less (b - a) a (b - a) i acc) xs
  (List.range (b - a)).reverse.foldl
    (fun acc i => pdqsort.siftDown less i a (b - a) 0 (swapAt acc a (a + i))) built

/-- The function `bits.Len`: the number of bits of `n`. -/
def bitsLen (n : Nat) : Nat := if n = 0 then 0 else natLog2 n + 1

/-- The function `nextPowerOfTwo`: `1 << bits.Len(uint(length))`. -/
def nextPowerOfTwo (length : Nat) : Nat := 2 ^ bitsLen length

/-- The method `Next` of `xorshift`, on a `uint64`:
`r ^= r << 13; r ^= r >> 17; r ^= r << 5`. -/
def xorshift.Next (r : Nat) : Nat :=
  let r₁ := r ^^^ ((r <<< 13) % 2 ^ 64)
  let r₂ := r₁ ^^^ (r₁ >>> 17)
  r₂ ^^^ ((r₂ <<< 5) % 2 ^ 64)

/-- The function `breakPatterns(data, a, b)`: three swaps around the middle
with places drawn from `xorshift(length)`. -/
def pdqsort.breakPatterns {α : Type} (xs : List α) (a b : Nat) : List α :=
  if b - a ≥ 8 then
    ((List.range 3).foldl
      (fun (st : List α × Nat) i =>
        let random := xorshift.Next st.2
        let other := random &&& (nextPowerOfTwo (b - a) - 1)
        (swapAt st.1 (a + (b - a) / 4 * 2 - 1 - 1 + i)
          (a + (if other ≥ b - a then other - (b - a) else other)), random))
      (xs, b - a)).1
  else xs

/-- The type `sortedHint`. -/
inductive sortedHint where
  | unknownHint
  | increasingHint
  | decreasingHint
deriving DecidableEq

/-- The function `order2(data, a, b, swaps)`: the two indices in order, and the
count of swaps. -/
def pdqsort.order2 {α : Type} (less : α → α → Bool) (xs : List α) (a b swaps : Nat) :
    Nat × Nat × Nat :=
  if lessAt less xs b a then (b, a, swaps + 1) else (a, b, swaps)

/-- The function `median(data, a, b, c, swaps)`: the index of the median and
the count of swaps. -/
def pdqsort.median {α : Type} (less : α → α → Bool) (xs : List α) (a b c swaps : Nat) :
    Nat × Nat :=
  let ab := pdqsort.order2 less xs a b swaps
  let bc := pdqsort.order2 less xs ab.2.1 c ab.2.2
  let ab' := pdqsort.order2 less xs ab.1 bc.1 bc.2.2
  (ab'.2.1, ab'.2.2)

/-- The function `medianAdjacent(data, a, swaps)`. -/
def pdqsort.medianAdjacent {α : Type} (less : α → α → Bool) (xs : List α) (a swaps : Nat) :
    Nat × Nat :=
  pdqsort.median less xs (a - 1) a (a + 1) swaps

/-- The function `choosePivot(data, a, b)`: a static pivot below 8 elements,
the median of three below 50, the Tukey ninther from 50 on. -/
def pdqsort.choosePivot {α : Type} (less : α → α → Bool) (xs : List α) (a b : Nat) :
    Nat × sortedHint :=
  let l := b - a
  let i := a + l / 4 * 1
  let j := a + l / 4 * 2
  let k := a + l / 4 * 3
  let r : Nat × Nat :=
    if l ≥ 8 then
      if l ≥ 50 then
        let i' := pdqsort.medianAdjacent less xs i 0
        let j' := pdqsort.medianAdjacent less xs j i'.2
        let k' := pdqsort.medianAdjacent less xs k j'.2
        pdqsort.median less xs i'.1 j'.1 k'.1 k'.2
      else pdqsort.median less xs i j k 0
    else (j, 0)
  if r.2 = 0 then (r.1, .increasingHint)
  else if r.2 = 4 * 3 then (r.1, .decreasingHint)
  else (r.1, .unknownHint)

/-- The loop `for i < j { data.Swap(i, j); i++; j-- }` of `reverseRange`. -/
def pdqsort.reverseLoop {α : Type} : Nat → List α → Nat → Nat → List α
  | 0, xs, _, _ => xs
  | fuel + 1, xs, i, j =>
    if i < j then pdqsort.reverseLoop fuel (swapAt xs i j) (i + 1) (j - 1) else xs

/-- The function `reverseRange(data, a, b)`: the loop from `i := a` and
`j := b - 1`. -/
def pdqsort.reverseRange {α : Type} (xs : List α) (a b : Nat) : List α :=
  pdqsort.reverseLoop xs.length xs a (b - 1)

/-- The loop `for i < b && !data.Less(i, i-1) { i++ }` of `partialInsertionSort`. -/
def pdqsort.ordered {α : Type} (less : α → α → Bool) (xs : List α) (b : Nat) :
    Nat → Nat → Nat
  | 0, i => i
  | fuel + 1, i =>
    if i < b && !lessAt less xs i (i - 1) then pdqsort.ordered less xs b fuel (i + 1) else i

/-- The loop of `partialInsertionSort` that shifts the smaller element to the
left: `for j := i - 1; j >= 1; j--`, stopping at the first `!data.Less(j, j-1)`. -/
def pdqsort.shiftSmaller {α : Type} (less : α → α → Bool) : Nat → List α → List α
  | 0, xs => xs
  | j + 1, xs =>
    if !lessAt less xs (j + 1) j then xs
    else pdqsort.shiftSmaller less j (swapAt xs (j + 1) j)

/-- The loop of `partialInsertionSort` that shifts the greater element to the
right: `for j := i + 1; j < b; j++`, stopping at the first `!data.Less(j, j-1)`. -/
def pdqsort.shiftGreater {α : Type} (less : α → α → Bool) (b : Nat) :
    Nat → Nat → List α → List α
  | 0, _, xs => xs
  | fuel + 1, j, xs =>
    if j < b then
      if !lessAt less xs j (j - 1) then xs
      else pdqsort.shiftGreater less b fuel (j + 1) (swapAt xs j (j - 1))
    else xs

/-- The rounds of `partialInsertionSort(data, a, b)` (at most `maxSteps = 5`),
with `i` carried from round to round; it gives up at the first pair out of
order when the stretch has fewer than `shortestShifting = 50` elements. -/
def pdqsort.partialSteps {α : Type} (less : α → α → Bool) (a b : Nat) :
    Nat → Nat → List α → List α × Bool
  | 0, _, xs => (xs, false)
  | steps + 1, i, xs =>
    let i' := pdqsort.ordered less xs b xs.length i
    if i' = b then (xs, true)
    else if b - a < 50 then (xs, false)
    else
      let xs₁ := swapAt xs i' (i' - 1)
      let xs₂ := if i' - a ≥ 2 then pdqsort.shiftSmaller less (i' - 1) xs₁ else xs₁
      let xs₃ := if b - i' ≥ 2 then pdqsort.shiftGreater less b xs.length (i' + 1) xs₂ else xs₂
      pdqsort.partialSteps less a b steps i' xs₃

/-- The function `partialInsertionSort(data, a, b)`: the collection, and
whether it is sorted at the end. -/
def pdqsort.partialInsertionSort {α : Type} (less : α → α → Bool) (xs : List α)
    (a b : Nat) : List α × Bool :=
  pdqsort.partialSteps less a b 5 (a + 1) xs

/-- The loop `for i <= j && p(i) { i++ }` of the two partition functions. -/
def pdqsort.forward (p : Nat → Bool) (j : Nat) : Nat → Nat → Nat
  | 0, i => i
  | fuel + 1, i => if i ≤ j && p i then pdqsort.forward p j fuel (i + 1) else i

/-- The loop `for i <= j && p(j) { j-- }` of the two partition functions. -/
def pdqsort.backward (p : Nat → Bool) (i : Nat) : Nat → Nat → Nat
  | 0, j => j
  | fuel + 1, j => if i ≤ j && p j then pdqsort.backward p i fuel (j - 1) else j

/-- The closing `for` loop of `partition`: both scans, then a swap, until the
scans cross; it returns the collection and `j`. -/
def pdqsort.partitionLoop {α : Type} (less : α → α → Bool) (a : Nat) :
    Nat → List α → Nat → Nat → List α × Nat
  | 0, xs, _, j => (xs, j)
  | fuel + 1, xs, i, j =>
    let i' := pdqsort.forward (fun i => lessAt less xs i a) j xs.length i
    let j' := pdqsort.backward (fun j => !lessAt less xs j a) i' xs.length j
    if i' > j' then (xs, j')
    else pdqsort.partitionLoop less a fuel (swapAt xs i' j') (i' + 1) (j' - 1)

/-- The function `partition(data, a, b, pivot)`: the collection, the new place
of the pivot, and whether the stretch was partitioned already. -/
def pdqsort.partition {α : Type} (less : α → α → Bool) (xs : List α) (a b pivot : Nat) :
    List α × Nat × Bool :=
  let xs₁ := swapAt xs a pivot
  let i := pdqsort.forward (fun i => lessAt less xs₁ i a) (b - 1) xs₁.length (a + 1)
  let j := pdqsort.backward (fun j => !lessAt less xs₁ j a) i xs₁.length (b - 1)
  if i > j then (swapAt xs₁ j a, j, true)
  else
    let r := pdqsort.partitionLoop less a xs₁.length (swapAt xs₁ i j) (i + 1) (j - 1)
    (swapAt r.1 r.2 a, r.2, false)

/-- The `for` loop of `partitionEqual`; it returns the collection and `i`. -/
def pdqsort.equalLoop {α : Type} (less : α → α → Bool) (a : Nat) :
    Nat → List α → Nat → Nat → List α × Nat
  | 0, xs, i, _ => (xs, i)
  | fuel + 1, xs, i, j =>
    let i' := pdqsort.forward (fun i => !lessAt less xs a i) j xs.length i
    let j' := pdqsort.backward (fun j => lessAt less xs a j) i' xs.length j
    if i' > j' then (xs, i')
    else pdqsort.equalLoop less a fuel (swapAt xs i' j') (i' + 1) (j' - 1)

/-- The function `partitionEqual(data, a, b, pivot)`: the collection and the
place where the elements greater than the pivot begin. -/
def pdqsort.partitionEqual {α : Type} (less : α → α → Bool) (xs : List α)
    (a b pivot : Nat) : List α × Nat :=
  pdqsort.equalLoop less a xs.length (swapAt xs a pivot) (a + 1) (b - 1)

/-- The function `pdqsort(data, a, b, limit)`. The flags `wasBalanced` and
`wasPartitioned` of its loop are arguments, both `true` at a call; a round of
the loop and a nested call each use up one unit of the bound. -/
def pdqsort {α : Type} (less : α → α → Bool) :
    Nat → List α → Nat → Nat → Nat → Bool → Bool → List α
  | 0, xs, _, _, _, _, _ => xs
  | fuel + 1, xs, a, b, limit, wasBalanced, wasPartitioned =>
    if b - a ≤ 12 then pdqsort.insertionSort less xs a b
    else if limit = 0 then pdqsort.heapSort less xs a b
    else
      let xs₁ := if !wasBalanced then pdqsort.breakPatterns xs a b else xs
      let limit₁ := if !wasBalanced then limit - 1 else limit
      let chosen := pdqsort.choosePivot less xs₁ a b
      let xs₂ :=
        if chosen.2 = .decreasingHint then pdqsort.reverseRange xs₁ a b
        else xs₁
      let pivot := if chosen.2 = .decreasingHint then (b - 1) - (chosen.1 - a) else chosen.1
      let hint := if chosen.2 = .decreasingHint then sortedHint.increasingHint else chosen.2
      let tried :=
        if wasBalanced && wasPartitioned && decide (hint = .increasingHint) then
          pdqsort.partialInsertionSort less xs₂ a b
        else (xs₂, false)
      if tried.2 then tried.1
      else if a > 0 && !lessAt less tried.1 (a - 1) pivot then
        let eq := pdqsort.partitionEqual less tried.1 a b pivot
        pdqsort less fuel eq.1 eq.2 b limit₁ wasBalanced wasPartitioned
      else
        let parted := pdqsort.partition less tried.1 a b pivot
        let mid := parted.2.1
        if mid - a < b - mid then
          pdqsort less fuel (pdqsort less fuel parted.1 a mid limit₁ true true)
            (mid + 1) b limit₁ (decide (mid - a ≥ (b - a) / 8)) parted.2.2
        else
          pdqsort less fuel (pdqsort less fuel parted.1 (mid + 1) b limit₁ true true)
            a mid limit₁ (decide (b - mid ≥ (b - a) / 8)) parted.2.2

/-- The function `sort.Sort` of the Go releases from 1.19 on:
`pdqsort(data, 0, n, bits.Len(uint(n)))` for `n > 1`. -/
def pdqSort : Sorter where
  sort := fun less xs =>
    if xs.length ≤ 1 then xs
    else pdqsort less (xs.length + 1) xs 0 xs.length (bitsLen xs.length) true true

/-! ## Specification vocabulary -/

/-- The requirement of `sort.Interface` on `Less`: a strict weak ordering. -/
structure StrictWeak {α : Type} (less : α → α → Bool) : Prop where
  asymm : ∀ a b, less a b = true → less b a = false
  incomp : ∀ a b c, less a b = false → less b c = false → less a c = false

/-- The documented contract of `sort.Sort`: the elements are rearranged, and
for a `Less` that is a strict weak ordering no element is followed by one that
`Less` puts before it. Nothing is promised about equal elements. -/
structure Sorter.Lawful (S : Sorter) : Prop where
  perm : ∀ {α : Type} (less : α → α → Bool) (xs : List α), (S.sort less xs).Perm xs
  sorted : ∀ {α : Type} (less : α → α → Bool) (xs : List α), StrictWeak less →
    (S.sort less xs).Pairwise (fun a b => less b a = false)

/-- The candidate's `DocId` is a key of the presence map. -/
def present {φ ν : Type} (r : Ranker φ ν) (d : IndexedDoc) : Bool :=
  (r.docs d.DocId).isSome

/-- The scores of candidate `d` under the fields registered for it. -/
def scoresOf {φ ν : Type} (r : Ranker φ ν) (options : RankOpts φ) (d : IndexedDoc) :
    List Score :=
  options.ScoringCriteria.Score d (r.fieldsAt d.DocId)

/-- Candidate `d` is present in the registry and has at least one score. -/
def scored {φ ν : Type} (r : Ranker φ ν) (options : RankOpts φ) (d : IndexedDoc) : Bool :=
  present r d && !(scoresOf r options d).isEmpty

/-- The `ScoredID` record built from candidate `d`. -/
def idRecord {φ ν : Type} (r : Ranker φ ν) (options : RankOpts φ) (d : IndexedDoc) :
    ScoredID :=
  { DocId := d.DocId, Scores := scoresOf r options d,
    TokenSnippetLocs := d.TokenSnippetLocs, TokenLocs := d.TokenLocs }

/-- The `ScoredDoc` record built from candidate `d`. -/
def docRecord {φ ν : Type} (r : Ranker φ ν) (options : RankOpts φ) (d : IndexedDoc) :
    ScoredDoc φ ν :=
  { DocId := d.DocId, Fields := r.fieldsAt d.DocId, Content := r.contentAt d.DocId,
    Attri := r.attriAt d.DocId, Scores := scoresOf r options d,
    TokenSnippetLocs := d.TokenSnippetLocs, TokenLocs := d.TokenLocs }

/-- Some filter of the list excludes the document registered for `d`. -/
def excluded {φ ν ω : Type} (r : Ranker φ ν) (filterOpt : List (FilterOptions ν ω))
    (d : IndexedDoc) : Bool :=
  RankDocs.overFlag (r.attriAt d.DocId) filterOpt

/-- The ID-only records of the scored candidates, in candidate order. -/
def survivingIDs {φ ν : Type} (r : Ranker φ ν) (options : RankOpts φ)
    (docs : List IndexedDoc) : List ScoredID :=
  (docs.filter (scored r options)).map (idRecord r options)

/-- The full records of the scored candidates that no filter excludes, in
candidate order. -/
def survivingDocs {φ ν ω : Type} (r : Ranker φ ν) (options : RankOpts φ)
    (filterOpt : List (FilterOptions ν ω)) (docs : List IndexedDoc) :
    List (ScoredDoc φ ν) :=
  (docs.filter (fun d => scored r options d && !excluded r filterOpt d)).map
    (docRecord r options)

/-- The number of scored candidates. -/
def scoredCount {φ ν : Type} (r : Ranker φ ν) (options : RankOpts φ)
    (docs : List IndexedDoc) : Nat :=
  (docs.filter (scored r options)).length

/-- The comparison handed to `sort.Sort`: `Less` itself, or `sort.Reverse` of it
when `ReverseOrder` is set. -/
def direction {α : Type} (reverse : Bool) (less : α → α → Bool) : α → α → Bool :=
  if reverse then reverseLess less else less

/-- The first score of a sequence (0 for the empty sequence, which no returned
record carries). -/
def primary (scores : List Score) : Score := scores.headD 0

/-- The score sequences of the records of a result, in order. -/
def RankOutput.scores {φ ν : Type} : RankOutput φ ν → List (List Score)
  | .ids out => out.map (fun x => x.Scores)
  | .docs out => out.map (fun x => x.Scores)

/-- The document ids of the records of a result, in order. -/
def RankOutput.docIds {φ ν : Type} : RankOutput φ ν → List Nat
  | .ids out => out.map (fun x => x.DocId)
  | .docs out => out.map (fun x => x.DocId)

/-- The number of records of a result. -/
def RankOutput.length {φ ν : Type} : RankOutput φ ν → Nat
  | .ids out => out.length
  | .docs out => out.length

/-- The page cut out of a sorted result list, with the count carried along. -/
def paginate {α φ : Type} (options : RankOpts φ) (sorted : List α) (numDocs : Nat) :
    Except Failure (List α × Nat) :=
  (sliceRange sorted (maxOutput options sorted.length).1
    (maxOutput options sorted.length).2).map (fun page => (page, numDocs))

/-- Equality of results is decidable. -/
instance decEqExcept {ε α : Type} [DecidableEq ε] [DecidableEq α] : DecidableEq (Except ε α)
  | .ok a, .ok b =>
    if h : a = b then isTrue (by rw [h]) else isFalse (by intro e; cases e; exact h rfl)
  | .error a, .error b =>
    if h : a = b then isTrue (by rw [h]) else isFalse (by intro e; cases e; exact h rfl)
  | .ok _, .error _ => isFalse (by intro e; cases e)
  | .error _, .ok _ => isFalse (by intro e; cases e)

/-- Offset and limit are non-negative Go `int`s whose sum is again a Go `int`. -/
def InRange {φ : Type} (options : RankOpts φ) : Prop :=
  0 ≤ options.OutputOffset ∧ 0 ≤ options.MaxOutputs ∧
    options.OutputOffset + options.MaxOutputs ≤ maxInt

/-- The start of the page as the specification words it:
`min(OutputOffset, n)`. -/
def pageStart {φ : Type} (options : RankOpts φ) (n : Int) : Int :=
  min options.OutputOffset n

/-- The end of the page as the specification words it: `n` when
`MaxOutputs = 0`, otherwise `min(OutputOffset + MaxOutputs, n)`, the sum being
the Go sum. -/
def pageEnd {φ : Type} (options : RankOpts φ) (n : Int) : Int :=
  if options.MaxOutputs = 0 then n
  else min (addInt options.OutputOffset options.MaxOutputs) n

/-- The slice expression on either shape of result. -/
def RankOutput.slice {φ ν : Type} (out : RankOutput φ ν) (start stop : Int) :
    Except Failure (RankOutput φ ν) :=
  match out with
  | .ids l => (sliceRange l start stop).map RankOutput.ids
  | .docs l => (sliceRange l start stop).map RankOutput.docs

/-- The stretch of a result from position `start` up to, not including,
position `stop`. -/
def RankOutput.segment {φ ν : Type} (out : RankOutput φ ν) (start stop : Nat) :
    RankOutput φ ν :=
  match out with
  | .ids l => .ids ((l.drop start).take (stop - start))
  | .docs l => .docs ((l.drop start).take (stop - start))

/-- The survivors of a call in the shape of the registry mode, in candidate
order: scored candidates, less those a filter excludes in full-document mode. -/
def survivors {φ ν ω : Type} (r : Ranker φ ν) (options : RankOpts φ)
    (filterOpt : List (FilterOptions ν ω)) (docs : List IndexedDoc) : RankOutput φ ν :=
  if r.idOnly then .ids (survivingIDs r options docs)
  else .docs (survivingDocs r options filterOpt docs)

/-- The sorted survivor list of a call, before pagination. -/
def sortedSurvivors {φ ν ω : Type} (S : Sorter) (r : Ranker φ ν) (options : RankOpts φ)
    (filterOpt : List (FilterOptions ν ω)) (docs : List IndexedDoc) : RankOutput φ ν :=
  if r.idOnly then
    .ids (S.sort (direction options.ReverseOrder ScoredIDs.Less)
      (survivingIDs r options docs))
  else
    .docs (S.sort (direction options.ReverseOrder ScoredDocs.Less)
      (survivingDocs r options filterOpt docs))

/-- A result read back to front. -/
def RankOutput.reverse {φ ν : Type} : RankOutput φ ν → RankOutput φ ν
  | .ids out => .ids out.reverse
  | .docs out => .docs out.reverse

/-- The option record with `ReverseOrder` set to `reverse`. -/
def withOrder {φ : Type} (options : RankOpts φ) (reverse : Bool) : RankOpts φ :=
  { options with ReverseOrder := reverse }

/-- Pagination cuts nothing off a list of `n` results: the offset is 0 and the
limit is 0 (unbounded) or at least `n`. -/
def NoCut {φ : Type} (options : RankOpts φ) (n : Nat) : Prop :=
  options.OutputOffset = 0 ∧
    (options.MaxOutputs = 0 ∨ ((n : Int) ≤ options.MaxOutputs ∧ options.MaxOutputs ≤ maxInt))

/-- Filter `f` rejects a document with attribute map `attri`, in the words of
the specification: the attribute exists on the document, the comparison with
its stored value succeeds without error, and the comparison result is false. -/
def rejects {ν ω : Type} (attri : AttrMap ν) (f : FilterOptions ν ω) : Bool :=
  match attri.lookup f.Attr with
  | some ori =>
    match f.Val.Compare ori.Value f.Op with
    | .ok res => !res
    | .error _ => false
  | none => false

/-- Every record of a result is among the given records of its shape. -/
def RankOutput.Within {φ ν : Type} (out : RankOutput φ ν) (ids : List ScoredID)
    (docs : List (ScoredDoc φ ν)) : Prop :=
  match out with
  | .ids l => ∀ x ∈ l, x ∈ ids
  | .docs l => ∀ x ∈ l, x ∈ docs

/-- The registry invariant: the registry is initialized, the fields map and
the presence map have the same keys, content and attributes exist only for
present documents, and an ID-only registry holds neither. -/
structure WellFormed {φ ν : Type} (r : Ranker φ ν) : Prop where
  initialized : r.initialized = true
  fields_docs : ∀ id, (r.fields id).isSome = (r.docs id).isSome
  content_docs : ∀ id, (r.content id).isSome = true → (r.docs id).isSome = true
  attri_docs : ∀ id, (r.attri id).isSome = true → (r.docs id).isSome = true
  bare : r.idOnly = true → (∀ id, r.content id = none) ∧ (∀ id, r.attri id = none)

/-- The effect is an operation on the read lock. -/
def Event.isLock : Event → Bool
  | .rlock => true
  | .runlock => true
  | _ => false

/-- The value of the read-lock hold counter under which an effect called user
code (`Score`, or `Compare` of a filter value); `none` for the other effects. -/
def Event.callHeld : Event → Option Nat
  | .score _ held => some held
  | .compare _ held => some held
  | _ => none

/-- The option record with offset `o` and limit `k`. -/
def withPage {φ : Type} (options : RankOpts φ) (o k : Int) : RankOpts φ :=
  { options with OutputOffset := o, MaxOutputs := k }

/-- The page of a sorted result list: the slice expression
`outputDocs[start:end]` for the bounds of `maxOutput`. -/
def page {α φ : Type} (options : RankOpts φ) (sorted : List α) : Except Failure (List α) :=
  sliceRange sorted (maxOutput options sorted.length).1 (maxOutput options sorted.length).2

/-- The components that a `ScoredDoc` shares with a `ScoredID`. -/
def ScoredDoc.toID {φ ν : Type} (x : ScoredDoc φ ν) : ScoredID :=
  { DocId := x.DocId, Scores := x.Scores, TokenSnippetLocs := x.TokenSnippetLocs,
    TokenLocs := x.TokenLocs }

/-- A sorter that reaches the data through `Less` (and `Swap`) alone, as
`sort.Sort` does through `sort.Interface`: it rearranges two collections in the
same way when `Less` answers the same on them. -/
def Sorter.Natural (S : Sorter) : Prop :=
  ∀ {α β : Type} (f : α → β) (less : α → α → Bool) (less' : β → β → Bool),
    (∀ a b, less' (f a) (f b) = less a b) →
    ∀ xs : List α, S.sort less' (xs.map f) = (S.sort less xs).map f

/-- The requirement of `sort.Interface` on `Less`, for the elements of one
collection: `Less` is a strict weak ordering of them. -/
structure StrictWeakOn {α : Type} (less : α → α → Bool) (xs : List α) : Prop where
  asymm : ∀ a ∈ xs, ∀ b ∈ xs, less a b = true → less b a = false
  incomp : ∀ a ∈ xs, ∀ b ∈ xs, ∀ c ∈ xs,
    less a b = false → less b c = false → less a c = false

/-- No score of the sequence is a not-a-number. -/
def allNumbers (scores : List Score) : Bool := scores.all (fun s => !s.isNaN)

/-- The place of a number on the extended number line: its side, then the
rational it denotes. -/
def Score.key (s : Score) : ℤ ×ₗ ℚ := toLex (s.cls, s.val)

/-- The comparison of `lessScores` over a linearly ordered type. -/
def lessKeys {K : Type} [LinearOrder K] : List K → List K → Bool
  | x :: xs, y :: ys =>
    if x > y then true
    else if x < y then false
    else lessKeys xs ys
  | xs, ys => decide (xs.length > ys.length)

/-! ## Fixtures: the data of `engine_test.go` -/

/-- The struct `ScoringFields` of `engine_test.go`. -/
structure ScoringFields where
  A : Score
  B : Score
  C : Score
deriving DecidableEq

/-- The dynamic values handed over as `Fields`: a `ScoringFields`, or a value of
another type (told apart by a tag). -/
inductive FieldValue where
  | scoring (fs : ScoringFields)
  | other (tag : Nat)
deriving DecidableEq

/-- The method `RankByTokenProximity.Score` of `engine_test.go`. -/
def RankByTokenProximity : ScoringCriteria FieldValue where
  Score := fun doc _ =>
    if doc.TokenProximity < 0 then []
    else [1 / ((doc.TokenProximity : Score) + 1)]

/-- The method `TestScoringCriteria.Score` of `engine_test.go`. -/
def TestScoringCriteria : ScoringCriteria FieldValue where
  Score := fun doc fields =>
    match fields with
    | some (FieldValue.scoring fs) => [(doc.TokenProximity : Score) * fs.A + fs.B * fs.C]
    | _ => []

/-- The function `rankOptsOrder` of `engine_test.go`. -/
def rankOptsOrder (order : Bool) : RankOpts FieldValue :=
  { ReverseOrder := order, OutputOffset := 0, MaxOutputs := 10,
    ScoringCriteria := RankByTokenProximity }

/-- The function `rankOptsMax` of `engine_test.go`. -/
def rankOptsMax (ouput max : Int) : RankOpts FieldValue :=
  { ReverseOrder := true, OutputOffset := ouput, MaxOutputs := max,
    ScoringCriteria := RankByTokenProximity }

/-- The fields that `AddDocs` of `engine_test.go` registers for documents 1 to 6. -/
def addDocsFields : Nat → Option (Option FieldValue)
  | 1 => some (some (.scoring ⟨1, 2, 3⟩))
  | 2 => some none
  | 3 => some none
  | 4 => some (some (.scoring ⟨2, 3, 1⟩))
  | 5 => some (some (.scoring ⟨2, 3, 3⟩))
  | 6 => some (some (.scoring ⟨0, 9, 1⟩))
  | _ => none

/-- A full-document registry holding documents 1 to 6 of `AddDocs`; documents 1
and 2 carry a `color` attribute. -/
def fullRanker : Ranker FieldValue String where
  fields := addDocsFields
  docs := fun id => if 1 ≤ id ∧ id ≤ 6 then some true else none
  content := fun id => if 1 ≤ id ∧ id ≤ 6 then some "The world" else none
  attri := fun id =>
    if id = 1 then some [("color", ⟨"red"⟩)]
    else if id = 2 then some [("color", ⟨"blue"⟩)]
    else none
  idOnly := false
  initialized := true

/-- The same documents in an ID-only registry. -/
def idRanker : Ranker FieldValue String where
  fields := addDocsFields
  docs := fun id => if 1 ≤ id ∧ id ≤ 6 then some true else none
  content := fun _ => none
  attri := fun _ => none
  idOnly := true
  initialized := true

/-- A candidate as the index lookup hands it to the ranker. -/
def candidate (id : Nat) (proximity : Int) : IndexedDoc :=
  { DocId := id, TokenProximity := proximity, BM25 := 0,
    TokenSnippetLocs := [], TokenLocs := [] }

/-- A filter value whose `Compare` tests the stored string for equality, and
fails on the operator `false`. -/
def equalTo (s : String) : FilterVal String Bool where
  Compare := fun stored op => if op then .ok (decide (stored = s)) else .error "bad operator"

/-- The filter `color == s`. -/
def colorIs (s : String) : FilterOptions String Bool :=
  { Attr := "color", Val := equalTo s, Op := true }

/-- The default options of `engOpts` in `engine_test.go`: `TestScoringCriteria`
and zero values elsewhere. -/
def engOpts : RankOpts FieldValue :=
  { ScoringCriteria := TestScoringCriteria, ReverseOrder := false,
    OutputOffset := 0, MaxOutputs := 0 }

/-- The empty (`nil`) filter list of the fixtures. -/
def noFilters : List (FilterOptions String Bool) := []

/-- Five candidates for documents 1 to 5 with token proximities 0 to 4. -/
def fiveCandidates : List IndexedDoc :=
  [candidate 1 0, candidate 2 1, candidate 3 2, candidate 4 3, candidate 5 4]

/-- The candidates of the query of `TestEngineIndexDoc`: documents 1, 2 and 5,
with the token proximities behind the scores 0.066, 0.333 and 0.083. -/
def worldCandidates : List IndexedDoc :=
  [candidate 1 14, candidate 2 2, candidate 5 11]

/-- A full-document registry with documents 1 to 7 present, all with `nil`
fields and neither content nor attributes. -/
def sevenRanker : Ranker FieldValue String where
  fields := fun id => if 1 ≤ id ∧ id ≤ 7 then some none else none
  docs := fun id => if 1 ≤ id ∧ id ≤ 7 then some true else none
  content := fun _ => none
  attri := fun _ => none
  idOnly := false
  initialized := true

/-- Seven candidates: documents 1 to 6 with token proximity 1 (score 1/2 each)
and document 7 with token proximity 0 (score 1). -/
def tieCandidates : List IndexedDoc :=
  [candidate 1 1, candidate 2 1, candidate 3 1, candidate 4 1, candidate 5 1,
    candidate 6 1, candidate 7 0]

/-- A full-document registry with documents 1 to 13 present, all with `nil`
fields and neither content nor attributes. -/
def thirteenRanker : Ranker FieldValue String where
  fields := fun id => if 1 ≤ id ∧ id ≤ 13 then some none else none
  docs := fun id => if 1 ≤ id ∧ id ≤ 13 then some true else none
  content := fun _ => none
  attri := fun _ => none
  idOnly := false
  initialized := true

/-- Thirteen candidates: documents 1 to 12 with token proximity 1 (score 1/2
each) and document 13 with token proximity 0 (score 1). -/
def longTieCandidates : List IndexedDoc :=
  [candidate 1 1, candidate 2 1, candidate 3 1, candidate 4 1, candidate 5 1,
    candidate 6 1, candidate 7 1, candidate 8 1, candidate 9 1, candidate 10 1,
    candidate 11 1, candidate 12 1, candidate 13 0]

/-- A filter on `color` whose `Compare` fails (operator `false`). -/
def brokenColor : FilterOptions String Bool :=
  { Attr := "color", Val := equalTo "red", Op := false }

/-- The filter `size == s`, on an attribute that no fixture document has. -/
def sizeIs (s : String) : FilterOptions String Bool :=
  { Attr := "size", Val := equalTo s, Op := true }

/-- The full-document registry after `Init()`, `AddDoc` for document 1 with
fields, content and a `color` attribute, and `AddDoc` for document 5 with fields
and content. -/
def builtRanker : Ranker FieldValue String :=
  (AddDoc
    (AddDoc (Init Ranker.zero []).state 1 (some (FieldValue.scoring ⟨1, 2, 3⟩))
      [ContentArg.str "The world", ContentArg.attrs [("color", ⟨"red"⟩)]]).state
    5 (some (FieldValue.scoring ⟨2, 3, 3⟩)) [ContentArg.str "people"]).state

/-- The fixture registry after `RemoveDoc(5)`, as in `TestRemoveDoc`. -/
def removedRanker : Ranker FieldValue String := (RemoveDoc fullRanker 5).state

/-- The method `BM25ScoringCriteria.Score` of `engine_test.go`. -/
def BM25ScoringCriteria : ScoringCriteria FieldValue where
  Score := fun doc fields =>
    match fields with
    | some (FieldValue.scoring _) => [doc.BM25]
    | _ => []

/-- The test `reflect.TypeOf(fields) != reflect.TypeOf(ScoringFields{})` of the
two scoring methods; `reflect.TypeOf` of the `nil` interface is `nil`. -/
def notScoringFields : Option FieldValue → Bool
  | some (FieldValue.scoring _) => false
  | _ => true

/-- The type assertion `fields.(ScoringFields)`: it panics on the `nil`
interface and on a value of any other dynamic type. -/
def assertScoringFields : Option FieldValue → Except Failure ScoringFields
  | some (FieldValue.scoring fs) => .ok fs
  | _ => .error Failure.panic

/-- The body of `TestScoringCriteria.Score` statement by statement, with the
type assertion as a step that can panic. -/
def TestScoringCriteria.run (doc : IndexedDoc) (fields : Option FieldValue) :
    Except Failure (List Score) :=
  if notScoringFields fields then .ok []
  else
    (assertScoringFields fields).map
      (fun fs => [(doc.TokenProximity : Score) * fs.A + fs.B * fs.C])

/-- The body of `BM25ScoringCriteria.Score` statement by statement. -/
def BM25ScoringCriteria.run (doc : IndexedDoc) (fields : Option FieldValue) :
    Except Failure (List Score) :=
  if notScoringFields fields then .ok [] else .ok [doc.BM25]

/-- The registry of Scenario A: `Init()` in full-document mode, then `AddDoc`
for document 1 with fields `{A:1, B:2, C:3}` and for document 2 with `nil`
fields, as the first two calls of `AddDocs` do. -/
def scenarioRanker : Ranker FieldValue String :=
  (AddDoc
    (AddDoc (Init Ranker.zero []).state 1 (some (FieldValue.scoring ⟨1, 2, 3⟩)) []).state
    2 none []).state

/-- An ID-only registry: `Init(true)`, then `AddDoc` for document 1 with fields,
a content string and an attribute map. -/
def idBuiltRanker : Ranker FieldValue String :=
  (AddDoc (Init Ranker.zero [true]).state 1 (some (FieldValue.scoring ⟨1, 2, 3⟩))
    [ContentArg.str "The world", ContentArg.attrs [("color", ⟨"red"⟩)]]).state

/-- The zero value of the `Ranker` struct at the types of the fixtures: a
registry on which `Init` has not been called. -/
def freshRanker : Ranker FieldValue String := Ranker.zero

/-! ## The rotating log handler of `logging/log.go`

`cleanUpLog` reads the log directory, collects the rotated files of the handler
and removes the oldest ones. The directory listing, the current time and the
standard-library packages `regexp` and `sort` are inputs of the model; times are
Unix seconds (`ModTime().Unix()`, `time.Now().Unix()`), read once per call. -/

/-- An entry of the listing that `ioutil.ReadDir` returns (`os.FileInfo`), as
far as `cleanUpLog` reads it: `Name()`, `IsDir()` and `ModTime().Unix()`. -/
structure FileInfo where
  Name : String
  IsDir : Bool
  ModTime : Int
deriving DecidableEq

/-- The struct `simpleFileInfo`; of `modTime` only the Unix seconds are read. -/
structure simpleFileInfo where
  name : String
  modTime : Int
deriving DecidableEq

/-- The type `fileList`. -/
abbrev fileList := List simpleFileInfo

/-- The method `fileList.Less`, on the entries themselves: the later
modification time comes first. -/
def fileList.Less (a b : simpleFileInfo) : Bool := decide (a.modTime > b.modTime)

/-- The struct `TimeRotateHandler`. -/
structure TimeRotateHandler where
  path : String
  filename : String
  ext : String
  maxFile : Int
deriving DecidableEq

/-- The function `NewRotateHandler`. -/
def NewRotateHandler (path filename ext : String) (maxFile : Int) : TimeRotateHandler :=
  { path := path, filename := filename, ext := ext, maxFile := maxFile }

/-- The standard-library package `regexp` as `cleanUpLog` uses it:
`Compile(pattern)` yields the `FindString` of the compiled expression, or nothing
for a malformed pattern. -/
structure Regexp where
  Compile : String → Option (String → String)

/-- The body of the loop of `cleanUpLog` for one directory entry; the state is
`(fl, rfl)`. The error of `regexp.Compile` is discarded in the source, so a
malformed pattern leaves a `nil` expression and `FindString` panics. -/
def cleanUpLog.scan (R : Regexp) (t : TimeRotateHandler) (now : Int)
    (st : fileList × fileList) (item : FileInfo) : Except Failure (fileList × fileList) :=
  if item.IsDir then
    .ok st
  else
    match R.Compile t.filename with
    | none => .error Failure.panic
    | some findString =>
      let result := findString item.Name
      if result ≠ "" then
        if item.Name ≠ t.filename ++ "." ++ t.ext then
          if item.ModTime > now + 60 then
            .ok (st.1, st.2 ++ [{ name := item.Name, modTime := item.ModTime }])
          else
            .ok (st.1 ++ [{ name := item.Name, modTime := item.ModTime }], st.2)
        else .ok st
      else .ok st

/-- The loop of `cleanUpLog` over the directory listing. -/
def cleanUpLog.collect (R : Regexp) (t : TimeRotateHandler) (now : Int) :
    List FileInfo → fileList × fileList → Except Failure (fileList × fileList)
  | [], st => .ok st
  | item :: rest, st =>
    match cleanUpLog.scan R t now st item with
    | .ok st1 => cleanUpLog.collect R t now rest st1
    | .error f => .error f

/-- What a call of `cleanUpLog` does: the error it returns, if any, and the
entries for which it calls `os.Remove`, in order. -/
structure CleanUp where
  err : Option String
  removed : fileList
deriving DecidableEq

/-- The method `TimeRotateHandler.cleanUpLog`. The argument `dir` is the result
of `ioutil.ReadDir(t.path)`, `none` when it fails. The slice expression
`fl[t.maxFile:]` panics for a negative `maxFile`. -/
def cleanUpLog (S : Sorter) (R : Regexp) (t : TimeRotateHandler)
    (dir : Option (List FileInfo)) (now : Int) : Except Failure CleanUp :=
  match dir with
  | none => .ok { err := some "can not read log dir path", removed := [] }
  | some items =>
    match cleanUpLog.collect R t now items ([], []) with
    | .error f => .error f
    | .ok st =>
      let fl := S.sort fileList.Less st.1
      let rfl := st.2
      if (fl.length : Int) > t.maxFile then
        (sliceRange fl t.maxFile fl.length).map
          (fun tail => { err := none, removed := tail ++ rfl })
      else
        .ok { err := none, removed := [] }

/-- The directory after the `os.Remove` calls, every one of them succeeding:
the entries whose name is not among the removed ones. -/
def remaining (items : List FileInfo) (removed : fileList) : List FileInfo :=
  items.filter (fun item => !removed.any (fun f => f.name == item.Name))

/-- The rotated log files of a listing: the files whose name the handler's
filename matches, other than the live file `filename.ext`. -/
def rotated (R : Regexp) (t : TimeRotateHandler) (items : List FileInfo) : List FileInfo :=
  items.filter (fun item =>
    !item.IsDir &&
      (match R.Compile t.filename with
        | some findString => findString item.Name != ""
        | none => false) &&
      item.Name != t.filename ++ "." ++ t.ext)

/-- Occurrence of the character sequence `p` in a text. -/
def occursIn (p : List Char) : List Char → Bool
  | [] => p.isEmpty
  | c :: cs => p.isPrefixOf (c :: cs) || occursIn p cs

/-- The package `regexp` on patterns without metacharacters: every such pattern
compiles, and `FindString` returns the pattern when it occurs in the text and
the empty string otherwise. -/
def literalRegexp : Regexp where
  Compile := fun p => some (fun s => if occursIn p.data s.data then p else "")

/-- The handler of `example_log.go`, with room for one rotated file. -/
def testHandler : TimeRotateHandler := NewRotateHandler "logs" "test" "log" 1

/-- A log directory read at time 1000: the live file, one rotated file written
in the past, and one rotated file dated an hour into the future. -/
def futureListing : List FileInfo :=
  [{ Name := "test.log", IsDir := false, ModTime := 990 },
   { Name := "test_1970_01_01.log", IsDir := false, ModTime := 500 },
   { Name := "test_1970_01_02.log", IsDir := false, ModTime := 4600 }]

/-- A log directory read at time 1000: the live file and three rotated files
written in the past. -/
def pastListing : List FileInfo :=
  [{ Name := "test.log", IsDir := false, ModTime := 990 },
   { Name := "test_1970_01_01.log", IsDir := false, ModTime := 500 },
   { Name := "test_1970_01_03.log", IsDir := false, ModTime := 700 },
   { Name := "test_1970_01_02.log", IsDir := false, ModTime := 600 }]

/-- A candidate with token proximity 0 and the given `BM25` value. -/
def bm25Candidate (id : Nat) (bm25 : Score) : IndexedDoc :=
  { DocId := id, TokenProximity := 0, BM25 := bm25,
    TokenSnippetLocs := [], TokenLocs := [] }

/-- Options with `BM25ScoringCriteria`, no offset and no limit. -/
def bm25Opts (order : Bool) : RankOpts FieldValue :=
  { ScoringCriteria := BM25ScoringCriteria, ReverseOrder := order,
    OutputOffset := 0, MaxOutputs := 0 }

/-- Candidates for documents 1, 4 and 5 with the `BM25` values 1, not-a-number
and 2. -/
def nanCandidates : List IndexedDoc :=
  [bm25Candidate 1 1, bm25Candidate 4 Score.nan, bm25Candidate 5 2]

/-! ## The sorter for small inputs meets the contract -/

theorem insertBack_perm {α : Type} (less : α → α → Bool) (x : α) (l : List α) :
    (insertBack less x l).Perm (x :: l) := by
  induction l with
  | nil => simp [insertBack]
  | cons y ys ih =>
    simp only [insertBack]
    split
    · exact ((List.Perm.cons y ih).trans (List.Perm.swap x y ys))
    · exact List.Perm.refl _

theorem foldl_insertBack_perm {α : Type} (less : α → α → Bool) (xs acc : List α) :
    (xs.foldl (fun acc x => insertBack less x acc) acc).Perm (xs ++ acc) := by
  induction xs generalizing acc with
  | nil => simp
  | cons x xs ih =>
    simp only [List.foldl_cons, List.cons_append]
    refine (ih _).trans ?_
    exact (List.Perm.append_left xs (insertBack_perm less x acc)).trans List.perm_middle

theorem insertionSort_perm {α : Type} (less : α → α → Bool) (xs : List α) :
    (insertionSort less xs).Perm xs := by
  unfold insertionSort
  refine (List.reverse_perm _).trans ?_
  simpa using foldl_insertBack_perm less xs []

theorem insertBack_pairwise {α : Type} (less : α → α → Bool) (h : StrictWeak less)
    (x : α) (l : List α) (hl : l.Pairwise (fun a b => less a b = false)) :
    (insertBack less x l).Pairwise (fun a b => less a b = false) := by
  induction l with
  | nil => simp [insertBack]
  | cons y ys ih =>
    rw [List.pairwise_cons] at hl
    simp only [insertBack]
    split
    · rename_i hxy
      rw [List.pairwise_cons]
      refine ⟨?_, ih hl.2⟩
      intro z hz
      rcases List.mem_cons.mp ((insertBack_perm less x ys).mem_iff.mp hz) with rfl | hz'
      · exact h.asymm _ _ hxy
      · exact hl.1 z hz'
    · rename_i hxy
      have hxy' : less x y = false := by simpa using hxy
      rw [List.pairwise_cons]
      refine ⟨?_, List.pairwise_cons.mpr hl⟩
      intro z hz
      rcases List.mem_cons.mp hz with rfl | hz'
      · exact hxy'
      · exact h.incomp _ _ _ hxy' (hl.1 z hz')

theorem insertionSort_sorted {α : Type} (less : α → α → Bool) (h : StrictWeak less)
    (xs : List α) : (insertionSort less xs).Pairwise (fun a b => less b a = false) := by
  have key : ∀ (ys acc : List α), acc.Pairwise (fun a b => less a b = false) →
      (ys.foldl (fun acc x => insertBack less x acc) acc).Pairwise
        (fun a b => less a b = false) := by
    intro ys
    induction ys with
    | nil => intro acc hacc; simpa using hacc
    | cons y ys ih =>
      intro acc hacc
      simpa using ih _ (insertBack_pairwise less h y acc hacc)
  unfold insertionSort
  rw [List.pairwise_reverse]
  exact key xs [] List.Pairwise.nil

theorem exchange_perm {α : Type} (less : α → α → Bool) (as bs : List α) :
    ((exchange less as bs).1 ++ (exchange less as bs).2).Perm (as ++ bs) := by
  induction as generalizing bs with
  | nil => simp [exchange]
  | cons a as ih =>
    cases bs with
    | nil => simp [exchange]
    | cons b bs =>
      have hrec := ih bs
      have hmid : ((exchange less as bs).1 ++ a :: (exchange less as bs).2).Perm
          (as ++ a :: bs) :=
        List.perm_middle.trans ((List.Perm.cons a hrec).trans List.perm_middle.symm)
      simp only [exchange]
      split
      · simp only [List.cons_append]
        refine (List.Perm.cons b hmid).trans ?_
        refine (List.Perm.cons b List.perm_middle).trans ?_
        refine (List.Perm.swap a b _).trans ?_
        exact List.Perm.cons a List.perm_middle.symm
      · simp only [List.cons_append]
        refine List.Perm.cons a ?_
        exact List.perm_middle.trans ((List.Perm.cons b hrec).trans List.perm_middle.symm)

theorem shellPass_perm {α : Type} (less : α → α → Bool) (xs : List α) :
    (shellPass less xs).Perm xs := by
  unfold shellPass
  simpa using exchange_perm less (xs.take 6) (xs.drop 6)

/-- The sorter for small inputs meets the contract of `sort.Sort`. -/
theorem smallSort_lawful : smallSort.Lawful where
  perm := fun less xs => (insertionSort_perm less _).trans (shellPass_perm less xs)
  sorted := fun less _ h => insertionSort_sorted less h _

/-! ## Closed forms of the two loops -/

theorem RankDocID_loop_output {φ ν : Type} (r : Ranker φ ν) (options : RankOpts φ)
    (docs : List IndexedDoc) (acc : List ScoredID) (n : Nat) :
    docs.foldl (RankDocID.visit r options false) (acc, n) =
      (acc ++ survivingIDs r options docs, n + (survivingIDs r options docs).length) := by
  induction docs generalizing acc n with
  | nil => simp [survivingIDs]
  | cons d ds ih =>
    rw [List.foldl_cons]
    by_cases hs : scored r options d = true
    · have hv : RankDocID.visit r options false (acc, n) d =
          (acc ++ [idRecord r options d], n + 1) := by
        simp only [scored, present, scoresOf, Bool.and_eq_true, Option.isSome_iff_exists,
          Bool.not_eq_true', List.isEmpty_eq_false] at hs
        obtain ⟨⟨b, hb⟩, hne⟩ := hs
        have hlen : 0 < (options.ScoringCriteria.Score d (r.fieldsAt d.DocId)).length :=
          List.length_pos.mpr hne
        simp [RankDocID.visit, hb, hlen, idRecord, scoresOf]
      rw [hv, ih]
      simp [survivingIDs, hs, Nat.add_assoc, Nat.add_comm]
    · have hv : RankDocID.visit r options false (acc, n) d = (acc, n) := by
        simp only [scored, present, scoresOf, Bool.and_eq_true, Bool.not_eq_true',
          List.isEmpty_eq_false, not_and] at hs
        unfold RankDocID.visit
        cases hb : r.docs d.DocId with
        | none => rfl
        | some b =>
          have hnil : options.ScoringCriteria.Score d (r.fieldsAt d.DocId) = [] := by
            by_contra hne
            exact hs (by simp [hb]) hne
          simp [hnil]
      rw [hv, ih]
      simp [survivingIDs, hs]

theorem RankDocID_loop_count {φ ν : Type} (r : Ranker φ ν) (options : RankOpts φ)
    (docs : List IndexedDoc) (acc : List ScoredID) (n : Nat) :
    docs.foldl (RankDocID.visit r options true) (acc, n) =
      (acc, n + scoredCount r options docs) := by
  induction docs generalizing acc n with
  | nil => simp [scoredCount]
  | cons d ds ih =>
    rw [List.foldl_cons]
    by_cases hs : scored r options d = true
    · have hv : RankDocID.visit r options true (acc, n) d = (acc, n + 1) := by
        simp only [scored, present, scoresOf, Bool.and_eq_true, Option.isSome_iff_exists,
          Bool.not_eq_true', List.isEmpty_eq_false] at hs
        obtain ⟨⟨b, hb⟩, hne⟩ := hs
        have hlen : 0 < (options.ScoringCriteria.Score d (r.fieldsAt d.DocId)).length :=
          List.length_pos.mpr hne
        simp [RankDocID.visit, hb, hlen]
      rw [hv, ih]
      simp [scoredCount, hs, Nat.add_assoc, Nat.add_comm]
    · have hv : RankDocID.visit r options true (acc, n) d = (acc, n) := by
        simp only [scored, present, scoresOf, Bool.and_eq_true, Bool.not_eq_true',
          List.isEmpty_eq_false, not_and] at hs
        unfold RankDocID.visit
        cases hb : r.docs d.DocId with
        | none => rfl
        | some b =>
          have hnil : options.ScoringCriteria.Score d (r.fieldsAt d.DocId) = [] := by
            by_contra hne
            exact hs (by simp [hb]) hne
          simp [hnil]
      rw [hv, ih]
      simp [scoredCount, hs]

theorem RankDocs_loop_output {φ ν ω : Type} (r : Ranker φ ν) (options : RankOpts φ)
    (filterOpt : List (FilterOptions ν ω)) (docs : List IndexedDoc)
    (acc : List (ScoredDoc φ ν)) (n : Nat) :
    docs.foldl (RankDocs.visit r options false filterOpt) (acc, n) =
      (acc ++ survivingDocs r options filterOpt docs,
        n + (survivingDocs r options filterOpt docs).length) := by
  induction docs generalizing acc n with
  | nil => simp [survivingDocs]
  | cons d ds ih =>
    rw [List.foldl_cons]
    by_cases hs : scored r options d = true
    · have hs' := hs
      simp only [scored, present, scoresOf, Bool.and_eq_true, Option.isSome_iff_exists,
        Bool.not_eq_true', List.isEmpty_eq_false] at hs'
      obtain ⟨⟨b, hb⟩, hne⟩ := hs'
      have hlen : 0 < (options.ScoringCriteria.Score d (r.fieldsAt d.DocId)).length :=
        List.length_pos.mpr hne
      by_cases hx : excluded r filterOpt d = true
      · have hv : RankDocs.visit r options false filterOpt (acc, n) d = (acc, n) := by
          have hx' : RankDocs.overFlag (r.attriAt d.DocId) filterOpt = true := hx
          simp [RankDocs.visit, hb, hlen, hx']
        rw [hv, ih]
        simp [survivingDocs, hs, hx]
      · have hv : RankDocs.visit r options false filterOpt (acc, n) d =
            (acc ++ [docRecord r options d], n + 1) := by
          have hx' : RankDocs.overFlag (r.attriAt d.DocId) filterOpt = false := by
            simpa [excluded] using hx
          simp [RankDocs.visit, hb, hlen, hx', docRecord, scoresOf]
        rw [hv, ih]
        simp [survivingDocs, hs, hx, Nat.add_assoc, Nat.add_comm]
    · have hv : RankDocs.visit r options false filterOpt (acc, n) d = (acc, n) := by
        simp only [scored, present, scoresOf, Bool.and_eq_true, Bool.not_eq_true',
          List.isEmpty_eq_false, not_and] at hs
        unfold RankDocs.visit
        cases hb : r.docs d.DocId with
        | none => rfl
        | some b =>
          have hnil : options.ScoringCriteria.Score d (r.fieldsAt d.DocId) = [] := by
            by_contra hne
            exact hs (by simp [hb]) hne
          simp [hnil]
      rw [hv, ih]
      simp [survivingDocs, hs]

theorem RankDocs_loop_count {φ ν ω : Type} (r : Ranker φ ν) (options : RankOpts φ)
    (filterOpt : List (FilterOptions ν ω)) (docs : List IndexedDoc)
    (acc : List (ScoredDoc φ ν)) (n : Nat) :
    docs.foldl (RankDocs.visit r options true filterOpt) (acc, n) =
      (acc, n + scoredCount r options docs) := by
  induction docs generalizing acc n with
  | nil => simp [scoredCount]
  | cons d ds ih =>
    rw [List.foldl_cons]
    by_cases hs : scored r options d = true
    · have hv : RankDocs.visit r options true filterOpt (acc, n) d = (acc, n + 1) := by
        simp only [scored, present, scoresOf, Bool.and_eq_true, Option.isSome_iff_exists,
          Bool.not_eq_true', List.isEmpty_eq_false] at hs
        obtain ⟨⟨b, hb⟩, hne⟩ := hs
        have hlen : 0 < (options.ScoringCriteria.Score d (r.fieldsAt d.DocId)).length :=
          List.length_pos.mpr hne
        simp [RankDocs.visit, hb, hlen]
      rw [hv, ih]
      simp [scoredCount, hs, Nat.add_assoc, Nat.add_comm]
    · have hv : RankDocs.visit r options true filterOpt (acc, n) d = (acc, n) := by
        simp only [scored, present, scoresOf, Bool.and_eq_true, Bool.not_eq_true',
          List.isEmpty_eq_false, not_and] at hs
        unfold RankDocs.visit
        cases hb : r.docs d.DocId with
        | none => rfl
        | some b =>
          have hnil : options.ScoringCriteria.Score d (r.fieldsAt d.DocId) = [] := by
            by_contra hne
            exact hs (by simp [hb]) hne
          simp [hnil]
      rw [hv, ih]
      simp [scoredCount, hs]

theorem RankDocID_sorting {φ ν : Type} (S : Sorter) (r : Ranker φ ν)
    (docs : List IndexedDoc) (options : RankOpts φ) :
    RankDocID S r docs options false =
      paginate options
        (S.sort (direction options.ReverseOrder ScoredIDs.Less) (survivingIDs r options docs))
        (survivingIDs r options docs).length := by
  unfold RankDocID
  rw [RankDocID_loop_output]
  cases hrev : options.ReverseOrder <;> simp [paginate, direction, hrev]

theorem RankDocID_counting {φ ν : Type} (S : Sorter) (r : Ranker φ ν)
    (docs : List IndexedDoc) (options : RankOpts φ) :
    RankDocID S r docs options true = .ok ([], scoredCount r options docs) := by
  unfold RankDocID
  rw [RankDocID_loop_count]
  simp

theorem RankDocs_sorting {φ ν ω : Type} (S : Sorter) (r : Ranker φ ν)
    (docs : List IndexedDoc) (options : RankOpts φ) (filterOpt : List (FilterOptions ν ω)) :
    RankDocs S r docs options false filterOpt false =
      paginate options
        (S.sort (direction options.ReverseOrder ScoredDocs.Less)
          (survivingDocs r options filterOpt docs))
        (survivingDocs r options filterOpt docs).length := by
  unfold RankDocs
  rw [RankDocs_loop_output]
  cases hrev : options.ReverseOrder <;> simp [paginate, direction, hrev]

theorem RankDocs_deferred {φ ν ω : Type} (S : Sorter) (r : Ranker φ ν)
    (docs : List IndexedDoc) (options : RankOpts φ) (filterOpt : List (FilterOptions ν ω)) :
    RankDocs S r docs options false filterOpt true =
      .ok (survivingDocs r options filterOpt docs,
        (survivingDocs r options filterOpt docs).length) := by
  unfold RankDocs
  rw [RankDocs_loop_output]
  simp

theorem RankDocs_counting {φ ν ω : Type} (S : Sorter) (r : Ranker φ ν)
    (docs : List IndexedDoc) (options : RankOpts φ) (filterOpt : List (FilterOptions ν ω))
    (orderAtTheEnd : Bool) :
    RankDocs S r docs options true filterOpt orderAtTheEnd =
      .ok ([], scoredCount r options docs) := by
  unfold RankDocs
  rw [RankDocs_loop_count]
  simp

/-! ## Pages and survivors -/

theorem sliceRange_sublist {α : Type} (s page : List α) (start stop : Int)
    (h : sliceRange s start stop = .ok page) : page.Sublist s := by
  unfold sliceRange at h
  split at h
  · cases h
    exact (List.take_sublist _ _).trans (List.drop_sublist _ _)
  · cases h

theorem paginate_ok {α φ : Type} (options : RankOpts φ) (sorted page : List α) (n m : Nat)
    (h : paginate options sorted n = .ok (page, m)) : page.Sublist sorted ∧ m = n := by
  unfold paginate at h
  cases hs : sliceRange sorted (maxOutput options sorted.length).1
      (maxOutput options sorted.length).2 with
  | error e => rw [hs] at h; cases h
  | ok p =>
    rw [hs] at h
    cases h
    exact ⟨sliceRange_sublist _ _ _ _ hs, rfl⟩

theorem survivingIDs_scored {φ ν : Type} (r : Ranker φ ν) (options : RankOpts φ)
    (docs : List IndexedDoc) (x : ScoredID) (hx : x ∈ survivingIDs r options docs) :
    x.Scores ≠ [] := by
  simp only [survivingIDs, List.mem_map, List.mem_filter] at hx
  obtain ⟨d, ⟨_, hd⟩, rfl⟩ := hx
  simp only [scored, Bool.and_eq_true, Bool.not_eq_true', List.isEmpty_eq_false] at hd
  exact hd.2

theorem survivingDocs_scored {φ ν ω : Type} (r : Ranker φ ν) (options : RankOpts φ)
    (filterOpt : List (FilterOptions ν ω)) (docs : List IndexedDoc) (x : ScoredDoc φ ν)
    (hx : x ∈ survivingDocs r options filterOpt docs) : x.Scores ≠ [] := by
  simp only [survivingDocs, List.mem_map, List.mem_filter] at hx
  obtain ⟨d, ⟨_, hd⟩, rfl⟩ := hx
  simp only [scored, Bool.and_eq_true, Bool.not_eq_true', List.isEmpty_eq_false] at hd
  exact hd.1.2

theorem survivingDocs_length_le {φ ν ω : Type} (r : Ranker φ ν) (options : RankOpts φ)
    (filterOpt : List (FilterOptions ν ω)) (docs : List IndexedDoc) :
    (survivingDocs r options filterOpt docs).length ≤ scoredCount r options docs := by
  simp only [survivingDocs, scoredCount, List.length_map]
  refine List.Sublist.length_le ?_
  refine List.monotone_filter_right docs ?_
  intro d hd
  simp only [Bool.and_eq_true] at hd
  exact hd.1

theorem survivingIDs_length {φ ν : Type} (r : Ranker φ ν) (options : RankOpts φ)
    (docs : List IndexedDoc) :
    (survivingIDs r options docs).length = scoredCount r options docs := by
  simp [survivingIDs, scoredCount]

theorem scored_of_empty {φ ν : Type} (r : Ranker φ ν) (options : RankOpts φ)
    (d : IndexedDoc) (h : options.ScoringCriteria.Score d (r.fieldsAt d.DocId) = []) :
    scored r options d = false := by
  simp [scored, scoresOf, h]

theorem loops_skip_unscored {φ ν ω : Type} (r : Ranker φ ν) (options : RankOpts φ)
    (filterOpt : List (FilterOptions ν ω)) (countDocsOnly : Bool) (d : IndexedDoc)
    (h : scored r options d = false) :
    (∀ st, RankDocID.visit r options countDocsOnly st d = st) ∧
    (∀ st, RankDocs.visit r options countDocsOnly filterOpt st d = st) := by
  simp only [scored, present, scoresOf, Bool.and_eq_false_imp, Bool.not_eq_false',
    List.isEmpty_iff] at h
  constructor
  · intro st
    unfold RankDocID.visit
    cases hb : r.docs d.DocId with
    | none => rfl
    | some b => simp [h (by simp [hb])]
  · intro st
    unfold RankDocs.visit
    cases hb : r.docs d.DocId with
    | none => rfl
    | some b => simp [h (by simp [hb])]

theorem Rank_records_scored {φ ν ω : Type} (S : Sorter) (hS : S.Lawful) (r : Ranker φ ν)
    (docs : List IndexedDoc) (options : RankOpts φ) (countDocsOnly : Bool)
    (filterOpt : List (FilterOptions ν ω)) (orderAtTheEnd : Bool)
    (out : RankOutput φ ν) (n : Nat)
    (h : Rank S r docs options countDocsOnly filterOpt orderAtTheEnd = .ok (out, n)) :
    (∀ s ∈ out.scores, s ≠ []) ∧ n ≤ scoredCount r options docs := by
  unfold Rank at h
  split at h
  · cases h
  split at h
  · -- ID-only mode
    cases countDocsOnly with
    | true =>
      rw [RankDocID_counting] at h
      cases h
      simp [RankOutput.scores]
    | false =>
      rw [RankDocID_sorting] at h
      cases hp : paginate options
          (S.sort (direction options.ReverseOrder ScoredIDs.Less)
            (survivingIDs r options docs)) (survivingIDs r options docs).length with
      | error e => rw [hp] at h; cases h
      | ok res =>
        obtain ⟨page, m⟩ := res
        rw [hp] at h
        cases h
        obtain ⟨hsub, hm⟩ := paginate_ok _ _ _ _ _ hp
        refine ⟨?_, by rw [hm, survivingIDs_length]⟩
        intro s hs
        simp only [RankOutput.scores, List.mem_map] at hs
        obtain ⟨x, hx, rfl⟩ := hs
        exact survivingIDs_scored r options docs x
          ((hS.perm _ _).mem_iff.mp (hsub.subset hx))
  · -- full-document mode
    cases countDocsOnly with
    | true =>
      rw [RankDocs_counting] at h
      cases h
      simp [RankOutput.scores]
    | false =>
      cases orderAtTheEnd with
      | true =>
        rw [RankDocs_deferred] at h
        cases h
        refine ⟨?_, survivingDocs_length_le r options filterOpt docs⟩
        intro s hs
        simp only [RankOutput.scores, List.mem_map] at hs
        obtain ⟨x, hx, rfl⟩ := hs
        exact survivingDocs_scored r options filterOpt docs x hx
      | false =>
        rw [RankDocs_sorting] at h
        cases hp : paginate options
            (S.sort (direction options.ReverseOrder ScoredDocs.Less)
              (survivingDocs r options filterOpt docs))
            (survivingDocs r options filterOpt docs).length with
        | error e => rw [hp] at h; cases h
        | ok res =>
          obtain ⟨page, m⟩ := res
          rw [hp] at h
          cases h
          obtain ⟨hsub, hm⟩ := paginate_ok _ _ _ _ _ hp
          refine ⟨?_, by rw [hm]; exact survivingDocs_length_le r options filterOpt docs⟩
          intro s hs
          simp only [RankOutput.scores, List.mem_map] at hs
          obtain ⟨x, hx, rfl⟩ := hs
          exact survivingDocs_scored r options filterOpt docs x
            ((hS.perm _ _).mem_iff.mp (hsub.subset hx))

/-! ## The comparison on score sequences -/

theorem lessScores_cons (x y : Score) (xs ys : List Score) :
    lessScores (x :: xs) (y :: ys) =
      if x > y then true else if x < y then false else lessScores xs ys := by
  rw [lessScores]

theorem lessScores_nil_left (ys : List Score) : lessScores [] ys = false := by
  cases ys <;> simp [lessScores]

theorem lessScores_nil_right (x : Score) (xs : List Score) : lessScores (x :: xs) [] = true := by
  simp [lessScores]

/-! ## Page bounds -/

theorem MinInt_eq_min (a b : Int) : MinInt a b = min a b := by
  unfold MinInt
  split
  · rename_i h; exact (min_eq_left (le_of_lt h)).symm
  · rename_i h; exact (min_eq_right (not_lt.mp h)).symm

theorem wrapInt_of_range (x : Int) (hlo : minInt ≤ x) (hhi : x ≤ maxInt) : wrapInt x = x := by
  unfold wrapInt
  unfold minInt at hlo
  unfold maxInt at hhi
  rw [Int.emod_eq_of_lt (by omega) (by omega)]
  omega

theorem addInt_inRange {φ : Type} (options : RankOpts φ) (h : InRange options) :
    addInt options.OutputOffset options.MaxOutputs =
      options.OutputOffset + options.MaxOutputs := by
  obtain ⟨h0, h1, h2⟩ := h
  unfold addInt
  exact wrapInt_of_range _ (by unfold minInt; omega) h2

theorem maxOutput_eq {φ : Type} (options : RankOpts φ) (n : Int) :
    maxOutput options n = (pageStart options n, pageEnd options n) := by
  unfold maxOutput pageStart pageEnd
  by_cases h : options.MaxOutputs = 0
  · simp [h, MinInt_eq_min]
  · simp [h, MinInt_eq_min]

theorem page_bounds {φ : Type} (options : RankOpts φ) (h : InRange options) (n : Nat) :
    0 ≤ pageStart options n ∧ pageStart options n ≤ pageEnd options n ∧
      pageEnd options n ≤ n := by
  have hadd := addInt_inRange options h
  obtain ⟨h0, h1, h2⟩ := h
  unfold pageStart pageEnd
  rw [hadd]
  have hn : (0 : Int) ≤ n := Int.ofNat_nonneg n
  split
  · refine ⟨le_min h0 hn, min_le_right _ _, le_refl _⟩
  · refine ⟨le_min h0 hn, ?_, min_le_right _ _⟩
    exact min_le_min (by omega) (le_refl _)

theorem sliceRange_inRange {α φ : Type} (options : RankOpts φ) (h : InRange options)
    (s : List α) :
    sliceRange s (pageStart options s.length) (pageEnd options s.length) =
      .ok ((s.drop (pageStart options s.length).toNat).take
        ((pageEnd options s.length).toNat - (pageStart options s.length).toNat)) := by
  obtain ⟨hb0, hb1, hb2⟩ := page_bounds options h s.length
  unfold sliceRange
  rw [if_pos ⟨hb0, hb1, hb2⟩]

/-! ## Closed forms of `Rank` -/

theorem Except_map_map {ε α β γ : Type} (e : Except ε α) (f : α → β) (g : β → γ) :
    (e.map f).map g = e.map (g ∘ f) := by
  cases e <;> rfl

theorem Rank_counting {φ ν ω : Type} (S : Sorter) (r : Ranker φ ν) (docs : List IndexedDoc)
    (options : RankOpts φ) (filterOpt : List (FilterOptions ν ω)) (orderAtTheEnd : Bool)
    (hinit : r.initialized = true) :
    Rank S r docs options true filterOpt orderAtTheEnd =
      .ok (if r.idOnly then RankOutput.ids [] else RankOutput.docs [],
        scoredCount r options docs) := by
  unfold Rank
  rw [RankDocID_counting, RankDocs_counting]
  cases hm : r.idOnly <;> simp [hinit, Except.map]

theorem Rank_deferred {φ ν ω : Type} (S : Sorter) (r : Ranker φ ν) (docs : List IndexedDoc)
    (options : RankOpts φ) (filterOpt : List (FilterOptions ν ω))
    (hinit : r.initialized = true) (hmode : r.idOnly = false) :
    Rank S r docs options false filterOpt true =
      .ok (survivors r options filterOpt docs,
        (survivors r options filterOpt docs).length) := by
  unfold Rank
  rw [RankDocs_deferred]
  simp [hinit, hmode, Except.map, survivors, RankOutput.length]

theorem Rank_paged {φ ν ω : Type} (S : Sorter) (r : Ranker φ ν) (docs : List IndexedDoc)
    (options : RankOpts φ) (filterOpt : List (FilterOptions ν ω)) (orderAtTheEnd : Bool)
    (hinit : r.initialized = true) (hmode : r.idOnly = true ∨ orderAtTheEnd = false) :
    Rank S r docs options false filterOpt orderAtTheEnd =
      ((sortedSurvivors S r options filterOpt docs).slice
        (pageStart options (sortedSurvivors S r options filterOpt docs).length)
        (pageEnd options (sortedSurvivors S r options filterOpt docs).length)).map
        (fun page => (page, (survivors r options filterOpt docs).length)) := by
  cases hm : r.idOnly with
  | true =>
    have h1 : sortedSurvivors S r options filterOpt docs =
        .ids (S.sort (direction options.ReverseOrder ScoredIDs.Less)
          (survivingIDs r options docs)) := by simp [sortedSurvivors, hm]
    have h2 : survivors r options filterOpt docs = .ids (survivingIDs r options docs) := by
      simp [survivors, hm]
    have h3 : Rank S r docs options false filterOpt orderAtTheEnd =
        (RankDocID S r docs options false).map
          (fun res => (RankOutput.ids res.1, res.2)) := by
      simp [Rank, hinit, hm]
    rw [h1, h2, h3, RankDocID_sorting]
    simp only [paginate, maxOutput_eq, RankOutput.slice, RankOutput.length, Except_map_map]
    rfl
  | false =>
    have he : orderAtTheEnd = false := by
      rcases hmode with h | h
      · rw [hm] at h; cases h
      · exact h
    subst he
    have h1 : sortedSurvivors S r options filterOpt docs =
        .docs (S.sort (direction options.ReverseOrder ScoredDocs.Less)
          (survivingDocs r options filterOpt docs)) := by simp [sortedSurvivors, hm]
    have h2 : survivors r options filterOpt docs =
        .docs (survivingDocs r options filterOpt docs) := by
      simp [survivors, hm]
    have h3 : Rank S r docs options false filterOpt false =
        (RankDocs S r docs options false filterOpt false).map
          (fun res => (RankOutput.docs res.1, res.2)) := by
      simp [Rank, hinit, hm]
    rw [h1, h2, h3, RankDocs_sorting]
    simp only [paginate, maxOutput_eq, RankOutput.slice, RankOutput.length, Except_map_map]
    rfl

theorem slice_inRange {φ ν : Type} (options : RankOpts φ) (h : InRange options)
    (out : RankOutput φ ν) :
    out.slice (pageStart options out.length) (pageEnd options out.length) =
      .ok (out.segment (pageStart options out.length).toNat
        (pageEnd options out.length).toNat) := by
  cases out with
  | ids l =>
    simp only [RankOutput.slice, RankOutput.length, RankOutput.segment]
    rw [sliceRange_inRange options h l]
    rfl
  | docs l =>
    simp only [RankOutput.slice, RankOutput.length, RankOutput.segment]
    rw [sliceRange_inRange options h l]
    rfl

theorem map_count_ok {ε α : Type} (e : Except ε α) (k n : Nat) (out : α)
    (h : e.map (fun page => (page, k)) = .ok (out, n)) : e = .ok out ∧ n = k := by
  cases e with
  | error x => cases h
  | ok a =>
    simp only [Except.map] at h
    cases h
    exact ⟨rfl, rfl⟩

theorem pageEnd_inRange {φ : Type} (options : RankOpts φ) (h : InRange options) (n : Int) :
    pageEnd options n =
      if options.MaxOutputs = 0 then n
      else min (options.OutputOffset + options.MaxOutputs) n := by
  unfold pageEnd
  rw [addInt_inRange options h]

/-! ## Order of the sorted survivors -/

theorem direction_scores {α : Type} (reverse : Bool) (f : α → List Score) (a b : α) :
    direction reverse (fun x y => lessScores (f x) (f y)) a b =
      direction reverse lessScores (f a) (f b) := by
  cases reverse <;> rfl

theorem sortedSurvivors_scored {φ ν ω : Type} (S : Sorter) (hS : S.Lawful)
    (r : Ranker φ ν) (options : RankOpts φ) (filterOpt : List (FilterOptions ν ω))
    (docs : List IndexedDoc) :
    ∀ s ∈ (sortedSurvivors S r options filterOpt docs).scores, s ≠ [] := by
  intro s hs
  unfold sortedSurvivors at hs
  split at hs
  · simp only [RankOutput.scores, List.mem_map] at hs
    obtain ⟨x, hx, rfl⟩ := hs
    exact survivingIDs_scored r options docs x ((hS.perm _ _).mem_iff.mp hx)
  · simp only [RankOutput.scores, List.mem_map] at hs
    obtain ⟨x, hx, rfl⟩ := hs
    exact survivingDocs_scored r options filterOpt docs x ((hS.perm _ _).mem_iff.mp hx)

theorem slice_scores_sublist {φ ν : Type} (out page : RankOutput φ ν) (start stop : Int)
    (h : out.slice start stop = .ok page) : page.scores.Sublist out.scores := by
  cases out with
  | ids l =>
    simp only [RankOutput.slice] at h
    cases hs : sliceRange l start stop with
    | error e => rw [hs] at h; cases h
    | ok p =>
      rw [hs] at h
      cases h
      exact (sliceRange_sublist _ _ _ _ hs).map _
  | docs l =>
    simp only [RankOutput.slice] at h
    cases hs : sliceRange l start stop with
    | error e => rw [hs] at h; cases h
    | ok p =>
      rw [hs] at h
      cases h
      exact (sliceRange_sublist _ _ _ _ hs).map _

theorem Rank_paged_ok {φ ν ω : Type} (S : Sorter) (r : Ranker φ ν) (docs : List IndexedDoc)
    (options : RankOpts φ) (filterOpt : List (FilterOptions ν ω))
    (hinit : r.initialized = true) (out : RankOutput φ ν) (n : Nat)
    (h : Rank S r docs options false filterOpt false = .ok (out, n)) :
    out.scores.Sublist (sortedSurvivors S r options filterOpt docs).scores ∧
      n = (survivors r options filterOpt docs).length := by
  rw [Rank_paged S r docs options filterOpt false hinit (Or.inr rfl)] at h
  obtain ⟨hslice, hn⟩ := map_count_ok _ _ _ _ h
  exact ⟨slice_scores_sublist _ _ _ _ hslice, hn⟩

theorem Rank_paged_returns {φ ν ω : Type} (S : Sorter) (r : Ranker φ ν)
    (docs : List IndexedDoc) (options : RankOpts φ) (filterOpt : List (FilterOptions ν ω))
    (hinit : r.initialized = true) (hrange : InRange options) :
    ∃ out n, Rank S r docs options false filterOpt false = .ok (out, n) := by
  rw [Rank_paged S r docs options filterOpt false hinit (Or.inr rfl),
    slice_inRange options hrange]
  exact ⟨_, _, rfl⟩

/-! ## Uniqueness of the sorted arrangement for distinct scores -/

theorem sortedSurvivors_length {φ ν ω : Type} (S : Sorter) (hS : S.Lawful)
    (r : Ranker φ ν) (options : RankOpts φ) (filterOpt : List (FilterOptions ν ω))
    (docs : List IndexedDoc) :
    (sortedSurvivors S r options filterOpt docs).length =
      (survivors r options filterOpt docs).length := by
  unfold sortedSurvivors survivors
  split
  · exact (hS.perm _ _).length_eq
  · exact (hS.perm _ _).length_eq

theorem slice_noCut {φ ν : Type} (options : RankOpts φ) (out : RankOutput φ ν)
    (h : NoCut options out.length) :
    out.slice (pageStart options out.length) (pageEnd options out.length) = .ok out := by
  obtain ⟨hoff, hmax⟩ := h
  have hn : (0 : Int) ≤ out.length := Int.ofNat_nonneg _
  have hrange : InRange options := by
    refine ⟨by omega, ?_, ?_⟩
    · rcases hmax with h0 | h1
      · omega
      · omega
    · rcases hmax with h0 | h1
      · rw [hoff, h0]; decide
      · rw [hoff]; omega
  rw [slice_inRange options hrange, pageEnd_inRange options hrange]
  have hstart : pageStart options out.length = 0 := by
    unfold pageStart
    rw [hoff]
    exact min_eq_left hn
  have hend : (if options.MaxOutputs = 0 then (out.length : Int)
      else min (options.OutputOffset + options.MaxOutputs) out.length) = out.length := by
    split
    · rfl
    · rcases hmax with h0 | h1
      · contradiction
      · rw [hoff, zero_add]
        exact min_eq_right h1.1
  rw [hstart, hend]
  cases out <;> simp [RankOutput.segment, RankOutput.length]

theorem Rank_noCut {φ ν ω : Type} (S : Sorter) (hS : S.Lawful) (r : Ranker φ ν)
    (docs : List IndexedDoc) (options : RankOpts φ) (filterOpt : List (FilterOptions ν ω))
    (hinit : r.initialized = true)
    (hcut : NoCut options (survivors r options filterOpt docs).length) :
    Rank S r docs options false filterOpt false =
      .ok (sortedSurvivors S r options filterOpt docs,
        (survivors r options filterOpt docs).length) := by
  rw [Rank_paged S r docs options filterOpt false hinit (Or.inr rfl)]
  rw [← sortedSurvivors_length S hS] at hcut
  rw [slice_noCut options _ hcut]
  rfl

theorem segment_length {φ ν : Type} (out : RankOutput φ ν) (start stop : Nat) :
    (out.segment start stop).length = min (stop - start) (out.length - start) := by
  cases out <;> simp [RankOutput.segment, RankOutput.length]

theorem addInt_overflow (a b : Int) (ha : 0 ≤ a) (ha' : a ≤ maxInt) (hb : 0 ≤ b)
    (hb' : b ≤ maxInt) (h : maxInt < a + b) : addInt a b < 0 := by
  unfold addInt wrapInt
  unfold maxInt at ha' hb' h
  omega

theorem slice_ok_inRange {φ ν : Type} (options : RankOpts φ) (out page : RankOutput φ ν)
    (hoff : 0 ≤ options.OutputOffset) (hoff' : options.OutputOffset ≤ maxInt)
    (hmax : 0 ≤ options.MaxOutputs) (hmax' : options.MaxOutputs ≤ maxInt)
    (h : out.slice (pageStart options out.length) (pageEnd options out.length) = .ok page) :
    InRange options := by
  refine ⟨hoff, hmax, ?_⟩
  by_contra hsum
  have hlt : maxInt < options.OutputOffset + options.MaxOutputs := not_le.mp hsum
  have hneg := addInt_overflow _ _ hoff hoff' hmax hmax' hlt
  have hne : options.MaxOutputs ≠ 0 := by
    intro h0
    rw [h0, add_zero] at hlt
    exact absurd hoff' (not_le.mpr hlt)
  have hend : pageEnd options out.length < 0 := by
    unfold pageEnd
    rw [if_neg hne]
    exact lt_of_le_of_lt (min_le_left _ _) hneg
  have hstart : 0 ≤ pageStart options out.length :=
    le_min hoff (Int.ofNat_nonneg _)
  have hbad : ¬ (0 ≤ pageStart options out.length ∧
      pageStart options out.length ≤ pageEnd options out.length ∧
      pageEnd options out.length ≤ out.length) := by
    intro hc
    omega
  cases out with
  | ids l =>
    simp only [RankOutput.slice, RankOutput.length] at h hbad
    unfold sliceRange at h
    rw [if_neg hbad] at h
    cases h
  | docs l =>
    simp only [RankOutput.slice, RankOutput.length] at h hbad
    unfold sliceRange at h
    rw [if_neg hbad] at h
    cases h

/-! ## The effectful code against the pure functions -/

theorem filterRun_spec {φ ν ω : Type} (attri : AttrMap ν) (filterOpt : List (FilterOptions ν ω))
    (m : Machine φ ν) :
    (RankDocs.filterRun attri filterOpt m).1 = RankDocs.overFlag attri filterOpt ∧
    (RankDocs.filterRun attri filterOpt m).2.ranker = m.ranker ∧
    (RankDocs.filterRun attri filterOpt m).2.held = m.held := by
  induction filterOpt generalizing m with
  | nil => simp [RankDocs.filterRun, RankDocs.overFlag]
  | cons f rest ih =>
    simp only [RankDocs.filterRun, RankDocs.overFlag]
    cases hl : List.lookup f.Attr attri with
    | none => simpa [Machine.emit] using ih (m.emit (Event.logWarning f.Attr))
    | some ori =>
      cases hc : f.Val.Compare ori.Value f.Op with
      | error err =>
        simpa [Machine.emit, hc] using
          ih ((m.emit (Event.compare f.Attr m.held)).emit (Event.logError err))
      | ok res =>
        cases res with
        | true => simpa [Machine.emit, hc] using ih (m.emit (Event.compare f.Attr m.held))
        | false => simp [Machine.emit, hc]

theorem RankDocs_visitRun_spec {φ ν ω : Type} (options : RankOpts φ) (countDocsOnly : Bool)
    (filterOpt : List (FilterOptions ν ω))
    (st : (List (ScoredDoc φ ν) × Nat) × Machine φ ν) (d : IndexedDoc) :
    (RankDocs.visitRun options countDocsOnly filterOpt st d).1 =
      RankDocs.visit st.2.ranker options countDocsOnly filterOpt st.1 d ∧
    (RankDocs.visitRun options countDocsOnly filterOpt st d).2.ranker = st.2.ranker ∧
    (RankDocs.visitRun options countDocsOnly filterOpt st d).2.held = st.2.held := by
  obtain ⟨res, m⟩ := st
  simp only [RankDocs.visitRun, RankDocs.visit, Machine.RLock, Machine.RUnlock, Machine.emit]
  cases hd : m.ranker.docs d.DocId with
  | none => simp
  | some b =>
    simp only []
    by_cases hs : (options.ScoringCriteria.Score d (m.ranker.fieldsAt d.DocId)).length > 0
    · simp only [hs, if_true]
      cases countDocsOnly with
      | true => simp
      | false =>
        simp only [Bool.not_false, if_true]
        have hf := filterRun_spec (m.ranker.attriAt d.DocId) filterOpt
          ({ ranker := m.ranker, held := m.held + 1 - 1,
             trace := m.trace ++ [Event.rlock] ++ [Event.runlock] ++
               [Event.score d.DocId (m.held + 1 - 1)] } : Machine φ ν)
        rw [hf.1]
        cases RankDocs.overFlag (m.ranker.attriAt d.DocId) filterOpt with
        | true => exact ⟨rfl, hf.2.1, by simpa using hf.2.2⟩
        | false => exact ⟨rfl, hf.2.1, by simpa using hf.2.2⟩
    · simp [hs]

theorem RankDocID_visitRun_spec {φ ν : Type} (options : RankOpts φ) (countDocsOnly : Bool)
    (st : (List ScoredID × Nat) × Machine φ ν) (d : IndexedDoc) :
    (RankDocID.visitRun options countDocsOnly st d).1 =
      RankDocID.visit st.2.ranker options countDocsOnly st.1 d ∧
    (RankDocID.visitRun options countDocsOnly st d).2.ranker = st.2.ranker ∧
    (RankDocID.visitRun options countDocsOnly st d).2.held = st.2.held := by
  obtain ⟨res, m⟩ := st
  simp only [RankDocID.visitRun, RankDocID.visit, Machine.RLock, Machine.RUnlock, Machine.emit]
  cases hd : m.ranker.docs d.DocId with
  | none => simp
  | some b =>
    simp only []
    by_cases hs : (options.ScoringCriteria.Score d (m.ranker.fieldsAt d.DocId)).length > 0
    · simp [hs]
    · simp [hs]

theorem RankDocs_foldRun_spec {φ ν ω : Type} (options : RankOpts φ) (countDocsOnly : Bool)
    (filterOpt : List (FilterOptions ν ω)) (docs : List IndexedDoc)
    (st : (List (ScoredDoc φ ν) × Nat) × Machine φ ν) :
    (docs.foldl (RankDocs.visitRun options countDocsOnly filterOpt) st).1 =
      docs.foldl (RankDocs.visit st.2.ranker options countDocsOnly filterOpt) st.1 ∧
    (docs.foldl (RankDocs.visitRun options countDocsOnly filterOpt) st).2.ranker =
      st.2.ranker ∧
    (docs.foldl (RankDocs.visitRun options countDocsOnly filterOpt) st).2.held =
      st.2.held := by
  induction docs generalizing st with
  | nil => simp
  | cons d ds ih =>
    obtain ⟨h1, h2, h3⟩ := RankDocs_visitRun_spec options countDocsOnly filterOpt st d
    obtain ⟨i1, i2, i3⟩ := ih (RankDocs.visitRun options countDocsOnly filterOpt st d)
    simp only [List.foldl_cons]
    rw [i1, i2, i3, h1, h2, h3]
    exact ⟨rfl, rfl, rfl⟩

theorem RankDocID_foldRun_spec {φ ν : Type} (options : RankOpts φ) (countDocsOnly : Bool)
    (docs : List IndexedDoc) (st : (List ScoredID × Nat) × Machine φ ν) :
    (docs.foldl (RankDocID.visitRun options countDocsOnly) st).1 =
      docs.foldl (RankDocID.visit st.2.ranker options countDocsOnly) st.1 ∧
    (docs.foldl (RankDocID.visitRun options countDocsOnly) st).2.ranker = st.2.ranker ∧
    (docs.foldl (RankDocID.visitRun options countDocsOnly) st).2.held = st.2.held := by
  induction docs generalizing st with
  | nil => simp
  | cons d ds ih =>
    obtain ⟨h1, h2, h3⟩ := RankDocID_visitRun_spec options countDocsOnly st d
    obtain ⟨i1, i2, i3⟩ := ih (RankDocID.visitRun options countDocsOnly st d)
    simp only [List.foldl_cons]
    rw [i1, i2, i3, h1, h2, h3]
    exact ⟨rfl, rfl, rfl⟩

theorem RankDocs_run_spec {φ ν ω : Type} (S : Sorter) (m : Machine φ ν)
    (docs : List IndexedDoc) (options : RankOpts φ) (countDocsOnly : Bool)
    (filterOpt : List (FilterOptions ν ω)) (orderAtTheEnd : Bool) :
    (RankDocs.run S m docs options countDocsOnly filterOpt orderAtTheEnd).1 =
      RankDocs S m.ranker docs options countDocsOnly filterOpt orderAtTheEnd ∧
    (RankDocs.run S m docs options countDocsOnly filterOpt orderAtTheEnd).2.ranker =
      m.ranker ∧
    (RankDocs.run S m docs options countDocsOnly filterOpt orderAtTheEnd).2.held =
      m.held := by
  obtain ⟨h1, h2, h3⟩ := RankDocs_foldRun_spec options countDocsOnly filterOpt docs
    ((([] : List (ScoredDoc φ ν)), 0), m)
  simp only [RankDocs.run, RankDocs]
  split
  · exact ⟨by rw [h1], h2, h3⟩
  · exact ⟨by rw [h1], h2, h3⟩

theorem RankDocID_run_spec {φ ν : Type} (S : Sorter) (m : Machine φ ν)
    (docs : List IndexedDoc) (options : RankOpts φ) (countDocsOnly : Bool) :
    (RankDocID.run S m docs options countDocsOnly).1 =
      RankDocID S m.ranker docs options countDocsOnly ∧
    (RankDocID.run S m docs options countDocsOnly).2.ranker = m.ranker ∧
    (RankDocID.run S m docs options countDocsOnly).2.held = m.held := by
  obtain ⟨h1, h2, h3⟩ := RankDocID_foldRun_spec options countDocsOnly docs
    ((([] : List ScoredID), 0), m)
  simp only [RankDocID.run, RankDocID]
  split
  · exact ⟨by rw [h1], h2, h3⟩
  · exact ⟨by rw [h1], h2, h3⟩

theorem Rank_run_spec {φ ν ω : Type} (S : Sorter) (m : Machine φ ν)
    (docs : List IndexedDoc) (options : RankOpts φ) (countDocsOnly : Bool)
    (filterOpt : List (FilterOptions ν ω)) (orderAtTheEnd : Bool) :
    (Rank.run S m docs options countDocsOnly filterOpt orderAtTheEnd).1 =
      Rank S m.ranker docs options countDocsOnly filterOpt orderAtTheEnd ∧
    (Rank.run S m docs options countDocsOnly filterOpt orderAtTheEnd).2.ranker =
      m.ranker ∧
    (Rank.run S m docs options countDocsOnly filterOpt orderAtTheEnd).2.held =
      m.held := by
  obtain ⟨a1, a2, a3⟩ := RankDocID_run_spec S m docs options countDocsOnly
  obtain ⟨b1, b2, b3⟩ :=
    RankDocs_run_spec S m docs options countDocsOnly filterOpt orderAtTheEnd
  simp only [Rank.run, Rank]
  split
  · exact ⟨rfl, rfl, rfl⟩
  · split
    · exact ⟨by rw [a1], a2, a3⟩
    · exact ⟨by rw [b1], b2, b3⟩

/-! ## The filter loop -/

theorem overFlag_eq_any {ν ω : Type} (attri : AttrMap ν) (filterOpt : List (FilterOptions ν ω)) :
    RankDocs.overFlag attri filterOpt = filterOpt.any (rejects attri) := by
  induction filterOpt with
  | nil => rfl
  | cons f rest ih =>
    simp only [RankDocs.overFlag, List.any_cons, rejects]
    cases hl : List.lookup f.Attr attri with
    | none => simpa using ih
    | some ori =>
      cases hc : f.Val.Compare ori.Value f.Op with
      | error err => simpa [hc] using ih
      | ok res =>
        cases res with
        | true => simpa [hc] using ih
        | false => simp [hc]

theorem rejects_iff {ν ω : Type} (attri : AttrMap ν) (f : FilterOptions ν ω) :
    rejects attri f = true ↔
      ∃ ori, attri.lookup f.Attr = some ori ∧ f.Val.Compare ori.Value f.Op = .ok false := by
  unfold rejects
  cases hl : List.lookup f.Attr attri with
  | none => simp
  | some ori =>
    cases hc : f.Val.Compare ori.Value f.Op with
    | error err => simp [hc]
    | ok res => cases res <;> simp [hc]

theorem overFlag_skip {ν ω : Type} (attri : AttrMap ν) (f : FilterOptions ν ω)
    (pre post : List (FilterOptions ν ω)) (h : rejects attri f = false) :
    RankDocs.overFlag attri (pre ++ f :: post) = RankDocs.overFlag attri (pre ++ post) := by
  simp [overFlag_eq_any, h]

theorem filterRun_stops {φ ν ω : Type} (attri : AttrMap ν) (f : FilterOptions ν ω)
    (pre post : List (FilterOptions ν ω)) (m : Machine φ ν)
    (hf : rejects attri f = true) :
    RankDocs.filterRun attri (pre ++ f :: post) m = RankDocs.filterRun attri (pre ++ [f]) m ∧
    (RankDocs.filterRun attri (pre ++ f :: post) m).1 = true := by
  induction pre generalizing m with
  | nil =>
    obtain ⟨ori, hl, hc⟩ := (rejects_iff attri f).mp hf
    simp [RankDocs.filterRun, hl, hc]
  | cons g rest ih =>
    simp only [List.cons_append, RankDocs.filterRun]
    cases hl : List.lookup g.Attr attri with
    | none => exact ih (m.emit (Event.logWarning g.Attr))
    | some ori =>
      cases hc : g.Val.Compare ori.Value g.Op with
      | error err =>
        simp only [hc]
        exact ih ((m.emit (Event.compare g.Attr m.held)).emit (Event.logError err))
      | ok res =>
        cases res with
        | true =>
          simp only [hc]
          exact ih (m.emit (Event.compare g.Attr m.held))
        | false => simp [hc]

theorem survivingDocs_eq_filter {φ ν ω : Type} (r : Ranker φ ν) (options : RankOpts φ)
    (filterOpt : List (FilterOptions ν ω)) (docs : List IndexedDoc) :
    survivingDocs r options filterOpt docs =
      (docs.filter (fun d => scored r options d &&
        !filterOpt.any (rejects (r.attriAt d.DocId)))).map (docRecord r options) := by
  simp only [survivingDocs, excluded, overFlag_eq_any]

theorem Rank_filters_congr {φ ν ω : Type} (S : Sorter) (r : Ranker φ ν)
    (docs : List IndexedDoc) (options : RankOpts φ) (countDocsOnly : Bool)
    (filterOpt filterOpt' : List (FilterOptions ν ω)) (orderAtTheEnd : Bool)
    (h : ∀ d ∈ docs, RankDocs.overFlag (r.attriAt d.DocId) filterOpt =
      RankDocs.overFlag (r.attriAt d.DocId) filterOpt') :
    Rank S r docs options countDocsOnly filterOpt orderAtTheEnd =
      Rank S r docs options countDocsOnly filterOpt' orderAtTheEnd := by
  have hvisit : ∀ (ds : List IndexedDoc), (∀ d ∈ ds, d ∈ docs) →
      ∀ st, ds.foldl (RankDocs.visit r options countDocsOnly filterOpt) st =
        ds.foldl (RankDocs.visit r options countDocsOnly filterOpt') st := by
    intro ds
    induction ds with
    | nil => intro _ st; rfl
    | cons d rest ih =>
      intro hmem st
      simp only [List.foldl_cons]
      have hd : RankDocs.visit r options countDocsOnly filterOpt st d =
          RankDocs.visit r options countDocsOnly filterOpt' st d := by
        simp only [RankDocs.visit, h d (hmem d (List.mem_cons_self _ _))]
      rw [hd]
      exact ih (fun x hx => hmem x (List.mem_cons_of_mem _ hx)) _
  unfold Rank RankDocs
  rw [hvisit docs (fun _ hd => hd)]

theorem Rank_returns {φ ν ω : Type} (S : Sorter) (r : Ranker φ ν) (docs : List IndexedDoc)
    (options : RankOpts φ) (countDocsOnly : Bool) (filterOpt : List (FilterOptions ν ω))
    (orderAtTheEnd : Bool) (hinit : r.initialized = true)
    (h : countDocsOnly = true ∨ InRange options ∨
      (r.idOnly = false ∧ orderAtTheEnd = true)) :
    ∃ out n, Rank S r docs options countDocsOnly filterOpt orderAtTheEnd = .ok (out, n) := by
  cases countDocsOnly with
  | true => exact ⟨_, _, Rank_counting S r docs options filterOpt orderAtTheEnd hinit⟩
  | false =>
    by_cases hdef : r.idOnly = false ∧ orderAtTheEnd = true
    · rw [hdef.2]
      exact ⟨_, _, Rank_deferred S r docs options filterOpt hinit hdef.1⟩
    · have hrange : InRange options := by
        rcases h with h | h | h
        · cases h
        · exact h
        · exact absurd h hdef
      have hmode : r.idOnly = true ∨ orderAtTheEnd = false := by
        cases hm : r.idOnly with
        | true => exact Or.inl rfl
        | false =>
          cases he : orderAtTheEnd with
          | false => exact Or.inr rfl
          | true => exact absurd ⟨hm, he⟩ hdef
      rw [Rank_paged S r docs options filterOpt orderAtTheEnd hinit hmode,
        slice_inRange options hrange]
      exact ⟨_, _, rfl⟩

theorem foldl_filter_skip {α β : Type} (f : β → α → β) (p : α → Bool)
    (hskip : ∀ st d, p d = false → f st d = st) (l : List α) (st : β) :
    l.foldl f st = (l.filter p).foldl f st := by
  induction l generalizing st with
  | nil => rfl
  | cons d ds ih =>
    cases hp : p d with
    | true => simp only [List.foldl_cons, List.filter_cons, hp, if_true]; exact ih _
    | false =>
      simp only [List.foldl_cons, List.filter_cons, hp]
      rw [hskip st d hp]
      exact ih st

theorem visit_absent {φ ν ω : Type} (r : Ranker φ ν) (options : RankOpts φ)
    (countDocsOnly : Bool) (filterOpt : List (FilterOptions ν ω)) (d : IndexedDoc)
    (h : present r d = false) :
    (∀ st, RankDocID.visit r options countDocsOnly st d = st) ∧
    (∀ st, RankDocs.visit r options countDocsOnly filterOpt st d = st) := by
  have hnone : r.docs d.DocId = none := by
    simpa [present] using h
  constructor
  · intro st; simp [RankDocID.visit, hnone]
  · intro st; simp [RankDocs.visit, hnone]

theorem Rank_skips_absent {φ ν ω : Type} (S : Sorter) (r : Ranker φ ν)
    (docs : List IndexedDoc) (options : RankOpts φ) (countDocsOnly : Bool)
    (filterOpt : List (FilterOptions ν ω)) (orderAtTheEnd : Bool) (p : IndexedDoc → Bool)
    (hp : ∀ d, p d = false → present r d = false) :
    Rank S r docs options countDocsOnly filterOpt orderAtTheEnd =
      Rank S r (docs.filter p) options countDocsOnly filterOpt orderAtTheEnd := by
  unfold Rank RankDocID RankDocs
  rw [foldl_filter_skip (RankDocID.visit r options countDocsOnly) p
      (fun st d h => (visit_absent r options countDocsOnly filterOpt d (hp d h)).1 st),
    foldl_filter_skip (RankDocs.visit r options countDocsOnly filterOpt) p
      (fun st d h => (visit_absent r options countDocsOnly filterOpt d (hp d h)).2 st)]

theorem slice_within {φ ν : Type} (out page : RankOutput φ ν) (start stop : Int)
    (ids : List ScoredID) (docs : List (ScoredDoc φ ν))
    (h : out.slice start stop = .ok page) (hw : out.Within ids docs) :
    page.Within ids docs := by
  cases out with
  | ids l =>
    simp only [RankOutput.slice] at h
    cases hs : sliceRange l start stop with
    | error e => rw [hs] at h; cases h
    | ok p =>
      rw [hs] at h
      cases h
      exact fun x hx => hw x ((sliceRange_sublist _ _ _ _ hs).subset hx)
  | docs l =>
    simp only [RankOutput.slice] at h
    cases hs : sliceRange l start stop with
    | error e => rw [hs] at h; cases h
    | ok p =>
      rw [hs] at h
      cases h
      exact fun x hx => hw x ((sliceRange_sublist _ _ _ _ hs).subset hx)

theorem sortedSurvivors_within {φ ν ω : Type} (S : Sorter) (hS : S.Lawful)
    (r : Ranker φ ν) (options : RankOpts φ) (filterOpt : List (FilterOptions ν ω))
    (docs : List IndexedDoc) :
    (sortedSurvivors S r options filterOpt docs).Within (survivingIDs r options docs)
      (survivingDocs r options filterOpt docs) := by
  unfold sortedSurvivors
  split
  · exact fun x hx => (hS.perm _ _).mem_iff.mp hx
  · exact fun x hx => (hS.perm _ _).mem_iff.mp hx

theorem Rank_within {φ ν ω : Type} (S : Sorter) (hS : S.Lawful) (r : Ranker φ ν)
    (docs : List IndexedDoc) (options : RankOpts φ) (countDocsOnly : Bool)
    (filterOpt : List (FilterOptions ν ω)) (orderAtTheEnd : Bool)
    (out : RankOutput φ ν) (n : Nat)
    (h : Rank S r docs options countDocsOnly filterOpt orderAtTheEnd = .ok (out, n)) :
    out.Within (survivingIDs r options docs) (survivingDocs r options filterOpt docs) := by
  have hinit : r.initialized = true := by
    cases hi : r.initialized with
    | true => rfl
    | false => simp [Rank, hi] at h
  cases countDocsOnly with
  | true =>
    rw [Rank_counting S r docs options filterOpt orderAtTheEnd hinit] at h
    cases h
    split <;> simp [RankOutput.Within]
  | false =>
    by_cases hdef : r.idOnly = false ∧ orderAtTheEnd = true
    · rw [hdef.2, Rank_deferred S r docs options filterOpt hinit hdef.1] at h
      cases h
      simp [survivors, hdef.1, RankOutput.Within]
    · have hmode : r.idOnly = true ∨ orderAtTheEnd = false := by
        cases hm : r.idOnly with
        | true => exact Or.inl rfl
        | false =>
          cases he : orderAtTheEnd with
          | false => exact Or.inr rfl
          | true => exact absurd ⟨hm, he⟩ hdef
      rw [Rank_paged S r docs options filterOpt orderAtTheEnd hinit hmode] at h
      obtain ⟨hslice, _⟩ := map_count_ok _ _ _ _ h
      exact slice_within _ _ _ _ _ _ hslice
        (sortedSurvivors_within S hS r options filterOpt docs)

/-! ## The registry operations -/

theorem mapSet_same {α : Type} (m : Nat → Option α) (k : Nat) (v : α) :
    mapSet m k v k = some v := by
  simp [mapSet]

theorem mapSet_other {α : Type} (m : Nat → Option α) (k i : Nat) (v : α) (h : i ≠ k) :
    mapSet m k v i = m i := by
  simp [mapSet, h]

theorem mapDelete_same {α : Type} (m : Nat → Option α) (k : Nat) :
    mapDelete m k k = none := by
  simp [mapDelete]

theorem mapDelete_other {α : Type} (m : Nat → Option α) (k i : Nat) (h : i ≠ k) :
    mapDelete m k i = m i := by
  simp [mapDelete, h]

theorem mapDelete_idem {α : Type} (m : Nat → Option α) (k : Nat) :
    mapDelete (mapDelete m k) k = mapDelete m k := by
  funext i
  by_cases h : i = k <;> simp [mapDelete, h]

theorem mapDelete_absent {α : Type} (m : Nat → Option α) (k : Nat) (h : m k = none) :
    mapDelete m k = m := by
  funext i
  by_cases hi : i = k
  · subst hi; simp [mapDelete, h]
  · simp [mapDelete, hi]

theorem RemoveDoc_full {φ ν : Type} (r : Ranker φ ν) (docId : Nat)
    (hinit : r.initialized = true) (hmode : r.idOnly = false) :
    RemoveDoc r docId =
      { state := { r with fields := mapDelete r.fields docId, docs := mapDelete r.docs docId,
                          content := mapDelete r.content docId,
                          attri := mapDelete r.attri docId },
        failure := none } := by
  simp [RemoveDoc, hinit, hmode]

theorem RemoveDoc_idOnly {φ ν : Type} (r : Ranker φ ν) (docId : Nat)
    (hinit : r.initialized = true) (hmode : r.idOnly = true) :
    RemoveDoc r docId =
      { state := { r with fields := mapDelete r.fields docId,
                          docs := mapDelete r.docs docId },
        failure := none } := by
  simp [RemoveDoc, hinit, hmode]

theorem RemoveDoc_flags {φ ν : Type} (r : Ranker φ ν) (docId : Nat) :
    (RemoveDoc r docId).state.initialized = r.initialized ∧
    (RemoveDoc r docId).state.idOnly = r.idOnly := by
  unfold RemoveDoc
  cases hi : r.initialized <;> cases hm : r.idOnly <;> simp [hi, hm]

theorem RemoveDoc_ok {φ ν : Type} (r : Ranker φ ν) (docId : Nat)
    (hinit : r.initialized = true) : (RemoveDoc r docId).failure = none := by
  cases hm : r.idOnly
  · rw [RemoveDoc_full r docId hinit hm]
  · rw [RemoveDoc_idOnly r docId hinit hm]

theorem AddDoc_idOnly {φ ν : Type} (r : Ranker φ ν) (docId : Nat) (fields : Option φ)
    (content : List (ContentArg ν)) (hinit : r.initialized = true)
    (hmode : r.idOnly = true) :
    AddDoc r docId fields content =
      { state := { r with fields := mapSet r.fields docId fields,
                          docs := mapSet r.docs docId true },
        failure := none } := by
  simp [AddDoc, hinit, hmode]

theorem AddDoc_bare {φ ν : Type} (r : Ranker φ ν) (docId : Nat) (fields : Option φ)
    (hinit : r.initialized = true) :
    AddDoc r docId fields [] =
      { state := { r with fields := mapSet r.fields docId fields,
                          docs := mapSet r.docs docId true },
        failure := none } := by
  cases hm : r.idOnly <;> simp [AddDoc, hinit, hm, AddDoc.storeContent, AddDoc.storeAttri]

theorem AddDoc_content {φ ν : Type} (r : Ranker φ ν) (docId : Nat) (fields : Option φ)
    (s : String) (rest : List (ContentArg ν)) (hinit : r.initialized = true)
    (hmode : r.idOnly = false) :
    AddDoc r docId fields (ContentArg.str s :: rest) =
      { state := AddDoc.storeAttri
          { r with fields := mapSet r.fields docId fields,
                   docs := mapSet r.docs docId true,
                   content := mapSet r.content docId s } docId (ContentArg.str s :: rest),
        failure := none } := by
  simp [AddDoc, hinit, hmode, AddDoc.storeContent]

theorem AddDoc_presence {φ ν : Type} (r : Ranker φ ν) (docId : Nat) (fields : Option φ)
    (content : List (ContentArg ν)) (hinit : r.initialized = true) :
    (AddDoc r docId fields content).state.docs = mapSet r.docs docId true ∧
    (AddDoc r docId fields content).state.fields = mapSet r.fields docId fields ∧
    (AddDoc r docId fields content).state.idOnly = r.idOnly ∧
    (AddDoc r docId fields content).state.initialized = r.initialized := by
  cases hm : r.idOnly
  · cases content with
    | nil => rw [AddDoc_bare r docId fields hinit]; simp [hm]
    | cons a rest =>
      cases a with
      | str s =>
        rw [AddDoc_content r docId fields s rest hinit hm]
        cases rest with
        | nil => simp [AddDoc.storeAttri, hm]
        | cons b more => cases b <;> simp [AddDoc.storeAttri, hm]
      | nil => simp [AddDoc, hinit, hm, AddDoc.storeContent]
      | attrs c => simp [AddDoc, hinit, hm, AddDoc.storeContent]
      | other t => simp [AddDoc, hinit, hm, AddDoc.storeContent]
  · rw [AddDoc_idOnly r docId fields content hinit hm]
    simp [hm]

theorem AddDoc_optional {φ ν : Type} (r : Ranker φ ν) (docId : Nat) (fields : Option φ)
    (content : List (ContentArg ν)) (hinit : r.initialized = true) :
    ((AddDoc r docId fields content).state.content = r.content ∨
      ∃ s, (AddDoc r docId fields content).state.content = mapSet r.content docId s) ∧
    ((AddDoc r docId fields content).state.attri = r.attri ∨
      ∃ c, (AddDoc r docId fields content).state.attri = mapSet r.attri docId c) ∧
    (r.idOnly = true → (AddDoc r docId fields content).state.content = r.content ∧
      (AddDoc r docId fields content).state.attri = r.attri) := by
  cases hm : r.idOnly
  · cases content with
    | nil => rw [AddDoc_bare r docId fields hinit]; simp
    | cons a rest =>
      cases a with
      | str s =>
        rw [AddDoc_content r docId fields s rest hinit hm]
        cases rest with
        | nil => simp [AddDoc.storeAttri]
        | cons b more => cases b <;> simp [AddDoc.storeAttri]
      | nil => simp [AddDoc, hinit, hm, AddDoc.storeContent]
      | attrs c => simp [AddDoc, hinit, hm, AddDoc.storeContent]
      | other t => simp [AddDoc, hinit, hm, AddDoc.storeContent]
  · rw [AddDoc_idOnly r docId fields content hinit hm]
    simp

theorem isSome_mapSet_of_isSome {α β : Type} (m : Nat → Option α) (n : Nat → Option β)
    (k id : Nat) (v : α) (w : β)
    (h : (m id).isSome = true → (n id).isSome = true) :
    (mapSet m k v id).isSome = true → (mapSet n k w id).isSome = true := by
  by_cases hid : id = k
  · subst hid; simp [mapSet]
  · simpa [mapSet, hid] using h

theorem WellFormed_init {φ ν : Type} (onlyID : List Bool) :
    WellFormed (Init (Ranker.zero : Ranker φ ν) onlyID).state := by
  cases onlyID with
  | nil => constructor <;> simp [Init, Ranker.zero, emptyMap]
  | cons b rest =>
    cases b <;> constructor <;> simp [Init, Ranker.zero, emptyMap]

theorem WellFormed_addDoc {φ ν : Type} (r : Ranker φ ν) (docId : Nat) (fields : Option φ)
    (content : List (ContentArg ν)) (h : WellFormed r) :
    WellFormed (AddDoc r docId fields content).state := by
  obtain ⟨hdocs, hfields, hmode, hinit⟩ := AddDoc_presence r docId fields content h.initialized
  obtain ⟨hc, ha, hbare⟩ := AddDoc_optional r docId fields content h.initialized
  constructor
  · rw [hinit]; exact h.initialized
  · intro id
    rw [hdocs, hfields]
    by_cases hid : id = docId
    · subst hid; simp [mapSet]
    · simpa [mapSet, hid] using h.fields_docs id
  · intro id
    rw [hdocs]
    rcases hc with hc | ⟨s, hc⟩
    · rw [hc]
      intro hsome
      by_cases hid : id = docId
      · subst hid; simp [mapSet]
      · simpa [mapSet, hid] using h.content_docs id hsome
    · rw [hc]
      exact isSome_mapSet_of_isSome _ _ _ _ _ _ (h.content_docs id)
  · intro id
    rw [hdocs]
    rcases ha with ha | ⟨c, ha⟩
    · rw [ha]
      intro hsome
      by_cases hid : id = docId
      · subst hid; simp [mapSet]
      · simpa [mapSet, hid] using h.attri_docs id hsome
    · rw [ha]
      exact isSome_mapSet_of_isSome _ _ _ _ _ _ (h.attri_docs id)
  · intro hm
    rw [hmode] at hm
    obtain ⟨e1, e2⟩ := hbare hm
    rw [e1, e2]
    exact h.bare hm

theorem WellFormed_removeDoc {φ ν : Type} (r : Ranker φ ν) (docId : Nat)
    (h : WellFormed r) : WellFormed (RemoveDoc r docId).state := by
  cases hm : r.idOnly
  · rw [RemoveDoc_full r docId h.initialized hm]
    constructor
    · exact h.initialized
    · intro id
      by_cases hid : id = docId
      · subst hid; simp [mapDelete]
      · simpa [mapDelete, hid] using h.fields_docs id
    · intro id
      by_cases hid : id = docId
      · subst hid; simp [mapDelete]
      · simpa [mapDelete, hid] using h.content_docs id
    · intro id
      by_cases hid : id = docId
      · subst hid; simp [mapDelete]
      · simpa [mapDelete, hid] using h.attri_docs id
    · intro hm'
      have : r.idOnly = true := hm'
      rw [hm] at this
      cases this
  · rw [RemoveDoc_idOnly r docId h.initialized hm]
    obtain ⟨hc, ha⟩ := h.bare hm
    constructor
    · exact h.initialized
    · intro id
      by_cases hid : id = docId
      · subst hid; simp [mapDelete]
      · simpa [mapDelete, hid] using h.fields_docs id
    · intro id; simp [hc id]
    · intro id; simp [ha id]
    · intro _; exact ⟨hc, ha⟩

theorem Reachable.wellFormed {φ ν : Type} {r : Ranker φ ν} (h : Reachable r) :
    WellFormed r := by
  induction h with
  | init onlyID => exact WellFormed_init onlyID
  | addDoc docId fields content _ _ ih => exact WellFormed_addDoc _ docId fields content ih
  | removeDoc docId _ _ ih => exact WellFormed_removeDoc _ docId ih

theorem builtRanker_reachable : Reachable builtRanker :=
  Reachable.addDoc 5 _ _ (Reachable.addDoc 1 _ _ (Reachable.init []) rfl) rfl

/-! ## Mode dispatch and the uninitialized registry -/

theorem Rank_idOnly {φ ν ω : Type} (S : Sorter) (r : Ranker φ ν) (docs : List IndexedDoc)
    (options : RankOpts φ) (countDocsOnly : Bool) (filterOpt : List (FilterOptions ν ω))
    (orderAtTheEnd : Bool) (hinit : r.initialized = true) (hmode : r.idOnly = true) :
    Rank S r docs options countDocsOnly filterOpt orderAtTheEnd =
      (RankDocID S r docs options countDocsOnly).map
        (fun res => (RankOutput.ids res.1, res.2)) := by
  simp [Rank, hinit, hmode]

theorem idBuiltRanker_reachable : Reachable idBuiltRanker :=
  Reachable.addDoc _ _ _ (Reachable.init [true]) rfl

theorem sliceRange_ok_or_panic {α : Type} (s : List α) (start stop : Int) :
    (∃ page, sliceRange s start stop = .ok page) ∨
      sliceRange s start stop = .error Failure.panic := by
  unfold sliceRange
  split
  · exact Or.inl ⟨_, rfl⟩
  · exact Or.inr rfl

theorem paginate_ok_or_panic {α φ : Type} (options : RankOpts φ) (sorted : List α)
    (numDocs : Nat) :
    (∃ res, paginate options sorted numDocs = .ok res) ∨
      paginate options sorted numDocs = .error Failure.panic := by
  unfold paginate
  rcases sliceRange_ok_or_panic sorted (maxOutput options sorted.length).1
    (maxOutput options sorted.length).2 with ⟨page, h⟩ | h
  · rw [h]; exact Or.inl ⟨_, rfl⟩
  · rw [h]; exact Or.inr rfl

theorem scored_zero {φ ν : Type} (options : RankOpts φ) (d : IndexedDoc) :
    scored (Ranker.zero : Ranker φ ν) options d = false := by
  simp [scored, present, Ranker.zero, emptyMap]

theorem survivingIDs_zero {φ ν : Type} (options : RankOpts φ) (docs : List IndexedDoc) :
    survivingIDs (Ranker.zero : Ranker φ ν) options docs = [] := by
  simp [survivingIDs, scored_zero]

theorem survivingDocs_zero {φ ν ω : Type} (options : RankOpts φ)
    (filterOpt : List (FilterOptions ν ω)) (docs : List IndexedDoc) :
    survivingDocs (Ranker.zero : Ranker φ ν) options filterOpt docs = [] := by
  simp [survivingDocs, scored_zero]

theorem scoredCount_zero {φ ν : Type} (options : RankOpts φ) (docs : List IndexedDoc) :
    scoredCount (Ranker.zero : Ranker φ ν) options docs = 0 := by
  simp [scoredCount, scored_zero]

theorem lawful_sort_singleton {α : Type} (S : Sorter) (hS : S.Lawful)
    (less : α → α → Bool) (x : α) : S.sort less [x] = [x] :=
  List.perm_singleton.mp (hS.perm less [x])

/-! ## Lock operations and calls in the trace -/

theorem filterRun_trace {φ ν ω : Type} (attri : AttrMap ν)
    (filterOpt : List (FilterOptions ν ω)) (m : Machine φ ν) :
    ∃ evs, (RankDocs.filterRun attri filterOpt m).2.trace = m.trace ++ evs ∧
      ∀ e ∈ evs, e.isLock = false ∧ ∀ k, e.callHeld = some k → k = m.held := by
  induction filterOpt generalizing m with
  | nil => exact ⟨[], by simp [RankDocs.filterRun], by simp⟩
  | cons f rest ih =>
    simp only [RankDocs.filterRun]
    cases hl : List.lookup f.Attr attri with
    | none =>
      obtain ⟨evs, h1, h2⟩ := ih (m.emit (Event.logWarning f.Attr))
      refine ⟨Event.logWarning f.Attr :: evs, by simpa [Machine.emit] using h1, ?_⟩
      intro e he
      rcases List.mem_cons.mp he with rfl | he
      · simp [Event.isLock, Event.callHeld]
      · simpa [Machine.emit] using h2 e he
    | some ori =>
      cases hc : f.Val.Compare ori.Value f.Op with
      | error err =>
        obtain ⟨evs, h1, h2⟩ :=
          ih ((m.emit (Event.compare f.Attr m.held)).emit (Event.logError err))
        refine ⟨Event.compare f.Attr m.held :: Event.logError err :: evs,
          by simpa [Machine.emit, hc] using h1, ?_⟩
        intro e he
        rcases List.mem_cons.mp he with rfl | he
        · simp [Event.isLock, Event.callHeld]
        · rcases List.mem_cons.mp he with rfl | he
          · simp [Event.isLock, Event.callHeld]
          · simpa [Machine.emit] using h2 e he
      | ok res =>
        cases res with
        | true =>
          obtain ⟨evs, h1, h2⟩ := ih (m.emit (Event.compare f.Attr m.held))
          refine ⟨Event.compare f.Attr m.held :: evs,
            by simpa [Machine.emit, hc] using h1, ?_⟩
          intro e he
          rcases List.mem_cons.mp he with rfl | he
          · simp [Event.isLock, Event.callHeld]
          · simpa [Machine.emit] using h2 e he
        | false =>
          refine ⟨[Event.compare f.Attr m.held], by simp [Machine.emit, hc], ?_⟩
          intro e he
          rcases List.mem_singleton.mp he with rfl
          simp [Event.isLock, Event.callHeld]

theorem RankDocs_visitRun_trace {φ ν ω : Type} (options : RankOpts φ) (countDocsOnly : Bool)
    (filterOpt : List (FilterOptions ν ω))
    (st : (List (ScoredDoc φ ν) × Nat) × Machine φ ν) (d : IndexedDoc) :
    ∃ rest, (RankDocs.visitRun options countDocsOnly filterOpt st d).2.trace =
        st.2.trace ++ Event.rlock :: Event.runlock :: rest ∧
      ∀ e ∈ rest, e.isLock = false ∧ ∀ k, e.callHeld = some k → k = st.2.held := by
  obtain ⟨res, m⟩ := st
  simp only [RankDocs.visitRun, Machine.RLock, Machine.RUnlock, Machine.emit]
  cases hd : m.ranker.docs d.DocId with
  | none => exact ⟨[], by simp, by simp⟩
  | some b =>
    simp only []
    have hscore : ∀ e ∈ [Event.score d.DocId (m.held + 1 - 1)],
        e.isLock = false ∧ ∀ k, e.callHeld = some k → k = m.held := by
      intro e he
      rcases List.mem_singleton.mp he with rfl
      simp [Event.isLock, Event.callHeld]
    by_cases hs : (options.ScoringCriteria.Score d (m.ranker.fieldsAt d.DocId)).length > 0
    · simp only [hs, if_true]
      cases countDocsOnly with
      | true => exact ⟨[Event.score d.DocId (m.held + 1 - 1)], by simp, hscore⟩
      | false =>
        simp only [Bool.not_false, if_true]
        obtain ⟨evs, h1, h2⟩ := filterRun_trace (m.ranker.attriAt d.DocId) filterOpt
          ({ ranker := m.ranker, held := m.held + 1 - 1,
             trace := m.trace ++ [Event.rlock] ++ [Event.runlock] ++
               [Event.score d.DocId (m.held + 1 - 1)] } : Machine φ ν)
        refine ⟨Event.score d.DocId (m.held + 1 - 1) :: evs, ?_, ?_⟩
        · split <;> simpa using h1
        · intro e he
          rcases List.mem_cons.mp he with rfl | he
          · simp [Event.isLock, Event.callHeld]
          · simpa using h2 e he
    · simp only [hs, if_false]
      exact ⟨[Event.score d.DocId (m.held + 1 - 1)], by simp, hscore⟩

theorem RankDocID_visitRun_trace {φ ν : Type} (options : RankOpts φ) (countDocsOnly : Bool)
    (st : (List ScoredID × Nat) × Machine φ ν) (d : IndexedDoc) :
    ∃ rest, (RankDocID.visitRun options countDocsOnly st d).2.trace =
        st.2.trace ++ Event.rlock :: Event.runlock :: rest ∧
      ∀ e ∈ rest, e.isLock = false ∧ ∀ k, e.callHeld = some k → k = st.2.held := by
  obtain ⟨res, m⟩ := st
  simp only [RankDocID.visitRun, Machine.RLock, Machine.RUnlock, Machine.emit]
  cases hd : m.ranker.docs d.DocId with
  | none => exact ⟨[], by simp, by simp⟩
  | some b =>
    simp only []
    have hscore : ∀ e ∈ [Event.score d.DocId (m.held + 1 - 1)],
        e.isLock = false ∧ ∀ k, e.callHeld = some k → k = m.held := by
      intro e he
      rcases List.mem_singleton.mp he with rfl
      simp [Event.isLock, Event.callHeld]
    by_cases hs : (options.ScoringCriteria.Score d (m.ranker.fieldsAt d.DocId)).length > 0
    · simp only [hs, if_true]
      exact ⟨[Event.score d.DocId (m.held + 1 - 1)], by simp, hscore⟩
    · simp only [hs, if_false]
      exact ⟨[Event.score d.DocId (m.held + 1 - 1)], by simp, hscore⟩

theorem count_lock_of_not_isLock (rest : List Event) (h : ∀ e ∈ rest, e.isLock = false) :
    rest.count Event.rlock = 0 ∧ rest.count Event.runlock = 0 := by
  constructor
  · apply List.count_eq_zero.mpr
    intro hmem
    have := h _ hmem
    simp [Event.isLock] at this
  · apply List.count_eq_zero.mpr
    intro hmem
    have := h _ hmem
    simp [Event.isLock] at this

theorem fold_trace {φ ν σ : Type} (step : σ × Machine φ ν → IndexedDoc → σ × Machine φ ν)
    (hheld : ∀ st d, (step st d).2.held = st.2.held)
    (hstep : ∀ st d, ∃ rest, (step st d).2.trace =
        st.2.trace ++ Event.rlock :: Event.runlock :: rest ∧
      ∀ e ∈ rest, e.isLock = false ∧ ∀ k, e.callHeld = some k → k = st.2.held)
    (docs : List IndexedDoc) (st : σ × Machine φ ν) :
    ∃ tail, (docs.foldl step st).2.trace = st.2.trace ++ tail ∧
      tail.count Event.rlock = docs.length ∧ tail.count Event.runlock = docs.length ∧
      ∀ e ∈ tail, ∀ k, e.callHeld = some k → k = st.2.held := by
  induction docs generalizing st with
  | nil => exact ⟨[], by simp, by simp, by simp, by simp⟩
  | cons d ds ih =>
    obtain ⟨rest, h1, h2⟩ := hstep st d
    obtain ⟨tail, t1, t2, t3, t4⟩ := ih (step st d)
    obtain ⟨c1, c2⟩ := count_lock_of_not_isLock rest (fun e he => (h2 e he).1)
    refine ⟨Event.rlock :: Event.runlock :: rest ++ tail, ?_, ?_, ?_, ?_⟩
    · simp only [List.foldl_cons]
      rw [t1, h1]
      simp
    · simp [List.count_cons, c1, t2]
    · simp [List.count_cons, c2, t3]
    · intro e he k hk
      simp only [List.cons_append, List.mem_cons, List.mem_append] at he
      rcases he with rfl | rfl | he | he
      · simp [Event.callHeld] at hk
      · simp [Event.callHeld] at hk
      · exact (h2 e he).2 k hk
      · rw [← hheld st d]
        exact t4 e he k hk

/-! ## Filter lists with the same verdicts -/

theorem RankDocs_filters_congr {φ ν ω ω' : Type} (S : Sorter) (r : Ranker φ ν)
    (docs : List IndexedDoc) (options : RankOpts φ) (countDocsOnly : Bool)
    (filterOpt : List (FilterOptions ν ω)) (filterOpt' : List (FilterOptions ν ω'))
    (orderAtTheEnd : Bool)
    (h : ∀ d ∈ docs, RankDocs.overFlag (r.attriAt d.DocId) filterOpt =
      RankDocs.overFlag (r.attriAt d.DocId) filterOpt') :
    RankDocs S r docs options countDocsOnly filterOpt orderAtTheEnd =
      RankDocs S r docs options countDocsOnly filterOpt' orderAtTheEnd := by
  have hvisit : ∀ (ds : List IndexedDoc), (∀ d ∈ ds, d ∈ docs) →
      ∀ st, ds.foldl (RankDocs.visit r options countDocsOnly filterOpt) st =
        ds.foldl (RankDocs.visit r options countDocsOnly filterOpt') st := by
    intro ds
    induction ds with
    | nil => intro _ st; rfl
    | cons d rest ih =>
      intro hmem st
      simp only [List.foldl_cons]
      have hd : RankDocs.visit r options countDocsOnly filterOpt st d =
          RankDocs.visit r options countDocsOnly filterOpt' st d := by
        simp only [RankDocs.visit, h d (hmem d (List.mem_cons_self _ _))]
      rw [hd]
      exact ih (fun x hx => hmem x (List.mem_cons_of_mem _ hx)) _
  unfold RankDocs
  rw [hvisit docs (fun _ hd => hd)]

theorem overFlag_perm {ν ω : Type} (attri : AttrMap ν)
    (filterOpt filterOpt' : List (FilterOptions ν ω)) (h : filterOpt.Perm filterOpt') :
    RankDocs.overFlag attri filterOpt = RankDocs.overFlag attri filterOpt' := by
  rw [overFlag_eq_any, overFlag_eq_any]
  rw [Bool.eq_iff_iff]
  simp only [List.any_eq_true]
  constructor
  · rintro ⟨f, hf, hr⟩
    exact ⟨f, h.mem_iff.mp hf, hr⟩
  · rintro ⟨f, hf, hr⟩
    exact ⟨f, h.mem_iff.mpr hf, hr⟩

/-! ## Pages of a list -/

theorem page_eq_paginate {α φ : Type} (options : RankOpts φ) (sorted : List α) (n : Nat) :
    paginate options sorted n = (page options sorted).map (fun p => (p, n)) := rfl

theorem page_sublist {α φ : Type} (options : RankOpts φ) (sorted p : List α)
    (h : page options sorted = .ok p) : p.Sublist sorted :=
  sliceRange_sublist _ _ _ _ h

theorem page_whole {α φ : Type} (options : RankOpts φ) (sorted : List α)
    (hoff : options.OutputOffset = 0) (hmax : options.MaxOutputs = 0) :
    page options sorted = .ok sorted := by
  have hn : (0 : Int) ≤ sorted.length := Int.ofNat_nonneg _
  have hmin : MinInt 0 (sorted.length : Int) = 0 := by
    rw [MinInt_eq_min]; exact min_eq_left hn
  simp only [page, maxOutput, hoff, hmax, ne_eq, not_true_eq_false, if_false, hmin]
  simp [sliceRange]

theorem surviving_length_le {φ ν ω : Type} (r : Ranker φ ν) (options : RankOpts φ)
    (filterOpt : List (FilterOptions ν ω)) (docs : List IndexedDoc) :
    (survivingDocs r options filterOpt docs).length ≤ docs.length ∧
    (survivingIDs r options docs).length ≤ docs.length := by
  constructor
  · simp only [survivingDocs, List.length_map]
    exact List.length_filter_le _ _
  · simp only [survivingIDs, List.length_map]
    exact List.length_filter_le _ _

theorem paged_result {α φ : Type} (S : Sorter) (hS : S.Lawful) (options : RankOpts φ)
    (less : α → α → Bool) (l out : List α) (k n : Nat)
    (h : paginate options (S.sort less l) k = .ok (out, n)) :
    n = k ∧ out.length ≤ l.length ∧
      (options.OutputOffset = 0 → options.MaxOutputs = 0 → out.length = l.length) := by
  obtain ⟨hsub, hn⟩ := paginate_ok options _ _ _ _ h
  have hlen : (S.sort less l).length = l.length := (hS.perm less l).length_eq
  refine ⟨hn, hlen ▸ hsub.length_le, ?_⟩
  intro hoff hmax
  rw [page_eq_paginate, page_whole options _ hoff hmax] at h
  simp only [Except.map] at h
  cases h
  exact hlen

theorem drop_take_clamp {α : Type} (l : List α) (o k : Nat) :
    (l.drop (min o l.length)).take (min (o + k) l.length - min o l.length) =
      (l.drop o).take k := by
  by_cases ho : o ≤ l.length
  · rw [min_eq_left ho]
    by_cases hk : o + k ≤ l.length
    · rw [min_eq_left hk, Nat.add_sub_cancel_left]
    · rw [min_eq_right (by omega)]
      rw [List.take_of_length_le (by simp), List.take_of_length_le (by simp; omega)]
  · have h1 : l.drop o = [] := List.drop_of_length_le (by omega)
    have h2 : l.drop (min o l.length) = [] := List.drop_of_length_le (by
      rw [min_eq_right (by omega)])
    rw [h1, h2]
    simp

theorem page_limited {α φ : Type} (options : RankOpts φ) (l : List α) (o k : Nat)
    (hk : k ≠ 0) (hsum : ((o : Int) + k) ≤ maxInt) :
    page (withPage options o k) l = .ok ((l.drop o).take k) := by
  have hadd : addInt (o : Int) (k : Int) = (o : Int) + k := by
    unfold addInt
    exact wrapInt_of_range _ (by unfold minInt; omega) hsum
  have hk' : (k : Int) ≠ 0 := by exact_mod_cast hk
  have hs : min (o : Int) (l.length : Int) = ((min o l.length : Nat) : Int) := by
    simp
  have he : min ((o : Int) + k) (l.length : Int) = ((min (o + k) l.length : Nat) : Int) := by
    simp
  simp only [page, withPage, maxOutput, ne_eq, hk', not_false_eq_true, if_true,
    MinInt_eq_min, hadd, hs, he]
  unfold sliceRange
  rw [if_pos ⟨by omega, by
    have : min o l.length ≤ min (o + k) l.length := min_le_min (by omega) (le_refl _)
    exact_mod_cast this, by
    have : min (o + k) l.length ≤ l.length := min_le_right _ _
    exact_mod_cast this⟩]
  simp only [Int.toNat_ofNat]
  rw [drop_take_clamp]

theorem page_unlimited {α φ : Type} (options : RankOpts φ) (l : List α) (o : Nat) :
    page (withPage options o 0) l = .ok (l.drop o) := by
  have hs : min (o : Int) (l.length : Int) = ((min o l.length : Nat) : Int) := by
    simp
  simp only [page, withPage, maxOutput, ne_eq, not_true_eq_false, if_false,
    MinInt_eq_min, hs]
  unfold sliceRange
  rw [if_pos ⟨by omega, by
    have : min o l.length ≤ l.length := min_le_right _ _
    exact_mod_cast this, le_refl _⟩]
  simp only [Int.toNat_ofNat]
  congr 1
  by_cases ho : o ≤ l.length
  · rw [min_eq_left ho]
    exact List.take_of_length_le (by simp)
  · rw [min_eq_right (by omega)]
    rw [List.drop_of_length_le (le_refl _), List.drop_of_length_le (by omega)]
    simp

/-! ## Sorting through `Less` alone -/

theorem insertBack_map {α β : Type} (f : α → β) (less : α → α → Bool)
    (less' : β → β → Bool) (h : ∀ a b, less' (f a) (f b) = less a b) (x : α) (l : List α) :
    insertBack less' (f x) (l.map f) = (insertBack less x l).map f := by
  induction l with
  | nil => rfl
  | cons y ys ih =>
    simp only [List.map_cons, insertBack, h]
    split
    · simp [ih]
    · simp

theorem foldl_insertBack_map {α β : Type} (f : α → β) (less : α → α → Bool)
    (less' : β → β → Bool) (h : ∀ a b, less' (f a) (f b) = less a b) (xs acc : List α) :
    (xs.map f).foldl (fun acc x => insertBack less' x acc) (acc.map f) =
      (xs.foldl (fun acc x => insertBack less x acc) acc).map f := by
  induction xs generalizing acc with
  | nil => rfl
  | cons x rest ih =>
    simp only [List.map_cons, List.foldl_cons]
    rw [insertBack_map f less less' h, ih]

theorem insertionSort_map {α β : Type} (f : α → β) (less : α → α → Bool)
    (less' : β → β → Bool) (h : ∀ a b, less' (f a) (f b) = less a b) (xs : List α) :
    insertionSort less' (xs.map f) = (insertionSort less xs).map f := by
  unfold insertionSort
  have := foldl_insertBack_map f less less' h xs []
  simp only [List.map_nil] at this
  rw [this, List.map_reverse]

theorem exchange_map {α β : Type} (f : α → β) (less : α → α → Bool)
    (less' : β → β → Bool) (h : ∀ a b, less' (f a) (f b) = less a b) (as bs : List α) :
    exchange less' (as.map f) (bs.map f) =
      ((exchange less as bs).1.map f, (exchange less as bs).2.map f) := by
  induction as generalizing bs with
  | nil => cases bs <;> simp [exchange]
  | cons a rest ih =>
    cases bs with
    | nil => simp [exchange]
    | cons b more =>
      simp only [List.map_cons, exchange, h, ih]
      split <;> simp

theorem shellPass_map {α β : Type} (f : α → β) (less : α → α → Bool)
    (less' : β → β → Bool) (h : ∀ a b, less' (f a) (f b) = less a b) (xs : List α) :
    shellPass less' (xs.map f) = (shellPass less xs).map f := by
  unfold shellPass
  simp only [← List.map_take, ← List.map_drop, exchange_map f less less' h, List.map_append]

theorem smallSort_natural : smallSort.Natural := by
  intro α β f less less' h xs
  simp only [smallSort]
  rw [shellPass_map f less less' h, insertionSort_map f less less' h]

theorem sliceRange_map {α β : Type} (f : α → β) (s : List α) (start stop : Int) :
    sliceRange (s.map f) start stop = (sliceRange s start stop).map (List.map f) := by
  unfold sliceRange
  simp only [List.length_map]
  split
  · simp [Except.map, List.map_take, List.map_drop]
  · rfl

theorem survivingIDs_eq_map {φ ν ω : Type} (r : Ranker φ ν) (options : RankOpts φ)
    (docs : List IndexedDoc) :
    survivingIDs r options docs =
      (survivingDocs r options ([] : List (FilterOptions ν ω)) docs).map ScoredDoc.toID := by
  simp [survivingIDs, survivingDocs, excluded, RankDocs.overFlag, List.map_map,
    Function.comp_def, ScoredDoc.toID, docRecord, idRecord]

/-! ## Frame of the registry operations -/

theorem AddDoc_keeps_attri {φ ν : Type} (r : Ranker φ ν) (docId : Nat) (fields : Option φ)
    (content : List (ContentArg ν)) (hinit : r.initialized = true)
    (h : content = [] ∨ ∃ a b rest, content = a :: b :: rest ∧ ∀ c, b ≠ ContentArg.attrs c) :
    (AddDoc r docId fields content).state.attri = r.attri := by
  rcases h with h | ⟨a, b, rest, h, hb⟩
  · subst h
    rw [AddDoc_bare r docId fields hinit]
  · subst h
    cases hm : r.idOnly
    · cases a with
      | str s =>
        rw [AddDoc_content r docId fields s _ hinit hm]
        cases b with
        | attrs c => exact absurd rfl (hb c)
        | nil => simp [AddDoc.storeAttri]
        | str t => simp [AddDoc.storeAttri]
        | other t => simp [AddDoc.storeAttri]
      | nil => simp [AddDoc, hinit, hm, AddDoc.storeContent]
      | attrs c => simp [AddDoc, hinit, hm, AddDoc.storeContent]
      | other t => simp [AddDoc, hinit, hm, AddDoc.storeContent]
    · rw [AddDoc_idOnly r docId fields _ hinit hm]

theorem mapSet_frame {α : Type} (m : Nat → Option α) (x y : Nat) (v : α) (h : x ≠ y) :
    mapSet m x v y = m y := by
  simp [mapSet, Ne.symm h]

theorem mapDelete_mapSet {α : Type} (m : Nat → Option α) (x : Nat) (v : α)
    (h : m x = none) : mapDelete (mapSet m x v) x = m := by
  funext i
  by_cases hi : i = x
  · subst hi; simp [mapDelete, h]
  · simp [mapDelete, mapSet, hi]

theorem AddDoc_frame {φ ν : Type} (r : Ranker φ ν) (x y : Nat) (fields : Option φ)
    (content : List (ContentArg ν)) (hinit : r.initialized = true) (hxy : x ≠ y) :
    (AddDoc r x fields content).state.docs y = r.docs y ∧
    (AddDoc r x fields content).state.fields y = r.fields y ∧
    (AddDoc r x fields content).state.content y = r.content y ∧
    (AddDoc r x fields content).state.attri y = r.attri y := by
  obtain ⟨hdocs, hfields, _, _⟩ := AddDoc_presence r x fields content hinit
  obtain ⟨hc, ha, _⟩ := AddDoc_optional r x fields content hinit
  refine ⟨by rw [hdocs, mapSet_frame _ _ _ _ hxy], by rw [hfields, mapSet_frame _ _ _ _ hxy],
    ?_, ?_⟩
  · rcases hc with hc | ⟨s, hc⟩
    · rw [hc]
    · rw [hc, mapSet_frame _ _ _ _ hxy]
  · rcases ha with ha | ⟨c, ha⟩
    · rw [ha]
    · rw [ha, mapSet_frame _ _ _ _ hxy]

theorem RemoveDoc_frame {φ ν : Type} (r : Ranker φ ν) (x y : Nat)
    (hinit : r.initialized = true) (hxy : x ≠ y) :
    (RemoveDoc r x).state.docs y = r.docs y ∧
    (RemoveDoc r x).state.fields y = r.fields y ∧
    (RemoveDoc r x).state.content y = r.content y ∧
    (RemoveDoc r x).state.attri y = r.attri y := by
  cases hm : r.idOnly
  · rw [RemoveDoc_full r x hinit hm]
    simp [mapDelete, Ne.symm hxy]
  · rw [RemoveDoc_idOnly r x hinit hm]
    simp [mapDelete, Ne.symm hxy]

theorem AddDoc_RemoveDoc {φ ν : Type} (r : Ranker φ ν) (x : Nat) (fields : Option φ)
    (content : List (ContentArg ν)) (hinit : r.initialized = true)
    (hf : r.fields x = none) (hd : r.docs x = none) (hc : r.content x = none)
    (ha : r.attri x = none) :
    (RemoveDoc (AddDoc r x fields content).state x).state = r := by
  obtain ⟨hdocs, hfields, hmode, hini⟩ := AddDoc_presence r x fields content hinit
  obtain ⟨hco, hat, hid⟩ := AddDoc_optional r x fields content hinit
  have hini' : (AddDoc r x fields content).state.initialized = true := by rw [hini, hinit]
  cases hm : r.idOnly
  · have hm' : (AddDoc r x fields content).state.idOnly = false := by rw [hmode, hm]
    rw [RemoveDoc_full _ x hini' hm']
    have e1 : mapDelete (AddDoc r x fields content).state.fields x = r.fields := by
      rw [hfields, mapDelete_mapSet _ _ _ hf]
    have e2 : mapDelete (AddDoc r x fields content).state.docs x = r.docs := by
      rw [hdocs, mapDelete_mapSet _ _ _ hd]
    have e3 : mapDelete (AddDoc r x fields content).state.content x = r.content := by
      rcases hco with h | ⟨s, h⟩
      · rw [h, mapDelete_absent _ _ hc]
      · rw [h, mapDelete_mapSet _ _ _ hc]
    have e4 : mapDelete (AddDoc r x fields content).state.attri x = r.attri := by
      rcases hat with h | ⟨c, h⟩
      · rw [h, mapDelete_absent _ _ ha]
      · rw [h, mapDelete_mapSet _ _ _ ha]
    simp only [e1, e2, e3, e4, hm', hini']
    cases r
    simp_all
  · have hm' : (AddDoc r x fields content).state.idOnly = true := by rw [hmode, hm]
    rw [RemoveDoc_idOnly _ x hini' hm']
    have e1 : mapDelete (AddDoc r x fields content).state.fields x = r.fields := by
      rw [hfields, mapDelete_mapSet _ _ _ hf]
    have e2 : mapDelete (AddDoc r x fields content).state.docs x = r.docs := by
      rw [hdocs, mapDelete_mapSet _ _ _ hd]
    obtain ⟨e3, e4⟩ := hid hm
    simp only [e1, e2]
    rw [AddDoc_idOnly r x fields content hinit hm]

/-! ## Rounding to `float32` -/

theorem log2Fuel_spec (fuel n : Nat) (hn : 1 ≤ n) (hf : n ≤ fuel) :
    2 ^ log2Fuel fuel n ≤ n ∧ n < 2 ^ (log2Fuel fuel n + 1) := by
  induction fuel generalizing n with
  | zero => omega
  | succ fuel ih =>
    unfold log2Fuel
    by_cases h2 : n < 2
    · rw [if_pos h2]
      constructor
      · simpa using hn
      · simpa using h2
    · rw [if_neg h2]
      have hhalf : 1 ≤ n / 2 := by omega
      obtain ⟨h1, h3⟩ := ih (n / 2) hhalf (by omega)
      constructor
      · rw [pow_succ]
        omega
      · rw [pow_succ]
        omega

theorem natLog2_spec (n : Nat) (hn : 1 ≤ n) :
    2 ^ natLog2 n ≤ n ∧ n < 2 ^ (natLog2 n + 1) :=
  log2Fuel_spec n n hn (le_refl n)

theorem floorLog2_spec (q : ℚ) (hq : 0 < q) :
    (2 : ℚ) ^ floorLog2 q ≤ q ∧ q < (2 : ℚ) ^ (floorLog2 q + 1) := by
  have hnum : 0 < q.num := Rat.num_pos.mpr hq
  have hden : 0 < q.den := q.den_pos
  obtain ⟨a1, a2⟩ := natLog2_spec q.num.natAbs (by omega)
  obtain ⟨b1, b2⟩ := natLog2_spec q.den (by omega)
  generalize hla : natLog2 q.num.natAbs = la at a1 a2
  generalize hlb : natLog2 q.den = lb at b1 b2
  have hqa : q = (q.num.natAbs : ℚ) / (q.den : ℚ) := by
    have h1 : ((q.num.natAbs : ℕ) : ℚ) = (q.num : ℚ) := by
      have h := Int.natAbs_of_nonneg (le_of_lt hnum)
      rw [← Int.cast_natCast, h]
    rw [h1]
    exact (Rat.num_div_den q).symm
  generalize ha : (q.num.natAbs : ℚ) = a at hqa
  generalize hb : (q.den : ℚ) = b at hqa
  have hdq : (0 : ℚ) < b := by rw [← hb]; exact_mod_cast hden
  have ha0 : (0 : ℚ) ≤ a := by rw [← ha]; positivity
  have A1 : (2 : ℚ) ^ la ≤ a := by rw [← ha]; exact_mod_cast a1
  have A2 : a < (2 : ℚ) ^ (la + 1) := by rw [← ha]; exact_mod_cast a2
  have B1 : (2 : ℚ) ^ lb ≤ b := by rw [← hb]; exact_mod_cast b1
  have B2 : b < (2 : ℚ) ^ (lb + 1) := by rw [← hb]; exact_mod_cast b2
  have hupper : q < (2 : ℚ) ^ ((la : ℤ) - (lb : ℤ) + 1) := by
    have e : (2 : ℚ) ^ ((la : ℤ) - (lb : ℤ) + 1) = (2 : ℚ) ^ (la + 1) / (2 : ℚ) ^ lb := by
      rw [show ((la : ℤ) - (lb : ℤ) + 1) = ((la + 1 : ℕ) : ℤ) - ((lb : ℕ) : ℤ) by
        push_cast; ring]
      rw [zpow_sub₀ (by norm_num : (2 : ℚ) ≠ 0), zpow_natCast, zpow_natCast]
    rw [e, hqa, div_lt_div_iff₀ hdq (pow_pos (by norm_num) _)]
    calc a * (2 : ℚ) ^ lb ≤ a * b := mul_le_mul_of_nonneg_left B1 ha0
      _ < (2 : ℚ) ^ (la + 1) * b := mul_lt_mul_of_pos_right A2 hdq
  have hlower : (2 : ℚ) ^ ((la : ℤ) - (lb : ℤ) - 1) ≤ q := by
    have e : (2 : ℚ) ^ ((la : ℤ) - (lb : ℤ) - 1) = (2 : ℚ) ^ la / (2 : ℚ) ^ (lb + 1) := by
      rw [show ((la : ℤ) - (lb : ℤ) - 1) = ((la : ℕ) : ℤ) - ((lb + 1 : ℕ) : ℤ) by
        push_cast; ring]
      rw [zpow_sub₀ (by norm_num : (2 : ℚ) ≠ 0), zpow_natCast, zpow_natCast]
    rw [e, hqa, div_le_div_iff₀ (pow_pos (by norm_num) _) hdq]
    calc (2 : ℚ) ^ la * b ≤ a * b := mul_le_mul_of_nonneg_right A1 (le_of_lt hdq)
      _ ≤ a * (2 : ℚ) ^ (lb + 1) := mul_le_mul_of_nonneg_left (le_of_lt B2) ha0
  unfold floorLog2
  simp only [hla, hlb]
  split
  · rename_i h
    exact ⟨h, hupper⟩
  · rename_i h
    refine ⟨hlower, ?_⟩
    rw [sub_add_cancel]
    exact not_le.mp h

theorem floorLog2_mono (x y : ℚ) (hx : 0 < x) (hxy : x ≤ y) : floorLog2 x ≤ floorLog2 y := by
  obtain ⟨h1, _⟩ := floorLog2_spec x hx
  obtain ⟨_, h2⟩ := floorLog2_spec y (lt_of_lt_of_le hx hxy)
  have h : (2 : ℚ) ^ floorLog2 x < (2 : ℚ) ^ (floorLog2 y + 1) :=
    lt_of_le_of_lt (le_trans h1 hxy) h2
  have := (zpow_lt_zpow_iff_right₀ (by norm_num : (1 : ℚ) < 2)).mp h
  omega

theorem floorLog2_le (x : ℚ) (e : Int) (hx : 0 < x) (h : x < (2 : ℚ) ^ (e + 1)) :
    floorLog2 x ≤ e := by
  obtain ⟨h1, _⟩ := floorLog2_spec x hx
  have := (zpow_lt_zpow_iff_right₀ (by norm_num : (1 : ℚ) < 2)).mp (lt_of_le_of_lt h1 h)
  omega

theorem le_floorLog2 (x : ℚ) (e : Int) (h : (2 : ℚ) ^ e ≤ x) : e ≤ floorLog2 x := by
  have hx : 0 < x := lt_of_lt_of_le (zpow_pos (by norm_num) e) h
  obtain ⟨_, h2⟩ := floorLog2_spec x hx
  have := (zpow_lt_zpow_iff_right₀ (by norm_num : (1 : ℚ) < 2)).mp (lt_of_le_of_lt h h2)
  omega

theorem roundHalfEven_near (q : ℚ) :
    q - 1 / 2 ≤ (roundHalfEven q : ℚ) ∧ (roundHalfEven q : ℚ) ≤ q + 1 / 2 := by
  have h1 : (⌊q⌋ : ℚ) ≤ q := Int.floor_le q
  have h2 : q < (⌊q⌋ : ℚ) + 1 := Int.lt_floor_add_one q
  unfold roundHalfEven
  simp only []
  split
  · constructor <;> linarith
  · split
    · constructor <;> push_cast <;> linarith
    · rename_i ha hb
      have hd : q - (⌊q⌋ : ℚ) = 1 / 2 := le_antisymm (not_lt.mp hb) (not_lt.mp ha)
      split
      · constructor <;> linarith
      · constructor <;> push_cast <;> linarith

theorem roundHalfEven_intCast (k : Int) : roundHalfEven (k : ℚ) = k := by
  unfold roundHalfEven
  simp

theorem roundHalfEven_mono (x y : ℚ) (h : x ≤ y) : roundHalfEven x ≤ roundHalfEven y := by
  by_contra hlt
  have hlt' : roundHalfEven y + 1 ≤ roundHalfEven x := by omega
  have hq : ((roundHalfEven y : ℤ) : ℚ) + 1 ≤ (roundHalfEven x : ℚ) := by exact_mod_cast hlt'
  obtain ⟨_, hx⟩ := roundHalfEven_near x
  obtain ⟨hy, _⟩ := roundHalfEven_near y
  have hxy : x = y := by linarith
  rw [hxy] at hlt
  exact hlt (le_refl _)

theorem roundHalfEven_ge (x : ℚ) (k : Int) (h : (k : ℚ) ≤ x) : k ≤ roundHalfEven x := by
  have := roundHalfEven_mono _ _ h
  rwa [roundHalfEven_intCast] at this

theorem roundHalfEven_le (x : ℚ) (k : Int) (h : x ≤ (k : ℚ)) : roundHalfEven x ≤ k := by
  have := roundHalfEven_mono _ _ h
  rwa [roundHalfEven_intCast] at this

theorem two_zpow_pos (k : Int) : (0 : ℚ) < (2 : ℚ) ^ k := zpow_pos (by norm_num) k

theorem two_zpow_mono {a b : Int} (h : a ≤ b) : (2 : ℚ) ^ a ≤ (2 : ℚ) ^ b :=
  zpow_le_zpow_right₀ (by norm_num) h

theorem roundPos_eq (m : ℚ) (e : Int) (he : max (floorLog2 m) (-126) = e) :
    roundPos m = (roundHalfEven (m / (2 : ℚ) ^ (e - 23)) : ℚ) * (2 : ℚ) ^ (e - 23) := by
  unfold roundPos
  simp only [he]

theorem two_zpow_split (e : Int) (k : Nat) (z : Int) (h : z = e - 23 + k) :
    ((2 ^ k : ℤ) : ℚ) * (2 : ℚ) ^ (e - 23) = (2 : ℚ) ^ z := by
  rw [h, zpow_add₀ (by norm_num : (2 : ℚ) ≠ 0), zpow_natCast]
  push_cast
  ring

theorem roundPos_le (m : ℚ) (hm : 0 < m) :
    roundPos m ≤ (2 : ℚ) ^ (max (floorLog2 m) (-126) + 1) := by
  obtain ⟨e, he⟩ : ∃ e, max (floorLog2 m) (-126) = e := ⟨_, rfl⟩
  rw [roundPos_eq m e he, he]
  have hfe : floorLog2 m ≤ e := by rw [← he]; exact le_max_left _ _
  obtain ⟨_, h2⟩ := floorLog2_spec m hm
  have hlt : m ≤ (2 : ℚ) ^ (e + 1) := le_trans (le_of_lt h2) (two_zpow_mono (by omega))
  have hulp := two_zpow_pos (e - 23)
  have hdiv : m / (2 : ℚ) ^ (e - 23) ≤ ((2 ^ 24 : ℤ) : ℚ) := by
    rw [div_le_iff₀ hulp, two_zpow_split e 24 (e + 1) (by push_cast; ring)]
    exact hlt
  have hr := roundHalfEven_le _ _ hdiv
  have hrq : (roundHalfEven (m / (2 : ℚ) ^ (e - 23)) : ℚ) ≤ ((2 ^ 24 : ℤ) : ℚ) := by
    exact_mod_cast hr
  calc (roundHalfEven (m / (2 : ℚ) ^ (e - 23)) : ℚ) * (2 : ℚ) ^ (e - 23)
      ≤ ((2 ^ 24 : ℤ) : ℚ) * (2 : ℚ) ^ (e - 23) :=
        mul_le_mul_of_nonneg_right hrq (le_of_lt hulp)
    _ = (2 : ℚ) ^ (e + 1) := two_zpow_split e 24 (e + 1) (by push_cast; ring)

theorem le_roundPos (m : ℚ) (e : Int) (he : -126 ≤ e) (hm : (2 : ℚ) ^ e ≤ m)
    (hfl : floorLog2 m = e) : (2 : ℚ) ^ e ≤ roundPos m := by
  have hmax : max (floorLog2 m) (-126) = e := by rw [hfl]; exact max_eq_left he
  rw [roundPos_eq m e hmax]
  have hulp := two_zpow_pos (e - 23)
  have hdiv : ((2 ^ 23 : ℤ) : ℚ) ≤ m / (2 : ℚ) ^ (e - 23) := by
    rw [le_div_iff₀ hulp, two_zpow_split e 23 e (by push_cast; ring)]
    exact hm
  have hr := roundHalfEven_ge _ _ hdiv
  have hrq : ((2 ^ 23 : ℤ) : ℚ) ≤ (roundHalfEven (m / (2 : ℚ) ^ (e - 23)) : ℚ) := by
    exact_mod_cast hr
  calc (2 : ℚ) ^ e = ((2 ^ 23 : ℤ) : ℚ) * (2 : ℚ) ^ (e - 23) :=
        (two_zpow_split e 23 e (by push_cast; ring)).symm
    _ ≤ (roundHalfEven (m / (2 : ℚ) ^ (e - 23)) : ℚ) * (2 : ℚ) ^ (e - 23) :=
        mul_le_mul_of_nonneg_right hrq (le_of_lt hulp)

theorem roundPos_mono (x y : ℚ) (hx : 0 < x) (hxy : x ≤ y) : roundPos x ≤ roundPos y := by
  have hy : 0 < y := lt_of_lt_of_le hx hxy
  have hfl := floorLog2_mono x y hx hxy
  obtain ⟨ex, hex⟩ : ∃ e, max (floorLog2 x) (-126) = e := ⟨_, rfl⟩
  obtain ⟨ey, hey⟩ : ∃ e, max (floorLog2 y) (-126) = e := ⟨_, rfl⟩
  have hle : ex ≤ ey := by rw [← hex, ← hey]; exact max_le_max hfl (le_refl _)
  rcases eq_or_lt_of_le hle with heq | hlt
  · subst heq
    rw [roundPos_eq x ex hex, roundPos_eq y ex hey]
    have hulp := two_zpow_pos (ex - 23)
    have hdiv : x / (2 : ℚ) ^ (ex - 23) ≤ y / (2 : ℚ) ^ (ex - 23) :=
      div_le_div_of_nonneg_right hxy (le_of_lt hulp)
    have hr : (roundHalfEven (x / (2 : ℚ) ^ (ex - 23)) : ℚ) ≤
        (roundHalfEven (y / (2 : ℚ) ^ (ex - 23)) : ℚ) := by
      exact_mod_cast roundHalfEven_mono _ _ hdiv
    exact mul_le_mul_of_nonneg_right hr (le_of_lt hulp)
  · have h126 : -126 ≤ ex := by rw [← hex]; exact le_max_right _ _
    have hfy : floorLog2 y = ey := by
      rcases max_choice (floorLog2 y) (-126) with h | h
      · rw [← hey, h]
      · rw [h] at hey; omega
    obtain ⟨hy1, _⟩ := floorLog2_spec y hy
    rw [hfy] at hy1
    have h1 := roundPos_le x hx
    rw [hex] at h1
    have h2 := le_roundPos y ey (by omega) hy1 hfy
    exact le_trans h1 (le_trans (two_zpow_mono (by omega)) h2)

theorem roundPos_bounds (m : ℚ) (lo hi : Int) (hlo : -126 ≤ lo) (h1 : (2 : ℚ) ^ lo ≤ m)
    (h2 : m ≤ (2 : ℚ) ^ hi) : (2 : ℚ) ^ lo ≤ roundPos m ∧ roundPos m ≤ (2 : ℚ) ^ hi := by
  have hm : 0 < m := lt_of_lt_of_le (two_zpow_pos lo) h1
  have hfl1 : lo ≤ floorLog2 m := le_floorLog2 m lo h1
  obtain ⟨s1, s2⟩ := floorLog2_spec m hm
  constructor
  · exact le_trans (two_zpow_mono hfl1)
      (le_roundPos m (floorLog2 m) (by omega) s1 rfl)
  · rcases eq_or_lt_of_le h2 with heq | hlt
    · have hfl : floorLog2 m = hi := by
        apply le_antisymm
        · exact floorLog2_le m hi hm (by
            rw [heq]
            exact (zpow_lt_zpow_iff_right₀ (by norm_num : (1 : ℚ) < 2)).mpr (by omega))
        · exact le_floorLog2 m hi (by rw [heq])
      have hmax : max (floorLog2 m) (-126) = hi := by
        rw [hfl]; exact max_eq_left (by omega)
      rw [roundPos_eq m hi hmax, heq]
      have hulp := two_zpow_pos (hi - 23)
      have hd : (2 : ℚ) ^ hi / (2 : ℚ) ^ (hi - 23) = ((2 ^ 23 : ℤ) : ℚ) := by
        rw [div_eq_iff (ne_of_gt hulp), two_zpow_split hi 23 hi (by push_cast; ring)]
      rw [hd, roundHalfEven_intCast, two_zpow_split hi 23 hi (by push_cast; ring)]
    · have hfl : floorLog2 m ≤ hi - 1 := floorLog2_le m (hi - 1) hm (by
        rw [sub_add_cancel]; exact hlt)
      have h := roundPos_le m hm
      have hmax : max (floorLog2 m) (-126) = floorLog2 m := max_eq_left (by omega)
      rw [hmax] at h
      exact le_trans h (two_zpow_mono (by omega))

/-! ## The comparisons of `float32` -/

theorem Score.lt_iff (a b : Score) :
    a < b ↔ a.isNaN = false ∧ b.isNaN = false ∧ a.key < b.key := by
  show a.lt b = true ↔ _
  simp only [Score.lt, Score.key, Prod.Lex.lt_iff, Bool.and_eq_true, Bool.not_eq_true',
    Bool.or_eq_true, decide_eq_true_eq, and_assoc]

theorem Score.le_iff (a b : Score) :
    a ≤ b ↔ a.isNaN = false ∧ b.isNaN = false ∧ a.key ≤ b.key := by
  show a.le b = true ↔ _
  have h := Score.lt_iff b a
  have h' : b.lt a = true ↔ b.isNaN = false ∧ a.isNaN = false ∧ b.key < a.key := h
  simp only [Score.le, Bool.and_eq_true, Bool.not_eq_true', and_assoc]
  constructor
  · rintro ⟨ha, hb, hlt⟩
    refine ⟨ha, hb, ?_⟩
    by_contra hc
    have : b.lt a = true := h'.mpr ⟨hb, ha, not_le.mp hc⟩
    rw [hlt] at this
    cases this
  · rintro ⟨ha, hb, hle⟩
    refine ⟨ha, hb, ?_⟩
    cases hlt : b.lt a with
    | false => rfl
    | true => exact absurd (h'.mp hlt).2.2 (not_lt.mpr hle)

theorem Score.num_le_num (v w : ℚ) (h : v ≤ w) : Score.num v ≤ Score.num w := by
  rw [Score.le_iff]
  refine ⟨rfl, rfl, ?_⟩
  rw [Score.key, Score.key, Prod.Lex.le_iff]
  exact Or.inr ⟨rfl, h⟩

theorem Score.num_pos (v : ℚ) (h : 0 < v) : (0 : Score) < Score.num v := by
  have h0 : (0 : Score) = Score.zero false := by decide!
  rw [h0, Score.lt_iff]
  refine ⟨rfl, rfl, ?_⟩
  rw [Score.key, Score.key, Prod.Lex.lt_iff]
  exact Or.inr ⟨rfl, h⟩

theorem Score.num_le_one (v : ℚ) (h : v ≤ 1) : Score.num v ≤ 1 := by
  have h1 : (1 : Score) = Score.num 1 := by decide!
  rw [h1]
  exact Score.num_le_num v 1 h

theorem Score.not_gt_of_lt (a b : Score) (h : a < b) : ¬ b < a := by
  rw [Score.lt_iff] at h ⊢
  rintro ⟨_, _, h'⟩
  exact lt_asymm h.2.2 h'

/-! ## The comparison on score sequences as an order -/

theorem lessScores_asymm (a b : List Score) (h : lessScores a b = true) :
    lessScores b a = false := by
  induction a generalizing b with
  | nil => rw [lessScores_nil_left] at h; cases h
  | cons x xs ih =>
    cases b with
    | nil => exact lessScores_nil_left _
    | cons y ys =>
      rw [lessScores_cons] at h ⊢
      by_cases hgt : x > y
      · have h1 : ¬ y > x := Score.not_gt_of_lt y x hgt
        have h2 : y < x := hgt
        simp [h1, h2]
      · by_cases hlt : x < y
        · simp [hgt, hlt] at h
        · have h1 : ¬ y > x := hlt
          have h2 : ¬ y < x := hgt
          simp only [hgt, hlt, if_false] at h
          simp only [h1, h2, if_false]
          exact ih ys h

theorem lessKeys_cons {K : Type} [LinearOrder K] (x y : K) (xs ys : List K) :
    lessKeys (x :: xs) (y :: ys) =
      if x > y then true else if x < y then false else lessKeys xs ys := by
  rw [lessKeys]

theorem lessKeys_nil_left {K : Type} [LinearOrder K] (ys : List K) :
    lessKeys [] ys = false := by
  cases ys <;> simp [lessKeys]

theorem lessKeys_nil_right {K : Type} [LinearOrder K] (x : K) (xs : List K) :
    lessKeys (x :: xs) [] = true := by
  simp [lessKeys]

theorem lessKeys_incomp {K : Type} [LinearOrder K] (a b c : List K)
    (hab : lessKeys a b = false) (hbc : lessKeys b c = false) : lessKeys a c = false := by
  induction a generalizing b c with
  | nil => exact lessKeys_nil_left _
  | cons x xs ih =>
    cases b with
    | nil => rw [lessKeys_nil_right] at hab; cases hab
    | cons y ys =>
      cases c with
      | nil => rw [lessKeys_nil_right] at hbc; cases hbc
      | cons z zs =>
        rw [lessKeys_cons] at hab hbc ⊢
        rcases lt_trichotomy x y with hxy | hxy | hxy
        · rcases lt_trichotomy y z with hyz | hyz | hyz
          · have hxz := lt_trans hxy hyz
            simp [hxz, not_lt_of_gt hxz]
          · subst hyz
            simp [hxy, not_lt_of_gt hxy]
          · simp [hyz] at hbc
        · subst hxy
          rcases lt_trichotomy x z with hyz | hyz | hyz
          · simp [hyz, not_lt_of_gt hyz]
          · subst hyz
            simp only [gt_iff_lt, lt_self_iff_false, if_false] at hab hbc ⊢
            exact ih ys zs hab hbc
          · simp [hyz] at hbc
        · simp [hxy] at hab

theorem lessScores_eq_lessKeys (a b : List Score) (ha : allNumbers a = true)
    (hb : allNumbers b = true) :
    lessScores a b = lessKeys (a.map Score.key) (b.map Score.key) := by
  induction a generalizing b with
  | nil => rw [lessScores_nil_left, List.map_nil, lessKeys_nil_left]
  | cons x xs ih =>
    cases b with
    | nil => rw [lessScores_nil_right, List.map_cons, List.map_nil, lessKeys_nil_right]
    | cons y ys =>
      simp only [allNumbers, List.all_cons, Bool.and_eq_true, Bool.not_eq_true'] at ha hb
      have hxy : x > y ↔ x.key > y.key := by
        show y < x ↔ _
        rw [Score.lt_iff]
        simp [ha.1, hb.1]
      have hyx : x < y ↔ x.key < y.key := by
        rw [Score.lt_iff]
        simp [ha.1, hb.1]
      rw [lessScores_cons, List.map_cons, List.map_cons, lessKeys_cons,
        ih ys (by simpa [allNumbers] using ha.2) (by simpa [allNumbers] using hb.2)]
      simp only [hxy, hyx]

theorem lessScores_incomp (a b c : List Score) (ha : allNumbers a = true)
    (hb : allNumbers b = true) (hc : allNumbers c = true)
    (hab : lessScores a b = false) (hbc : lessScores b c = false) :
    lessScores a c = false := by
  rw [lessScores_eq_lessKeys a b ha hb] at hab
  rw [lessScores_eq_lessKeys b c hb hc] at hbc
  rw [lessScores_eq_lessKeys a c ha hc]
  exact lessKeys_incomp _ _ _ hab hbc

theorem lessScores_primary (a b : List Score) (ha : a ≠ []) (hb : b ≠ [])
    (hna : allNumbers a = true) (hnb : allNumbers b = true)
    (h : lessScores b a = false) : primary b ≤ primary a := by
  cases a with
  | nil => exact absurd rfl ha
  | cons x xs =>
    cases b with
    | nil => exact absurd rfl hb
    | cons y ys =>
      simp only [allNumbers, List.all_cons, Bool.and_eq_true, Bool.not_eq_true'] at hna hnb
      rw [lessScores_cons] at h
      simp only [primary, List.headD_cons]
      rw [Score.le_iff]
      refine ⟨hnb.1, hna.1, ?_⟩
      by_contra hlt
      have hgt : y > x := (Score.lt_iff x y).mpr ⟨hna.1, hnb.1, not_le.mp hlt⟩
      simp [hgt] at h

theorem StrictWeakOn.reverse {α : Type} {less : α → α → Bool} {xs : List α}
    (h : StrictWeakOn less xs) : StrictWeakOn (reverseLess less) xs where
  asymm := fun a ha b hb hab => h.asymm b hb a ha hab
  incomp := fun a ha b hb c hc hab hbc => h.incomp c hc b hb a ha hbc hab

theorem StrictWeakOn.direction {α : Type} {less : α → α → Bool} {xs : List α}
    (h : StrictWeakOn less xs) (reverse : Bool) :
    StrictWeakOn (direction reverse less) xs := by
  cases reverse
  · exact h
  · exact h.reverse

theorem strictWeakOn_of_numbers {α : Type} (f : α → List Score) (xs : List α)
    (h : ∀ x ∈ xs, allNumbers (f x) = true) :
    StrictWeakOn (fun a b => lessScores (f a) (f b)) xs where
  asymm := fun _ _ _ _ hab => lessScores_asymm _ _ hab
  incomp := fun a ha b hb c hc hab hbc =>
    lessScores_incomp _ _ _ (h a ha) (h b hb) (h c hc) hab hbc

/-! ## Sorting a collection that `Less` orders -/

theorem sorted_on {α : Type} (S : Sorter) (hS : S.Lawful) (hN : S.Natural)
    (less : α → α → Bool) (xs : List α) (h : StrictWeakOn less xs) :
    (S.sort less xs).Pairwise (fun a b => less b a = false) := by
  have hsw : StrictWeak (fun a b : { x // x ∈ xs } => less a.1 b.1) :=
    { asymm := fun a b hab => h.asymm a.1 a.2 b.1 b.2 hab
      incomp := fun a b c hab hbc => h.incomp a.1 a.2 b.1 b.2 c.1 c.2 hab hbc }
  have hsorted := hS.sorted (fun a b : { x // x ∈ xs } => less a.1 b.1) xs.attach hsw
  have hnat := hN (fun a : { x // x ∈ xs } => a.1)
    (fun a b : { x // x ∈ xs } => less a.1 b.1) less (fun _ _ => rfl) xs.attach
  rw [List.attach_map_subtype_val] at hnat
  rw [hnat, List.pairwise_map]
  exact hsorted

/-! ## Values of `float32` expressions -/

theorem roundPos_nonneg (m : ℚ) (hm : 0 < m) : 0 ≤ roundPos m := by
  unfold roundPos
  have hulp := two_zpow_pos (max (floorLog2 m) (-126) - 23)
  have hk : (0 : Int) ≤ roundHalfEven (m / (2 : ℚ) ^ (max (floorLog2 m) (-126) - 23)) :=
    roundHalfEven_ge _ 0 (by simpa using le_of_lt (div_pos hm hulp))
  have hk' : (0 : ℚ) ≤ (roundHalfEven (m / (2 : ℚ) ^ (max (floorLog2 m) (-126) - 23)) : ℚ) := by
    exact_mod_cast hk
  exact mul_nonneg hk' (le_of_lt hulp)

theorem Score.round_of_bounds (q : ℚ) (lo hi : Int) (hlo : -126 ≤ lo) (hhi : hi ≤ 127)
    (h1 : (2 : ℚ) ^ lo ≤ q) (h2 : q ≤ (2 : ℚ) ^ hi) :
    Score.round q = Score.num (roundPos q) := by
  have hq : 0 < q := lt_of_lt_of_le (two_zpow_pos lo) h1
  obtain ⟨b1, b2⟩ := roundPos_bounds q lo hi hlo h1 h2
  have hv : 0 < roundPos q := lt_of_lt_of_le (two_zpow_pos lo) b1
  have hlt : roundPos q < (2 : ℚ) ^ (128 : Nat) := by
    have h127 : (2 : ℚ) ^ hi ≤ (2 : ℚ) ^ (127 : Int) := two_zpow_mono hhi
    have h128 : (2 : ℚ) ^ (127 : Int) < (2 : ℚ) ^ (128 : Nat) := by norm_num
    exact lt_of_le_of_lt (le_trans b2 h127) h128
  unfold Score.round
  simp only [ne_of_gt hq, not_lt.mpr (le_of_lt hq), if_false, ne_of_gt hv, not_le.mpr hlt]

theorem Score.one_eq : (1 : Score) = Score.num 1 := by decide!

/-- The rational behind `float32(p)` for `p ≥ 0`. -/
theorem Score.ofInt_nonneg (p : Int) (h0 : 0 ≤ p) (hmax : p ≤ maxInt) :
    ∃ s : Score, (p : Score) = s ∧ s.isNaN = false ∧ s.isInf = false ∧
      s.val = (if p = 0 then 0 else roundPos p) := by
  by_cases hp : p = 0
  · subst hp
    refine ⟨Score.zero false, ?_, rfl, rfl, by simp [Score.val]⟩
    show Score.round ((0 : Int) : ℚ) = _
    simp [Score.round]
  · have hp1 : (1 : ℚ) ≤ (p : ℚ) := by
      have : (1 : Int) ≤ p := by omega
      exact_mod_cast this
    have hp2 : (p : ℚ) ≤ (2 : ℚ) ^ (63 : Int) := by
      have : p ≤ 2 ^ 63 := by unfold maxInt at hmax; omega
      have h' : (p : ℚ) ≤ ((2 ^ 63 : Int) : ℚ) := by exact_mod_cast this
      have e : (2 : ℚ) ^ (63 : Int) = ((2 ^ 63 : Int) : ℚ) := by norm_num
      rw [e]
      exact h'
    refine ⟨Score.num (roundPos p), ?_, rfl, rfl, by simp [Score.val, hp]⟩
    show Score.round (p : ℚ) = _
    exact Score.round_of_bounds p 0 63 (by norm_num) (by norm_num) (by simpa using hp1) hp2

theorem Score.add_one_val (s : Score) (hn : s.isNaN = false) (hi : s.isInf = false)
    (h0 : 0 ≤ s.val) (h63 : s.val ≤ (2 : ℚ) ^ (63 : Int)) :
    s + 1 = Score.num (roundPos (s.val + 1)) := by
  have hsum1 : (2 : ℚ) ^ (0 : Int) ≤ s.val + 1 := by simpa using h0
  have hsum2 : s.val + 1 ≤ (2 : ℚ) ^ (64 : Int) := by
    have : (2 : ℚ) ^ (64 : Int) = 2 * (2 : ℚ) ^ (63 : Int) := by norm_num
    have h1 : (1 : ℚ) ≤ (2 : ℚ) ^ (63 : Int) := by norm_num
    linarith
  have hne : s.val + 1 ≠ 0 := by linarith
  have hround := Score.round_of_bounds (s.val + 1) 0 64 (by norm_num) (by norm_num) hsum1 hsum2
  show Score.add s 1 = _
  rw [Score.one_eq]
  cases s with
  | nan => cases hn
  | inf b => cases hi
  | zero b =>
    simp only [Score.val] at hround hne ⊢
    simp only [Score.add, Score.val, hne, if_false, hround]
  | num q =>
    simp only [Score.val] at hround hne ⊢
    simp only [Score.add, Score.val, hne, if_false, hround]

theorem Score.one_div_val (v : ℚ) (h1 : 1 ≤ v) (h64 : v ≤ (2 : ℚ) ^ (64 : Int)) :
    (1 : Score) / Score.num v = Score.num (roundPos (1 / v)) := by
  have hv : 0 < v := lt_of_lt_of_le one_pos h1
  have hq1 : (2 : ℚ) ^ (-64 : Int) ≤ 1 / v := by
    rw [zpow_neg, ← one_div]
    exact one_div_le_one_div_of_le hv h64
  have hq2 : 1 / v ≤ (2 : ℚ) ^ (0 : Int) := by
    rw [zpow_zero, div_le_one hv]
    exact h1
  have hne : (1 : ℚ) / v ≠ 0 := ne_of_gt (by positivity)
  have hround := Score.round_of_bounds (1 / v) (-64) 0 (by norm_num) (by norm_num) hq1 hq2
  show Score.div 1 (Score.num v) = _
  rw [Score.one_eq]
  simp only [Score.div, Score.isNaN, Score.isInf, Score.val, Bool.or_self, Bool.false_eq_true,
    if_false, ne_of_gt hv, hne, hround]

theorem roundPos_reciprocal (v : ℚ) (h1 : 1 ≤ v) (h64 : v ≤ (2 : ℚ) ^ (64 : Int)) :
    0 < roundPos (1 / v) ∧ roundPos (1 / v) ≤ 1 := by
  have hv : 0 < v := lt_of_lt_of_le one_pos h1
  have hq1 : (2 : ℚ) ^ (-64 : Int) ≤ 1 / v := by
    rw [zpow_neg, ← one_div]
    exact one_div_le_one_div_of_le hv h64
  have hq2 : 1 / v ≤ (2 : ℚ) ^ (0 : Int) := by
    rw [zpow_zero, div_le_one hv]
    exact h1
  obtain ⟨b1, b2⟩ := roundPos_bounds _ (-64) 0 (by norm_num) hq1 hq2
  exact ⟨lt_of_lt_of_le (two_zpow_pos _) b1, by simpa using b2⟩

/-- The number that `1.0 / (float32(p) + 1)` denotes: three roundings, of `p`, of
the sum and of the quotient. -/
theorem proximity_value (p : Int) (h0 : 0 ≤ p) (hmax : p ≤ maxInt) :
    (1 : Score) / ((p : Score) + 1) =
        Score.num (roundPos (1 / roundPos ((if p = 0 then 0 else roundPos p) + 1))) ∧
      1 ≤ roundPos ((if p = 0 then 0 else roundPos p) + 1) ∧
      roundPos ((if p = 0 then 0 else roundPos p) + 1) ≤ (2 : ℚ) ^ (64 : Int) := by
  obtain ⟨s, hs, hn, hi, hval⟩ := Score.ofInt_nonneg p h0 hmax
  have hg : 0 ≤ s.val ∧ s.val ≤ (2 : ℚ) ^ (63 : Int) := by
    rw [hval]
    by_cases hp : p = 0
    · simp only [hp, if_true]
      exact ⟨le_refl _, le_of_lt (two_zpow_pos 63)⟩
    · have hp1 : (2 : ℚ) ^ (0 : Int) ≤ (p : ℚ) := by
        have : (1 : Int) ≤ p := by omega
        have h' : (1 : ℚ) ≤ (p : ℚ) := by exact_mod_cast this
        simpa using h'
      have hp2 : (p : ℚ) ≤ (2 : ℚ) ^ (63 : Int) := by
        have : p ≤ 2 ^ 63 := by unfold maxInt at hmax; omega
        have h' : (p : ℚ) ≤ ((2 ^ 63 : Int) : ℚ) := by exact_mod_cast this
        have e : (2 : ℚ) ^ (63 : Int) = ((2 ^ 63 : Int) : ℚ) := by norm_num
        rw [e]
        exact h'
      obtain ⟨b1, b2⟩ := roundPos_bounds p 0 63 (by norm_num) hp1 hp2
      simp only [hp, if_false]
      exact ⟨le_trans (le_of_lt (two_zpow_pos 0)) b1, b2⟩
  have hsum1 : (2 : ℚ) ^ (0 : Int) ≤ s.val + 1 := by simpa using hg.1
  have hsum2 : s.val + 1 ≤ (2 : ℚ) ^ (64 : Int) := by
    have : (2 : ℚ) ^ (64 : Int) = 2 * (2 : ℚ) ^ (63 : Int) := by norm_num
    have h1 : (1 : ℚ) ≤ (2 : ℚ) ^ (63 : Int) := by norm_num
    linarith [hg.2]
  obtain ⟨c1, c2⟩ := roundPos_bounds (s.val + 1) 0 64 (by norm_num) hsum1 hsum2
  have c1' : 1 ≤ roundPos (s.val + 1) := by simpa using c1
  rw [hs, Score.add_one_val s hn hi hg.1 hg.2, Score.one_div_val _ c1' c2, ← hval]
  exact ⟨rfl, c1', c2⟩

theorem proximity_value_mono (p p' : Int) (h0 : 0 ≤ p) (hle : p ≤ p') (hmax : p' ≤ maxInt) :
    roundPos (1 / roundPos ((if p' = 0 then 0 else roundPos p') + 1)) ≤
      roundPos (1 / roundPos ((if p = 0 then 0 else roundPos p) + 1)) := by
  obtain ⟨_, a1, _⟩ := proximity_value p h0 (le_trans hle hmax)
  obtain ⟨_, b1, _⟩ := proximity_value p' (le_trans h0 hle) hmax
  have hg : (if p = 0 then (0 : ℚ) else roundPos p) ≤ (if p' = 0 then 0 else roundPos p') := by
    by_cases hp : p = 0
    · by_cases hp' : p' = 0
      · simp [hp, hp']
      · have hp1 : (2 : ℚ) ^ (0 : Int) ≤ (p' : ℚ) := by
          have : (1 : Int) ≤ p' := by omega
          have h' : (1 : ℚ) ≤ (p' : ℚ) := by exact_mod_cast this
          simpa using h'
        simp only [hp, hp', if_true, if_false]
        exact roundPos_nonneg _ (lt_of_lt_of_le (two_zpow_pos 0) hp1)
    · have hp' : p' ≠ 0 := by omega
      have hpq : (0 : ℚ) < (p : ℚ) := by
        have : (0 : Int) < p := by omega
        exact_mod_cast this
      have hpp : (p : ℚ) ≤ (p' : ℚ) := by exact_mod_cast hle
      simp only [hp, hp', if_false]
      exact roundPos_mono _ _ hpq hpp
  have hg0 : (0 : ℚ) ≤ (if p = 0 then (0 : ℚ) else roundPos p) := by
    by_cases hp : p = 0
    · simp [hp]
    · have hp1 : (2 : ℚ) ^ (0 : Int) ≤ (p : ℚ) := by
        have : (1 : Int) ≤ p := by omega
        have h' : (1 : ℚ) ≤ (p : ℚ) := by exact_mod_cast this
        simpa using h'
      simp only [hp, if_false]
      exact roundPos_nonneg _ (lt_of_lt_of_le (two_zpow_pos 0) hp1)
  have hsum : roundPos ((if p = 0 then (0 : ℚ) else roundPos p) + 1) ≤
      roundPos ((if p' = 0 then 0 else roundPos p') + 1) :=
    roundPos_mono _ _ (by linarith) (by linarith)
  have ha0 : (0 : ℚ) < roundPos ((if p = 0 then (0 : ℚ) else roundPos p) + 1) :=
    lt_of_lt_of_le one_pos a1
  have hb0 : (0 : ℚ) < roundPos ((if p' = 0 then (0 : ℚ) else roundPos p') + 1) :=
    lt_of_lt_of_le one_pos b1
  exact roundPos_mono _ _ (by positivity) (one_div_le_one_div_of_le ha0 hsum)

/-! ## Order of the sorted survivors, for scores that are numbers -/

theorem Score.lt_trans_go (a b c : Score) (hab : a < b) (hbc : b < c) : a < c := by
  rw [Score.lt_iff] at hab hbc ⊢
  exact ⟨hab.1, hbc.2.1, lt_trans hab.2.2 hbc.2.2⟩

theorem lessScores_of_primary_gt (a b : List Score) (ha : a ≠ []) (hb : b ≠ [])
    (h : primary b < primary a) : lessScores a b = true := by
  cases a with
  | nil => exact absurd rfl ha
  | cons x xs =>
    cases b with
    | nil => exact absurd rfl hb
    | cons y ys =>
      simp only [primary, List.headD_cons] at h
      have hgt : x > y := h
      rw [lessScores_cons, if_pos hgt]

theorem primary_not_lt_of_not_less (a b : List Score) (ha : a ≠ []) (hb : b ≠ [])
    (h : lessScores b a = false) : ¬ primary a < primary b := by
  intro hlt
  rw [lessScores_of_primary_gt b a hb ha hlt] at h
  cases h

theorem strictWeakOn_of_comparable {α : Type} (f : α → List Score) (xs : List α)
    (hne : ∀ x ∈ xs, f x ≠ [])
    (hd : xs.Pairwise
      (fun a b => primary (f a) < primary (f b) ∨ primary (f b) < primary (f a))) :
    StrictWeakOn (fun a b => lessScores (f a) (f b)) xs := by
  have hall : ∀ a ∈ xs, ∀ b ∈ xs, a ≠ b →
      primary (f a) < primary (f b) ∨ primary (f b) < primary (f a) :=
    fun a ha b hb hab => hd.forall (fun _ _ h => h.symm) ha hb hab
  have hlow : ∀ a ∈ xs, ∀ b ∈ xs, lessScores (f a) (f b) = false →
      a = b ∨ primary (f a) < primary (f b) := by
    intro a ha b hb hab
    by_cases e : a = b
    · exact Or.inl e
    · rcases hall a ha b hb e with h | h
      · exact Or.inr h
      · rw [lessScores_of_primary_gt _ _ (hne a ha) (hne b hb) h] at hab
        cases hab
  refine ⟨fun _ _ _ _ hab => lessScores_asymm _ _ hab, ?_⟩
  intro a ha b hb c hc hab hbc
  rcases hlow a ha b hb hab with e | h₁
  · rw [e]; exact hbc
  · rcases hlow b hb c hc hbc with e | h₂
    · rw [← e]; exact hab
    · have h := Score.lt_trans_go _ _ _ h₁ h₂
      exact lessScores_asymm _ _ (lessScores_of_primary_gt _ _ (hne c hc) (hne a ha) h)

theorem sort_unique {α : Type} (less : α → α → Bool)
    (hasymm : ∀ a b, less a b = true → less b a = false)
    (l₁ l₂ : List α) (hp : l₁.Perm l₂)
    (h₁ : l₁.Pairwise (fun a b => less a b = true))
    (h₂ : l₂.Pairwise (fun a b => less a b = true)) : l₁ = l₂ := by
  haveI : IsAntisymm α (fun a b => less a b = true) :=
    ⟨fun a b hab hba => by
      have := hasymm a b hab
      rw [hba] at this
      cases this⟩
  exact List.eq_of_perm_of_sorted hp h₁ h₂

theorem sorted_strict {α : Type} (less : α → α → Bool) (l : List α)
    (hs : l.Pairwise (fun a b => less b a = false))
    (hd : l.Pairwise (fun a b => less a b = true ∨ less b a = true)) :
    l.Pairwise (fun a b => less a b = true) := by
  refine (hs.and hd).imp ?_
  intro a b hab
  rcases hab.2 with h | h
  · exact h
  · rw [hab.1] at h; cases h

theorem distinct_perm {α : Type} (less : α → α → Bool) (l₁ l₂ : List α) (hp : l₁.Perm l₂)
    (hd : l₂.Pairwise (fun a b => less a b = true ∨ less b a = true)) :
    l₁.Pairwise (fun a b => less a b = true ∨ less b a = true) :=
  (hp.pairwise_iff (fun h => h.symm)).mpr hd

theorem sort_strict_on {α : Type} (S : Sorter) (hS : S.Lawful) (hN : S.Natural)
    (less : α → α → Bool) (xs : List α) (h : StrictWeakOn less xs)
    (hd : xs.Pairwise (fun a b => less a b = true ∨ less b a = true)) :
    (S.sort less xs).Pairwise (fun a b => less a b = true) :=
  sorted_strict less _ (sorted_on S hS hN less xs h)
    (distinct_perm less _ _ (hS.perm less xs) hd)

theorem sort_eq_on {α : Type} (S T : Sorter) (hS : S.Lawful) (hN : S.Natural)
    (hT : T.Lawful) (hM : T.Natural) (less : α → α → Bool)
    (hasymm : ∀ a b, less a b = true → less b a = false) (xs : List α)
    (h : StrictWeakOn less xs)
    (hd : xs.Pairwise (fun a b => less a b = true ∨ less b a = true)) :
    S.sort less xs = T.sort less xs :=
  sort_unique less hasymm _ _ ((hS.perm less xs).trans (hT.perm less xs).symm)
    (sort_strict_on S hS hN less xs h hd) (sort_strict_on T hT hM less xs h hd)

theorem sort_reverse_on {α : Type} (S : Sorter) (hS : S.Lawful) (hN : S.Natural)
    (less : α → α → Bool) (hasymm : ∀ a b, less a b = true → less b a = false)
    (xs : List α) (h : StrictWeakOn less xs)
    (hd : xs.Pairwise (fun a b => less a b = true ∨ less b a = true)) :
    S.sort (reverseLess less) xs = (S.sort less xs).reverse := by
  have hd' : xs.Pairwise
      (fun a b => reverseLess less a b = true ∨ reverseLess less b a = true) :=
    hd.imp (fun hab => hab.symm)
  refine sort_unique (reverseLess less) (fun a b hab => hasymm b a hab) _ _ ?_ ?_ ?_
  · exact (hS.perm _ xs).trans ((List.reverse_perm _).trans (hS.perm less xs)).symm
  · exact sort_strict_on S hS hN (reverseLess less) xs h.reverse hd'
  · rw [List.pairwise_reverse]
    exact sort_strict_on S hS hN less xs h hd

theorem sorted_scores_pairwise {α : Type} (S : Sorter) (hS : S.Lawful) (hN : S.Natural)
    (reverse : Bool) (f : α → List Score) (xs : List α)
    (hnum : ∀ x ∈ xs, allNumbers (f x) = true) :
    ((S.sort (direction reverse (fun x y => lessScores (f x) (f y))) xs).map f).Pairwise
      (fun a b => direction reverse lessScores b a = false) := by
  rw [List.pairwise_map]
  have h := sorted_on S hS hN (direction reverse (fun x y => lessScores (f x) (f y))) xs
    ((strictWeakOn_of_numbers f xs hnum).direction reverse)
  refine h.imp ?_
  intro a b hab
  rw [← direction_scores]
  exact hab

theorem sortedSurvivors_pairwise {φ ν ω : Type} (S : Sorter) (hS : S.Lawful)
    (hN : S.Natural) (r : Ranker φ ν) (options : RankOpts φ)
    (filterOpt : List (FilterOptions ν ω)) (docs : List IndexedDoc)
    (hnum : ∀ s ∈ (survivors r options filterOpt docs).scores, allNumbers s = true) :
    (sortedSurvivors S r options filterOpt docs).scores.Pairwise
      (fun a b => direction options.ReverseOrder lessScores b a = false) := by
  unfold survivors at hnum
  unfold sortedSurvivors
  split
  · rename_i hm
    rw [if_pos hm] at hnum
    exact sorted_scores_pairwise S hS hN options.ReverseOrder (fun x : ScoredID => x.Scores) _
      (fun x hx => hnum _ (List.mem_map_of_mem _ hx))
  · rename_i hm
    rw [if_neg hm] at hnum
    exact sorted_scores_pairwise S hS hN options.ReverseOrder
      (fun x : ScoredDoc φ ν => x.Scores) _
      (fun x hx => hnum _ (List.mem_map_of_mem _ hx))

theorem sortedSurvivors_numbers {φ ν ω : Type} (S : Sorter) (hS : S.Lawful)
    (r : Ranker φ ν) (options : RankOpts φ) (filterOpt : List (FilterOptions ν ω))
    (docs : List IndexedDoc)
    (hnum : ∀ s ∈ (survivors r options filterOpt docs).scores, allNumbers s = true) :
    ∀ s ∈ (sortedSurvivors S r options filterOpt docs).scores, allNumbers s = true := by
  intro s hs
  unfold survivors at hnum
  unfold sortedSurvivors at hs
  split at hs
  · rename_i hm
    rw [if_pos hm] at hnum
    simp only [RankOutput.scores, List.mem_map] at hs hnum
    obtain ⟨x, hx, rfl⟩ := hs
    exact hnum _ ⟨x, (hS.perm _ _).mem_iff.mp hx, rfl⟩
  · rename_i hm
    rw [if_neg hm] at hnum
    simp only [RankOutput.scores, List.mem_map] at hs hnum
    obtain ⟨x, hx, rfl⟩ := hs
    exact hnum _ ⟨x, (hS.perm _ _).mem_iff.mp hx, rfl⟩

/-- The primary scores of a page of a sorted survivor list of numbers: no score
is followed by one that the direction in force puts before it. -/
theorem Rank_primary_order {φ ν ω : Type} (S : Sorter) (hS : S.Lawful) (hN : S.Natural)
    (r : Ranker φ ν) (docs : List IndexedDoc) (options : RankOpts φ)
    (filterOpt : List (FilterOptions ν ω)) (hinit : r.initialized = true)
    (hnum : ∀ s ∈ (survivors r options filterOpt docs).scores, allNumbers s = true)
    (out : RankOutput φ ν) (n : Nat)
    (h : Rank S r docs options false filterOpt false = .ok (out, n)) :
    (options.ReverseOrder = false →
      (out.scores.map primary).Pairwise (fun a b => b ≤ a ∧ ¬ a < b)) ∧
    (options.ReverseOrder = true →
      (out.scores.map primary).Pairwise (fun a b => a ≤ b ∧ ¬ b < a)) := by
  obtain ⟨hsub, _⟩ := Rank_paged_ok S r docs options filterOpt hinit out n h
  have hpair := (sortedSurvivors_pairwise S hS hN r options filterOpt docs hnum).sublist hsub
  have hne : ∀ s ∈ out.scores, s ≠ [] := fun s hs =>
    sortedSurvivors_scored S hS r options filterOpt docs s (hsub.subset hs)
  have hnn : ∀ s ∈ out.scores, allNumbers s = true := fun s hs =>
    sortedSurvivors_numbers S hS r options filterOpt docs hnum s (hsub.subset hs)
  constructor
  · intro hrev
    rw [hrev] at hpair
    rw [List.pairwise_map]
    refine hpair.imp_of_mem ?_
    intro a b ha hb hab
    exact ⟨lessScores_primary a b (hne a ha) (hne b hb) (hnn a ha) (hnn b hb) hab,
      primary_not_lt_of_not_less a b (hne a ha) (hne b hb) hab⟩
  · intro hrev
    rw [hrev] at hpair
    rw [List.pairwise_map]
    refine hpair.imp_of_mem ?_
    intro a b ha hb hab
    exact ⟨lessScores_primary b a (hne b hb) (hne a ha) (hnn b hb) (hnn a ha) hab,
      primary_not_lt_of_not_less b a (hne b hb) (hne a ha) hab⟩

/-! ## Uniqueness of the sorted arrangement for distinct primary scores -/

theorem comparable_less {α : Type} (f : α → List Score) (xs : List α)
    (hne : ∀ x ∈ xs, f x ≠ [])
    (hd : xs.Pairwise
      (fun a b => primary (f a) < primary (f b) ∨ primary (f b) < primary (f a))) :
    xs.Pairwise
      (fun a b => lessScores (f a) (f b) = true ∨ lessScores (f b) (f a) = true) := by
  refine hd.imp_of_mem ?_
  intro a b ha hb hab
  rcases hab with h | h
  · exact Or.inr (lessScores_of_primary_gt _ _ (hne b hb) (hne a ha) h)
  · exact Or.inl (lessScores_of_primary_gt _ _ (hne a ha) (hne b hb) h)

theorem comparable_of_scores {α : Type} (f : α → List Score) (xs : List α)
    (hd : ((xs.map f).map primary).Pairwise (fun a b => a < b ∨ b < a)) :
    xs.Pairwise
      (fun a b => primary (f a) < primary (f b) ∨ primary (f b) < primary (f a)) := by
  rw [List.map_map, List.pairwise_map] at hd
  exact hd

theorem sorted_primary_strict {α : Type} (S : Sorter) (hS : S.Lawful) (hN : S.Natural)
    (f : α → List Score) (xs : List α) (hne : ∀ x ∈ xs, f x ≠ [])
    (hd : ((xs.map f).map primary).Pairwise (fun a b => a < b ∨ b < a)) :
    (((S.sort (fun x y => lessScores (f x) (f y)) xs).map f).map primary).Pairwise
      (fun a b => a > b) := by
  have hc := comparable_of_scores f xs hd
  have hsorted := sorted_on S hS hN (fun x y => lessScores (f x) (f y)) xs
    (strictWeakOn_of_comparable f xs hne hc)
  have hcomp : (S.sort (fun x y => lessScores (f x) (f y)) xs).Pairwise
      (fun a b => primary (f a) < primary (f b) ∨ primary (f b) < primary (f a)) :=
    ((hS.perm _ xs).pairwise_iff (fun h => h.symm)).mpr hc
  rw [List.map_map, List.pairwise_map]
  refine (hsorted.and hcomp).imp_of_mem ?_
  intro a b ha hb hab
  rcases hab.2 with h | h
  · exact absurd h (primary_not_lt_of_not_less _ _ (hne a ((hS.perm _ xs).mem_iff.mp ha))
      (hne b ((hS.perm _ xs).mem_iff.mp hb)) hab.1)
  · exact h

theorem sorted_reverse_of_comparable {α : Type} (S : Sorter) (hS : S.Lawful)
    (hN : S.Natural) (f : α → List Score) (xs : List α) (hne : ∀ x ∈ xs, f x ≠ [])
    (hd : ((xs.map f).map primary).Pairwise (fun a b => a < b ∨ b < a)) :
    S.sort (direction true (fun x y => lessScores (f x) (f y))) xs =
      (S.sort (direction false (fun x y => lessScores (f x) (f y))) xs).reverse :=
  sort_reverse_on S hS hN (fun x y => lessScores (f x) (f y))
    (fun _ _ hab => lessScores_asymm _ _ hab) xs
    (strictWeakOn_of_comparable f xs hne (comparable_of_scores f xs hd))
    (comparable_less f xs hne (comparable_of_scores f xs hd))

theorem sorted_eq_of_comparable {α : Type} (S T : Sorter) (hS : S.Lawful) (hN : S.Natural)
    (hT : T.Lawful) (hM : T.Natural) (reverse : Bool) (f : α → List Score) (xs : List α)
    (hne : ∀ x ∈ xs, f x ≠ [])
    (hd : ((xs.map f).map primary).Pairwise (fun a b => a < b ∨ b < a)) :
    S.sort (direction reverse (fun x y => lessScores (f x) (f y))) xs =
      T.sort (direction reverse (fun x y => lessScores (f x) (f y))) xs := by
  have hsw := strictWeakOn_of_comparable f xs hne (comparable_of_scores f xs hd)
  have hless := comparable_less f xs hne (comparable_of_scores f xs hd)
  cases reverse
  · exact sort_eq_on S T hS hN hT hM _ (fun _ _ hab => lessScores_asymm _ _ hab) xs hsw hless
  · exact sort_eq_on S T hS hN hT hM _ (fun _ _ hab => lessScores_asymm _ _ hab) xs
      hsw.reverse (hless.imp (fun hab => hab.symm))

theorem sortedSurvivors_eq_of_comparable {φ ν ω : Type} (S T : Sorter) (hS : S.Lawful)
    (hN : S.Natural) (hT : T.Lawful) (hM : T.Natural) (r : Ranker φ ν)
    (options : RankOpts φ) (filterOpt : List (FilterOptions ν ω)) (docs : List IndexedDoc)
    (hd : ((survivors r options filterOpt docs).scores.map primary).Pairwise
      (fun a b => a < b ∨ b < a)) :
    sortedSurvivors S r options filterOpt docs = sortedSurvivors T r options filterOpt docs := by
  unfold survivors at hd
  unfold sortedSurvivors
  split
  · rename_i hm
    rw [if_pos hm] at hd
    exact congrArg RankOutput.ids
      (sorted_eq_of_comparable S T hS hN hT hM options.ReverseOrder
        (fun x : ScoredID => x.Scores) _ (survivingIDs_scored r options docs) hd)
  · rename_i hm
    rw [if_neg hm] at hd
    exact congrArg RankOutput.docs
      (sorted_eq_of_comparable S T hS hN hT hM options.ReverseOrder
        (fun x : ScoredDoc φ ν => x.Scores) _
        (survivingDocs_scored r options filterOpt docs) hd)

theorem sortedSurvivors_reverse {φ ν ω : Type} (S : Sorter) (hS : S.Lawful)
    (hN : S.Natural) (r : Ranker φ ν) (options : RankOpts φ)
    (filterOpt : List (FilterOptions ν ω)) (docs : List IndexedDoc)
    (hd : ((survivors r options filterOpt docs).scores.map primary).Pairwise
      (fun a b => a < b ∨ b < a)) :
    sortedSurvivors S r (withOrder options true) filterOpt docs =
      (sortedSurvivors S r (withOrder options false) filterOpt docs).reverse := by
  unfold survivors at hd
  unfold sortedSurvivors
  have hmode : (withOrder options true).ReverseOrder = true := rfl
  have hmode' : (withOrder options false).ReverseOrder = false := rfl
  rw [hmode, hmode']
  split
  · rename_i hm
    rw [if_pos hm] at hd
    exact congrArg RankOutput.ids
      (sorted_reverse_of_comparable S hS hN (fun x : ScoredID => x.Scores) _
        (survivingIDs_scored r options docs) hd)
  · rename_i hm
    rw [if_neg hm] at hd
    exact congrArg RankOutput.docs
      (sorted_reverse_of_comparable S hS hN (fun x : ScoredDoc φ ν => x.Scores) _
        (survivingDocs_scored r options filterOpt docs) hd)

theorem sortedSurvivors_strict {φ ν ω : Type} (S : Sorter) (hS : S.Lawful)
    (hN : S.Natural) (r : Ranker φ ν) (options : RankOpts φ)
    (filterOpt : List (FilterOptions ν ω)) (docs : List IndexedDoc)
    (hd : ((survivors r options filterOpt docs).scores.map primary).Pairwise
      (fun a b => a < b ∨ b < a)) :
    ((sortedSurvivors S r (withOrder options false) filterOpt docs).scores.map
      primary).Pairwise (fun a b => a > b) := by
  unfold survivors at hd
  unfold sortedSurvivors
  have hmode' : (withOrder options false).ReverseOrder = false := rfl
  rw [hmode']
  split
  · rename_i hm
    rw [if_pos hm] at hd
    exact sorted_primary_strict S hS hN (fun x : ScoredID => x.Scores) _
      (survivingIDs_scored r options docs) hd
  · rename_i hm
    rw [if_neg hm] at hd
    exact sorted_primary_strict S hS hN (fun x : ScoredDoc φ ν => x.Scores) _
      (survivingDocs_scored r options filterOpt docs) hd

theorem Rank_sorter_irrelevant {φ ν ω : Type} (S T : Sorter) (hS : S.Lawful)
    (hN : S.Natural) (hT : T.Lawful) (hM : T.Natural) (r : Ranker φ ν)
    (docs : List IndexedDoc) (options : RankOpts φ)
    (filterOpt : List (FilterOptions ν ω)) (hinit : r.initialized = true)
    (hd : ((survivors r options filterOpt docs).scores.map primary).Pairwise
      (fun a b => a < b ∨ b < a)) :
    Rank S r docs options false filterOpt false =
      Rank T r docs options false filterOpt false := by
  rw [Rank_paged S r docs options filterOpt false hinit (Or.inr rfl),
    Rank_paged T r docs options filterOpt false hinit (Or.inr rfl),
    sortedSurvivors_eq_of_comparable S T hS hN hT hM r options filterOpt docs hd]

/-! ## Claims -/

/-- C1. Score gating: a candidate for which `Score` returns the empty sequence
adds nothing to a `Rank` call. In either registry mode, for every option
record, filter list and flag combination, `Rank` over a candidate list that
contains such a candidate returns exactly what it returns over the list without
it (the same records and the same matchedCount); and whenever `Rank` returns,
every returned record carries at least one score and matchedCount does not
exceed the number of candidates that are present with a non-empty score. -/
theorem score_gating {φ ν ω : Type} (S : Sorter) (hS : S.Lawful) (r : Ranker φ ν)
    (before after : List IndexedDoc) (d : IndexedDoc) (options : RankOpts φ)
    (countDocsOnly : Bool) (filterOpt : List (FilterOptions ν ω)) (orderAtTheEnd : Bool)
    (hempty : options.ScoringCriteria.Score d (r.fieldsAt d.DocId) = []) :
    Rank S r (before ++ d :: after) options countDocsOnly filterOpt orderAtTheEnd =
      Rank S r (before ++ after) options countDocsOnly filterOpt orderAtTheEnd ∧
    ∀ out n,
      Rank S r (before ++ d :: after) options countDocsOnly filterOpt orderAtTheEnd =
        .ok (out, n) →
      (∀ s ∈ out.scores, s ≠ []) ∧ n ≤ scoredCount r options (before ++ after) := by
  have hskip := loops_skip_unscored r options filterOpt countDocsOnly d
    (scored_of_empty r options d hempty)
  have hcount : scoredCount r options (before ++ d :: after) =
      scoredCount r options (before ++ after) := by
    simp [scoredCount, scored_of_empty r options d hempty]
  refine ⟨?_, ?_⟩
  · unfold Rank RankDocID RankDocs
    simp only [List.foldl_append, List.foldl_cons, hskip.1, hskip.2]
  · intro out n h
    rw [← hcount]
    exact Rank_records_scored S hS r _ options countDocsOnly filterOpt orderAtTheEnd out n h

/-- Witness for C1: document 2 of the fixtures has `nil` fields, so
`TestScoringCriteria` gives it no score, and ranking candidates 1 and 2 equals
ranking candidate 1 alone. -/
theorem score_gating_witness :
    engOpts.ScoringCriteria.Score (candidate 2 0) (fullRanker.fieldsAt 2) = [] ∧
    Rank smallSort fullRanker ([candidate 1 0] ++ candidate 2 0 :: []) engOpts false
        noFilters false =
      Rank smallSort fullRanker ([candidate 1 0] ++ []) engOpts false noFilters false :=
  ⟨by rfl,
    (score_gating smallSort smallSort_lawful fullRanker [candidate 1 0] []
      (candidate 2 0) engOpts false noFilters false (by rfl)).1⟩

/-- Counterexample to C2 as stated: documents 1 and 2 are both present and
scored, the filter `color == red` excludes document 2, and matchedCount is 1,
not 2. -/
theorem matchedCount_prefilter_counterexample :
    Rank smallSort fullRanker [candidate 1 0, candidate 2 0] (rankOptsOrder false) false
        [colorIs "red"] false =
      .ok (.docs [docRecord fullRanker (rankOptsOrder false) (candidate 1 0)], 1) ∧
    scoredCount fullRanker (rankOptsOrder false) [candidate 1 0, candidate 2 0] = 2 := by
  decide!

/-- C2, amended. In full-document mode with countOnly=false, matchedCount counts
the post-filter survivors: whenever `Rank` returns, matchedCount is the number
of candidates that are present in the registry, have a non-empty `Score` result
and are excluded by no filter (the length of the result list before
pagination). `Rank` does return that count when sorting is deferred, and when
offset and limit are non-negative with a sum in the `int` range. -/
theorem matchedCount_counts_survivors {φ ν ω : Type} (S : Sorter) (r : Ranker φ ν)
    (docs : List IndexedDoc) (options : RankOpts φ) (filterOpt : List (FilterOptions ν ω))
    (orderAtTheEnd : Bool) (hinit : r.initialized = true) (hmode : r.idOnly = false) :
    (∀ out n, Rank S r docs options false filterOpt orderAtTheEnd = .ok (out, n) →
      n = (docs.filter (fun d => scored r options d && !excluded r filterOpt d)).length) ∧
    (orderAtTheEnd = true ∨ InRange options →
      ∃ out, Rank S r docs options false filterOpt orderAtTheEnd =
        .ok (out,
          (docs.filter (fun d => scored r options d && !excluded r filterOpt d)).length)) := by
  have hlen : (survivors r options filterOpt docs).length =
      (docs.filter (fun d => scored r options d && !excluded r filterOpt d)).length := by
    simp [survivors, hmode, RankOutput.length, survivingDocs]
  cases orderAtTheEnd with
  | true =>
    rw [Rank_deferred S r docs options filterOpt hinit hmode, hlen]
    refine ⟨?_, fun _ => ⟨_, rfl⟩⟩
    intro out n h
    cases h
    rfl
  | false =>
    rw [Rank_paged S r docs options filterOpt false hinit (Or.inr rfl), hlen]
    refine ⟨?_, ?_⟩
    · intro out n h
      exact (map_count_ok _ _ _ _ h).2
    · intro h
      rcases h with h | h
      · cases h
      · rw [slice_inRange options h]
        exact ⟨_, rfl⟩

/-- Witness for C2 (amended): on the fixture call with the filter
`color == red` the returned matchedCount 1 is the number of unfiltered
survivors. -/
theorem matchedCount_counts_survivors_witness :
    fullRanker.initialized = true ∧ fullRanker.idOnly = false ∧
    (1 : Nat) = ([candidate 1 0, candidate 2 0].filter (fun d =>
      scored fullRanker (rankOptsOrder false) d &&
        !excluded fullRanker [colorIs "red"] d)).length :=
  ⟨rfl, rfl,
    (matchedCount_counts_survivors smallSort fullRanker [candidate 1 0, candidate 2 0]
      (rankOptsOrder false) [colorIs "red"] false rfl rfl).1
      (.docs [docRecord fullRanker (rankOptsOrder false) (candidate 1 0)]) 1 (by decide!)⟩

/-- C3. Pagination law: with countOnly=false and deferSort=false, for a
pre-pagination (sorted) result list of length `N` and Go `int`s
`OutputOffset >= 0` and `MaxOutputs >= 0`, every list that `Rank` returns has
length `max(0, min(MaxOutputs, N - OutputOffset))` when `MaxOutputs > 0` and
`max(0, N - OutputOffset)` when `MaxOutputs = 0`; and `Rank` does return a list
whenever `OutputOffset + MaxOutputs` is again a Go `int`. (When that sum
overflows `Rank` returns nothing; see C5.) -/
theorem pagination_law {φ ν ω : Type} (S : Sorter) (r : Ranker φ ν) (docs : List IndexedDoc)
    (options : RankOpts φ) (filterOpt : List (FilterOptions ν ω))
    (hinit : r.initialized = true)
    (hoff : 0 ≤ options.OutputOffset) (hoff' : options.OutputOffset ≤ maxInt)
    (hmax : 0 ≤ options.MaxOutputs) (hmax' : options.MaxOutputs ≤ maxInt) :
    (∀ out n, Rank S r docs options false filterOpt false = .ok (out, n) →
      (out.length : Int) =
        if 0 < options.MaxOutputs then
          max 0 (min options.MaxOutputs
            ((sortedSurvivors S r options filterOpt docs).length - options.OutputOffset))
        else
          max 0 ((sortedSurvivors S r options filterOpt docs).length - options.OutputOffset)) ∧
    (options.OutputOffset + options.MaxOutputs ≤ maxInt →
      ∃ out n, Rank S r docs options false filterOpt false = .ok (out, n)) := by
  refine ⟨?_, fun hsum => Rank_paged_returns S r docs options filterOpt hinit ⟨hoff, hmax, hsum⟩⟩
  intro out n h
  rw [Rank_paged S r docs options filterOpt false hinit (Or.inr rfl)] at h
  obtain ⟨hslice, _⟩ := map_count_ok _ _ _ _ h
  have hrange := slice_ok_inRange options _ out hoff hoff' hmax hmax' hslice
  rw [slice_inRange options hrange] at hslice
  cases hslice
  rw [segment_length, pageEnd_inRange options hrange]
  unfold pageStart
  generalize (sortedSurvivors S r options filterOpt docs).length = N
  by_cases h0 : options.MaxOutputs = 0
  · rw [if_pos h0, if_neg (by omega)]
    omega
  · rw [if_neg h0, if_pos (by omega)]
    omega

/-- Witness for C3: the options `rankOptsMax3` of `TestOffsetAndMaxOutputs`
(offset 1, limit 3) on the three documents of the test query: the page holds
documents 5 and 2, and `2 = max(0, min(3, 3 - 1))`. -/
theorem pagination_law_witness :
    fullRanker.initialized = true ∧
    (0 : Int) ≤ (rankOptsMax 1 3).OutputOffset ∧ (rankOptsMax 1 3).OutputOffset ≤ maxInt ∧
    (0 : Int) ≤ (rankOptsMax 1 3).MaxOutputs ∧ (rankOptsMax 1 3).MaxOutputs ≤ maxInt ∧
    (((RankOutput.docs [docRecord fullRanker (rankOptsMax 1 3) (candidate 5 11),
        docRecord fullRanker (rankOptsMax 1 3) (candidate 2 2)] :
      RankOutput FieldValue String).length : Nat) : Int) =
      if 0 < (rankOptsMax 1 3).MaxOutputs then
        max 0 (min (rankOptsMax 1 3).MaxOutputs
          ((sortedSurvivors smallSort fullRanker (rankOptsMax 1 3) noFilters
            worldCandidates).length - (rankOptsMax 1 3).OutputOffset))
      else
        max 0 ((sortedSurvivors smallSort fullRanker (rankOptsMax 1 3) noFilters
          worldCandidates).length - (rankOptsMax 1 3).OutputOffset) :=
  ⟨rfl, by decide, by decide, by decide, by decide,
    (pagination_law smallSort fullRanker worldCandidates (rankOptsMax 1 3) noFilters rfl
      (by decide) (by decide) (by decide) (by decide)).1 _ 3 (by decide!)⟩

/-- C4. Pagination content: with countOnly=false and deferSort=false the result
of `Rank` is the slice expression `sorted[start:end]` on the sorted survivor
list of length `n`, carried with the count of survivors, where
`start = min(OutputOffset, n)` and `end` is `n` when `MaxOutputs = 0` and
`min(OutputOffset + MaxOutputs, n)` otherwise (the Go sum). When offset and
limit are non-negative with a sum in the `int` range the slice expression is
defined and the returned list is exactly the stretch from position `start` up
to position `end` of the sorted list. -/
theorem page_content {φ ν ω : Type} (S : Sorter) (r : Ranker φ ν) (docs : List IndexedDoc)
    (options : RankOpts φ) (filterOpt : List (FilterOptions ν ω))
    (hinit : r.initialized = true) :
    Rank S r docs options false filterOpt false =
      ((sortedSurvivors S r options filterOpt docs).slice
        (pageStart options (sortedSurvivors S r options filterOpt docs).length)
        (pageEnd options (sortedSurvivors S r options filterOpt docs).length)).map
        (fun page => (page, (survivors r options filterOpt docs).length)) ∧
    (InRange options →
      Rank S r docs options false filterOpt false =
        .ok ((sortedSurvivors S r options filterOpt docs).segment
          (min options.OutputOffset
            (sortedSurvivors S r options filterOpt docs).length).toNat
          (if options.MaxOutputs = 0 then
              ((sortedSurvivors S r options filterOpt docs).length : Int)
            else min (options.OutputOffset + options.MaxOutputs)
              (sortedSurvivors S r options filterOpt docs).length).toNat,
          (survivors r options filterOpt docs).length)) := by
  have hpaged := Rank_paged S r docs options filterOpt false hinit (Or.inr rfl)
  refine ⟨hpaged, ?_⟩
  intro h
  rw [hpaged, slice_inRange options h, pageEnd_inRange options h]
  rfl

/-- Witness for C4, Scenario B: five scored documents, `OutputOffset=1` and
`MaxOutputs=3` (the options `rankOptsMax3` of the tests). The sorted list is
documents 5, 4, 3, 2, 1 and the page holds its positions 1, 2, 3. -/
theorem page_content_witness :
    fullRanker.initialized = true ∧ InRange (rankOptsMax 1 3) ∧
    sortedSurvivors smallSort fullRanker (rankOptsMax 1 3) noFilters fiveCandidates =
      .docs [docRecord fullRanker (rankOptsMax 1 3) (candidate 5 4),
        docRecord fullRanker (rankOptsMax 1 3) (candidate 4 3),
        docRecord fullRanker (rankOptsMax 1 3) (candidate 3 2),
        docRecord fullRanker (rankOptsMax 1 3) (candidate 2 1),
        docRecord fullRanker (rankOptsMax 1 3) (candidate 1 0)] ∧
    Rank smallSort fullRanker fiveCandidates (rankOptsMax 1 3) false noFilters false =
      .ok (.docs [docRecord fullRanker (rankOptsMax 1 3) (candidate 4 3),
        docRecord fullRanker (rankOptsMax 1 3) (candidate 3 2),
        docRecord fullRanker (rankOptsMax 1 3) (candidate 2 1)], 5) :=
  ⟨rfl, ⟨by decide, by decide, by decide⟩, by decide!,
    ((page_content smallSort fullRanker fiveCandidates (rankOptsMax 1 3) noFilters rfl).2
      ⟨by decide, by decide, by decide⟩).trans (by decide!)⟩

/-- C5, the code at the failing input: with OutputOffset=1 and MaxOutputs at the
largest `int`, `maxOutput` on an empty result returns `start = 0` and
`end = -2^63`, the slice expression panics, and so does `Rank` on an empty
candidate list. -/
theorem maxOutput_overflow :
    maxOutput (rankOptsMax 1 maxInt) 0 = (0, minInt) ∧
    sliceRange ([] : List ScoredID) 0 minInt = .error Failure.panic ∧
    Rank smallSort idRanker [] (rankOptsMax 1 maxInt) false noFilters false =
      .error Failure.panic := by
  decide!

/-- Counterexample to C6 as stated: the three documents of `TestEngineIndexDoc`
come back with the primary scores `1/3`, `1/12`, `1/15` (the `float32`
quotients) under `ReverseOrder=false`, which is not non-decreasing, and with
`1/15`, `1/12`, `1/3` under `ReverseOrder=true`, which is not non-increasing. -/
theorem sort_order_as_specified_counterexample :
    (Rank smallSort fullRanker worldCandidates (rankOptsOrder false) false noFilters
        false).toOption.map (fun res => res.1.scores.map primary) =
      some [1 / 3, 1 / 12, 1 / 15] ∧
    ¬ ([1 / 3, 1 / 12, 1 / 15] : List Score).Pairwise (fun a b => a ≤ b) ∧
    (Rank smallSort fullRanker worldCandidates (rankOptsOrder true) false noFilters
        false).toOption.map (fun res => res.1.scores.map primary) =
      some [1 / 15, 1 / 12, 1 / 3] ∧
    ¬ ([1 / 15, 1 / 12, 1 / 3] : List Score).Pairwise (fun a b => a ≥ b) := by
  decide!

/-- C6, amended. For every `sort.Sort` that meets its contract and reaches the
data through `Less` alone, with countOnly=false and deferSort=false, and when no
score of a surviving candidate is a not-a-number: the primary (first) scores of
the returned list are non-increasing by index when `ReverseOrder=false` and
non-decreasing by index when `ReverseOrder=true`, in the comparison of
`float32`. `Rank` returns such a list whenever offset and limit are
non-negative with a sum in the `int` range. -/
theorem primary_scores_ordered {φ ν ω : Type} (S : Sorter) (hS : S.Lawful)
    (hN : S.Natural) (r : Ranker φ ν) (docs : List IndexedDoc) (options : RankOpts φ)
    (filterOpt : List (FilterOptions ν ω)) (hinit : r.initialized = true)
    (hnum : ∀ s ∈ (survivors r options filterOpt docs).scores, allNumbers s = true) :
    (InRange options →
      ∃ out n, Rank S r docs options false filterOpt false = .ok (out, n)) ∧
    ∀ out n, Rank S r docs options false filterOpt false = .ok (out, n) →
      (options.ReverseOrder = false →
        (out.scores.map primary).Pairwise (fun a b => a ≥ b)) ∧
      (options.ReverseOrder = true →
        (out.scores.map primary).Pairwise (fun a b => a ≤ b)) := by
  refine ⟨Rank_paged_returns S r docs options filterOpt hinit, ?_⟩
  intro out n h
  obtain ⟨h₁, h₂⟩ :=
    Rank_primary_order S hS hN r docs options filterOpt hinit hnum out n h
  exact ⟨fun hrev => (h₁ hrev).imp (fun hab => hab.1),
    fun hrev => (h₂ hrev).imp (fun hab => hab.1)⟩

/-- Witness for C6 (amended): the query of `TestEngineIndexDoc` on the fixture
registry returns documents 2, 5, 1, whose primary scores do not increase. -/
theorem primary_scores_ordered_witness :
    fullRanker.initialized = true ∧
    (∀ s ∈ (survivors fullRanker (rankOptsOrder false) noFilters worldCandidates).scores,
      allNumbers s = true) ∧
    ((RankOutput.docs [docRecord fullRanker (rankOptsOrder false) (candidate 2 2),
        docRecord fullRanker (rankOptsOrder false) (candidate 5 11),
        docRecord fullRanker (rankOptsOrder false) (candidate 1 14)] :
      RankOutput FieldValue String).scores.map primary).Pairwise (fun a b => a ≥ b) :=
  ⟨rfl, by decide!,
    ((primary_scores_ordered smallSort smallSort_lawful smallSort_natural fullRanker
      worldCandidates (rankOptsOrder false) noFilters rfl (by decide!)).2 _ 3
      (by decide!)).1 rfl⟩

/-- Counterexample to C7 as stated: the candidates for documents 1, 4 and 5
score 1, not-a-number and 2. The three primary scores are pairwise distinct and
pagination cuts nothing off (no offset, no limit), yet `ReverseOrder=false` and
`ReverseOrder=true` both return documents 1, 4, 5: no comparison with the
not-a-number holds, so the insertion sort that `sort.Sort` runs on three
elements moves nothing in either direction. The second list is not the reversal
of the first. -/
theorem nan_blocks_reversal_counterexample :
    (survivors fullRanker (bm25Opts false) noFilters nanCandidates).scores.map primary =
      [1, Score.nan, 2] ∧
    ([1, Score.nan, 2] : List Score).Pairwise (fun a b => a ≠ b) ∧
    NoCut (bm25Opts false)
      (survivors fullRanker (bm25Opts false) noFilters nanCandidates).length ∧
    (Rank smallSort fullRanker nanCandidates (bm25Opts false) false noFilters
        false).toOption.map (fun res => res.1.docIds) = some [1, 4, 5] ∧
    (Rank smallSort fullRanker nanCandidates (bm25Opts true) false noFilters
        false).toOption.map (fun res => res.1.docIds) = some [1, 4, 5] ∧
    ([1, 4, 5] : List Nat).reverse ≠ [1, 4, 5] :=
  ⟨by decide!, by decide!, ⟨rfl, Or.inl rfl⟩, by decide!, by decide!, by decide⟩

/-- C7, amended. Sort order as the tests assert it. For every `sort.Sort` that
meets its contract and reaches the data through `Less` alone: (general part)
when the primary scores of the survivors are pairwise strictly ordered by the
comparison of `float32` (of any two, one is less than the other, which rules out
a not-a-number and equal scores) and pagination cuts nothing off, `Rank` with
`ReverseOrder=false` returns the survivors from the highest primary score to
the lowest, and `Rank` with `ReverseOrder=true` returns the same list reversed;
(test data) for the three documents of `TestEngineIndexDoc`, with scores 0.333,
0.083 and 0.066, `ReverseOrder=false` returns documents 2, 5, 1 and
`ReverseOrder=true` returns documents 1, 5, 2. -/
theorem reverse_order_reverses {φ ν ω : Type} (S : Sorter) (hS : S.Lawful)
    (hN : S.Natural) (r : Ranker φ ν) (docs : List IndexedDoc) (options : RankOpts φ)
    (filterOpt : List (FilterOptions ν ω)) (hinit : r.initialized = true)
    (hcut : NoCut options (survivors r options filterOpt docs).length)
    (hdistinct : ((survivors r options filterOpt docs).scores.map primary).Pairwise
      (fun a b => a < b ∨ b < a)) :
    (Rank S r docs (withOrder options false) false filterOpt false =
        .ok (sortedSurvivors S r (withOrder options false) filterOpt docs,
          (survivors r options filterOpt docs).length) ∧
      Rank S r docs (withOrder options true) false filterOpt false =
        .ok ((sortedSurvivors S r (withOrder options false) filterOpt docs).reverse,
          (survivors r options filterOpt docs).length) ∧
      ((sortedSurvivors S r (withOrder options false) filterOpt docs).scores.map
        primary).Pairwise (fun a b => a > b)) ∧
    (Rank S fullRanker worldCandidates (rankOptsOrder false) false noFilters false =
        .ok (.docs [docRecord fullRanker (rankOptsOrder false) (candidate 2 2),
          docRecord fullRanker (rankOptsOrder false) (candidate 5 11),
          docRecord fullRanker (rankOptsOrder false) (candidate 1 14)], 3) ∧
      Rank S fullRanker worldCandidates (rankOptsOrder true) false noFilters false =
        .ok (.docs [docRecord fullRanker (rankOptsOrder true) (candidate 1 14),
          docRecord fullRanker (rankOptsOrder true) (candidate 5 11),
          docRecord fullRanker (rankOptsOrder true) (candidate 2 2)], 3)) := by
  refine ⟨⟨?_, ?_, ?_⟩, ?_, ?_⟩
  · exact Rank_noCut S hS r docs (withOrder options false) filterOpt hinit hcut
  · rw [← sortedSurvivors_reverse S hS hN r options filterOpt docs hdistinct]
    exact Rank_noCut S hS r docs (withOrder options true) filterOpt hinit hcut
  · exact sortedSurvivors_strict S hS hN r options filterOpt docs hdistinct
  · rw [Rank_sorter_irrelevant S smallSort hS hN smallSort_lawful smallSort_natural
      fullRanker worldCandidates (rankOptsOrder false) noFilters rfl (by decide!)]
    decide!
  · rw [Rank_sorter_irrelevant S smallSort hS hN smallSort_lawful smallSort_natural
      fullRanker worldCandidates (rankOptsOrder true) noFilters rfl (by decide!)]
    decide!

/-- Witness for C7 (amended): the query of `TestEngineIndexDoc` with the options
of `rankOptsOrder`: limit 10, three survivors with primary scores that are
pairwise strictly ordered. -/
theorem reverse_order_reverses_witness :
    fullRanker.initialized = true ∧
    NoCut (rankOptsOrder false)
      (survivors fullRanker (rankOptsOrder false) noFilters worldCandidates).length ∧
    ((survivors fullRanker (rankOptsOrder false) noFilters worldCandidates).scores.map
      primary).Pairwise (fun a b => a < b ∨ b < a) ∧
    Rank smallSort fullRanker worldCandidates (withOrder (rankOptsOrder false) true) false
        noFilters false =
      .ok ((sortedSurvivors smallSort fullRanker (withOrder (rankOptsOrder false) false)
        noFilters worldCandidates).reverse,
        (survivors fullRanker (rankOptsOrder false) noFilters worldCandidates).length) :=
  ⟨rfl, ⟨rfl, Or.inr ⟨by decide!, by decide!⟩⟩, by decide!,
    (reverse_order_reverses smallSort smallSort_lawful smallSort_natural fullRanker
      worldCandidates (rankOptsOrder false) noFilters rfl
      ⟨rfl, Or.inr ⟨by decide!, by decide!⟩⟩ (by decide!)).1.2.1⟩

/-- Counterexample to C8 as stated, for either generation of `sort.Sort`.
Go releases up to 1.18: candidates 1 to 6 score 1/2 each and candidate 7 scores
1; on seven elements `sort.Sort` first compares positions 6 and 0 and swaps
them, so the result is documents 7, 2, 3, 4, 5, 6, 1: documents 1 and 2 have
equal score sequences and candidate 1 precedes candidate 2, yet document 2 is
returned before document 1. This sorter meets the contract of `sort.Sort` and
reaches the data through `Less` alone. Go releases from 1.19 on: the same seven
candidates are sorted by insertion and keep their order, but with candidates 1
to 12 scoring 1/2 each and candidate 13 scoring 1 the partition step moves the
pivot, document 7, to the front, and the ten documents returned are 13, 7, 3,
4, 5, 6, 1, 8, 9, 10: documents 1 and 7 have equal score sequences and
candidate 1 precedes candidate 7, yet document 7 is returned before
document 1. -/
theorem stable_tie_break_counterexample :
    smallSort.Lawful ∧ smallSort.Natural ∧
    (Rank smallSort sevenRanker tieCandidates (rankOptsOrder false) false noFilters
        false).toOption.map (fun res => res.1.docIds) = some [7, 2, 3, 4, 5, 6, 1] ∧
    scoresOf sevenRanker (rankOptsOrder false) (candidate 1 1) =
      scoresOf sevenRanker (rankOptsOrder false) (candidate 2 1) ∧
    tieCandidates.map (fun d => d.DocId) = [1, 2, 3, 4, 5, 6, 7] ∧
    (Rank pdqSort sevenRanker tieCandidates (rankOptsOrder false) false noFilters
        false).toOption.map (fun res => res.1.docIds) = some [7, 1, 2, 3, 4, 5, 6] ∧
    (Rank pdqSort thirteenRanker longTieCandidates (rankOptsOrder false) false noFilters
        false).toOption.map (fun res => res.1.docIds) =
      some [13, 7, 3, 4, 5, 6, 1, 8, 9, 10] ∧
    scoresOf thirteenRanker (rankOptsOrder false) (candidate 1 1) =
      scoresOf thirteenRanker (rankOptsOrder false) (candidate 7 1) ∧
    longTieCandidates.map (fun d => d.DocId) =
      [1, 2, 3, 4, 5, 6, 7, 8, 9, 10, 11, 12, 13] :=
  ⟨smallSort_lawful, smallSort_natural, by decide!, by decide!, by decide!, by decide!,
    by decide!, by decide!, by decide!⟩

/-- C8, amended. For every `sort.Sort` that meets its contract and reaches the
data through `Less` alone, with countOnly=false and deferSort=false, and when no
score of a surviving candidate is a not-a-number: the order of the returned
documents is fixed by the primary score only. Of two returned documents whose
primary scores differ (one is less than the other in the comparison of
`float32`), the one with the higher primary score comes first when
`ReverseOrder=false`, and the one with the lower primary score comes first when
`ReverseOrder=true`. Candidate order does not fix the relative order of
documents with equal scores. `Rank` returns such a list whenever offset and limit
are non-negative with a sum in the `int` range. -/
theorem order_by_scores_only {φ ν ω : Type} (S : Sorter) (hS : S.Lawful)
    (hN : S.Natural) (r : Ranker φ ν) (docs : List IndexedDoc) (options : RankOpts φ)
    (filterOpt : List (FilterOptions ν ω)) (hinit : r.initialized = true)
    (hnum : ∀ s ∈ (survivors r options filterOpt docs).scores, allNumbers s = true) :
    (InRange options →
      ∃ out n, Rank S r docs options false filterOpt false = .ok (out, n)) ∧
    ∀ out n, Rank S r docs options false filterOpt false = .ok (out, n) →
      out.scores.Pairwise (fun a b =>
        primary a < primary b ∨ primary b < primary a →
          (options.ReverseOrder = false → primary b < primary a) ∧
          (options.ReverseOrder = true → primary a < primary b)) := by
  refine ⟨Rank_paged_returns S r docs options filterOpt hinit, ?_⟩
  intro out n h
  obtain ⟨h₁, h₂⟩ :=
    Rank_primary_order S hS hN r docs options filterOpt hinit hnum out n h
  cases hrev : options.ReverseOrder with
  | false =>
    have hp := List.pairwise_map.mp (h₁ hrev)
    refine hp.imp ?_
    intro a b hab hne
    refine ⟨fun _ => ?_, fun hc => (by cases hc)⟩
    rcases hne with hlt | hgt
    · exact absurd hlt hab.2
    · exact hgt
  | true =>
    have hp := List.pairwise_map.mp (h₂ hrev)
    refine hp.imp ?_
    intro a b hab hne
    refine ⟨fun hc => (by cases hc), fun _ => ?_⟩
    rcases hne with hlt | hgt
    · exact hlt
    · exact absurd hgt hab.2

/-- Witness for C8 (amended): the seven tied candidates; in the returned list
document 7, with the primary score 1, stands before the six documents with the
primary score 1/2. -/
theorem order_by_scores_only_witness :
    sevenRanker.initialized = true ∧
    (∀ s ∈ (survivors sevenRanker (rankOptsOrder false) noFilters tieCandidates).scores,
      allNumbers s = true) ∧
    ((RankOutput.docs ([7, 2, 3, 4, 5, 6, 1].map (fun id =>
        docRecord sevenRanker (rankOptsOrder false)
          (candidate id (if id = 7 then 0 else 1)))) :
      RankOutput FieldValue String).scores).Pairwise (fun a b =>
        primary a < primary b ∨ primary b < primary a →
          ((rankOptsOrder false).ReverseOrder = false → primary b < primary a) ∧
          ((rankOptsOrder false).ReverseOrder = true → primary a < primary b)) :=
  ⟨rfl, by decide!,
    (order_by_scores_only smallSort smallSort_lawful smallSort_natural sevenRanker
      tieCandidates (rankOptsOrder false) noFilters rfl (by decide!)).2 _ 7 (by decide!)⟩

/-- Counterexample to C9 as stated: on the ID-only registry, with deferSort=true
and countOnly=false, the three candidates 1, 2, 5 come back sorted (2, 5, 1)
under `rankOptsOrder`, and cut down to one record under `rankOptsMax(0, 1)`. -/
theorem defer_sort_id_only_counterexample :
    idRanker.idOnly = true ∧
    (Rank smallSort idRanker worldCandidates (rankOptsOrder false) false noFilters
        true).toOption.map (fun res => res.1.docIds) = some [2, 5, 1] ∧
    (Rank smallSort idRanker worldCandidates (rankOptsMax 0 1) false noFilters
        true).toOption.map (fun res => res.1.docIds) = some [1] ∧
    (survivors idRanker (rankOptsOrder false) noFilters worldCandidates).docIds = [1, 2, 5] := by
  decide!

/-- C9, amended. In full-document mode, whenever deferSort is true and countOnly
is false, `Rank` sorts nothing and cuts nothing: it returns every surviving
document in candidate order, with their number, whatever `ReverseOrder`,
`OutputOffset` and `MaxOutputs` are. In ID-only mode the flag is not consulted:
`Rank` returns what it returns with deferSort=false. -/
theorem defer_sort {φ ν ω : Type} (S : Sorter) (r : Ranker φ ν) (docs : List IndexedDoc)
    (options : RankOpts φ) (filterOpt : List (FilterOptions ν ω))
    (hinit : r.initialized = true) :
    (r.idOnly = false →
      Rank S r docs options false filterOpt true =
        .ok (.docs (survivingDocs r options filterOpt docs),
          (survivingDocs r options filterOpt docs).length) ∧
      ∀ reverse offset limit,
        Rank S r docs
            { options with ReverseOrder := reverse, OutputOffset := offset,
                           MaxOutputs := limit } false filterOpt true =
          Rank S r docs options false filterOpt true) ∧
    (r.idOnly = true →
      Rank S r docs options false filterOpt true =
        Rank S r docs options false filterOpt false) := by
  constructor
  · intro hmode
    have h := Rank_deferred S r docs options filterOpt hinit hmode
    refine ⟨?_, ?_⟩
    · rw [h]
      simp [survivors, hmode, RankOutput.length]
    · intro reverse offset limit
      rw [h, Rank_deferred S r docs _ filterOpt hinit hmode]
      rfl
  · intro hmode
    rw [Rank_paged S r docs options filterOpt true hinit (Or.inl hmode),
      Rank_paged S r docs options filterOpt false hinit (Or.inl hmode)]

/-- Witness for C9 (amended): with deferSort=true the full-document fixture
returns candidates 1, 2, 5 in candidate order although the options ask for a
sorted page of one record. -/
theorem defer_sort_witness :
    fullRanker.initialized = true ∧ fullRanker.idOnly = false ∧
    Rank smallSort fullRanker worldCandidates (rankOptsMax 0 1) false noFilters true =
      .ok (.docs (survivingDocs fullRanker (rankOptsMax 0 1) noFilters worldCandidates),
        (survivingDocs fullRanker (rankOptsMax 0 1) noFilters worldCandidates).length) ∧
    (survivingDocs fullRanker (rankOptsMax 0 1) noFilters worldCandidates).map
      (fun x => x.DocId) = [1, 2, 5] :=
  ⟨rfl, rfl,
    ((defer_sort smallSort fullRanker worldCandidates (rankOptsMax 0 1) noFilters rfl).1
      rfl).1,
    by decide!⟩

/-- C10. Count-only: on an initialized registry of either mode, with
countOnly=true `Rank` returns an empty document list (empty `ScoredIDs` in
ID-only mode, empty `ScoredDocs` otherwise) and a matchedCount equal to the
number of candidates that are present in the registry and have a non-empty
`Score` result; the outcome is the same for every filter list, `ReverseOrder`,
`OutputOffset`, `MaxOutputs` and deferSort. -/
theorem count_only {φ ν ω : Type} (S : Sorter) (r : Ranker φ ν) (docs : List IndexedDoc)
    (options : RankOpts φ) (filterOpt : List (FilterOptions ν ω)) (orderAtTheEnd : Bool)
    (hinit : r.initialized = true) :
    Rank S r docs options true filterOpt orderAtTheEnd =
      .ok (if r.idOnly then RankOutput.ids [] else RankOutput.docs [],
        (docs.filter (fun d => (r.docs d.DocId).isSome &&
          !(options.ScoringCriteria.Score d (r.fieldsAt d.DocId)).isEmpty)).length) ∧
    ∀ (filterOpt' : List (FilterOptions ν ω)) (orderAtTheEnd' reverse : Bool)
        (offset limit : Int),
      Rank S r docs
          { options with ReverseOrder := reverse, OutputOffset := offset,
                         MaxOutputs := limit } true filterOpt' orderAtTheEnd' =
        Rank S r docs options true filterOpt orderAtTheEnd := by
  refine ⟨?_, ?_⟩
  · rw [Rank_counting S r docs options filterOpt orderAtTheEnd hinit]
    rfl
  · intro filterOpt' orderAtTheEnd' reverse offset limit
    rw [Rank_counting S r docs options filterOpt orderAtTheEnd hinit,
      Rank_counting S r docs _ filterOpt' orderAtTheEnd' hinit]
    rfl

/-- Witness for C10: counting the query of `TestCountDocsOnly` on the
full-document fixture gives no records and the count 3. -/
theorem count_only_witness :
    fullRanker.initialized = true ∧
    Rank smallSort fullRanker worldCandidates (rankOptsMax 0 1) true [colorIs "red"] false =
      .ok (RankOutput.docs [], 3) :=
  ⟨rfl,
    ((count_only smallSort fullRanker worldCandidates (rankOptsMax 0 1) [colorIs "red"]
      false rfl).1).trans (by decide!)⟩

/-- C11. Filter exclusion. In full-document mode with countOnly=false: the
filter loop flags a document if and only if some filter of the list has its
attribute on the document, compares against the stored value without error and
gets the result false; the output of `Rank` (unsorted with deferSort=true, and
as the list that is sorted and paginated with deferSort=false) is made of the
present candidates with a non-empty score for which no filter is of that kind;
and evaluation stops at such a filter: the filters after it cause no comparison
and no log line. -/
theorem filter_exclusion {φ ν ω : Type} (S : Sorter) (r : Ranker φ ν)
    (docs : List IndexedDoc) (options : RankOpts φ) (filterOpt : List (FilterOptions ν ω))
    (hinit : r.initialized = true) (hmode : r.idOnly = false) :
    (∀ attri : AttrMap ν, RankDocs.overFlag attri filterOpt = true ↔
      ∃ f ∈ filterOpt, ∃ ori, attri.lookup f.Attr = some ori ∧
        f.Val.Compare ori.Value f.Op = .ok false) ∧
    Rank S r docs options false filterOpt true =
      .ok (.docs ((docs.filter (fun d => scored r options d &&
          !filterOpt.any (rejects (r.attriAt d.DocId)))).map (docRecord r options)),
        (docs.filter (fun d => scored r options d &&
          !filterOpt.any (rejects (r.attriAt d.DocId)))).length) ∧
    Rank S r docs options false filterOpt false =
      (paginate options
        (S.sort (direction options.ReverseOrder ScoredDocs.Less)
          ((docs.filter (fun d => scored r options d &&
            !filterOpt.any (rejects (r.attriAt d.DocId)))).map (docRecord r options)))
        (docs.filter (fun d => scored r options d &&
          !filterOpt.any (rejects (r.attriAt d.DocId)))).length).map
        (fun res => (RankOutput.docs res.1, res.2)) ∧
    (∀ (attri : AttrMap ν) (f : FilterOptions ν ω) (pre post : List (FilterOptions ν ω))
        (m : Machine φ ν), rejects attri f = true →
      RankDocs.filterRun attri (pre ++ f :: post) m =
        RankDocs.filterRun attri (pre ++ [f]) m) := by
  have hsurv := survivingDocs_eq_filter r options filterOpt docs
  refine ⟨?_, ?_, ?_, ?_⟩
  · intro attri
    rw [overFlag_eq_any, List.any_eq_true]
    constructor
    · rintro ⟨f, hf, hrej⟩
      exact ⟨f, hf, (rejects_iff attri f).mp hrej⟩
    · rintro ⟨f, hf, hrej⟩
      exact ⟨f, hf, (rejects_iff attri f).mpr hrej⟩
  · rw [Rank_deferred S r docs options filterOpt hinit hmode]
    simp [survivors, hmode, RankOutput.length, hsurv]
  · have h3 : Rank S r docs options false filterOpt false =
        (RankDocs S r docs options false filterOpt false).map
          (fun res => (RankOutput.docs res.1, res.2)) := by
      simp [Rank, hinit, hmode]
    rw [h3, RankDocs_sorting, hsurv, List.length_map]
  · intro attri f pre post m hf
    exact (filterRun_stops attri f pre post m hf).1

/-- Witness for C11: documents 1 (`color = red`) and 2 (`color = blue`) of the
fixture under the filter `color == red`: document 2 is left out. -/
theorem filter_exclusion_witness :
    fullRanker.initialized = true ∧ fullRanker.idOnly = false ∧
    Rank smallSort fullRanker [candidate 1 0, candidate 2 0] (rankOptsOrder false) false
        [colorIs "red"] true =
      .ok (.docs [docRecord fullRanker (rankOptsOrder false) (candidate 1 0)], 1) :=
  ⟨rfl, rfl,
    ((filter_exclusion smallSort fullRanker [candidate 1 0, candidate 2 0]
      (rankOptsOrder false) [colorIs "red"] rfl rfl).2.1).trans (by decide!)⟩

/-- C12. A missing attribute never excludes. A filter whose `Attr` is no key of
the document's attribute map (the `nil` map of a document without attributes
included) can be dropped from any filter list without changing the verdict of
the filter loop on that document; when no candidate has the attribute of any
filter of the list, `Rank` returns what it returns with no filters. Scenario C:
under the filter `color == red`, document 1 (`color = red`) and document 3 (no
attributes) are both returned. -/
theorem missing_attribute_never_excludes {φ ν ω : Type} (S : Sorter) (r : Ranker φ ν)
    (docs : List IndexedDoc) (options : RankOpts φ) (countDocsOnly : Bool)
    (filterOpt : List (FilterOptions ν ω)) (orderAtTheEnd : Bool)
    (hmiss : ∀ d ∈ docs, ∀ f ∈ filterOpt, (r.attriAt d.DocId).lookup f.Attr = none) :
    Rank S r docs options countDocsOnly filterOpt orderAtTheEnd =
      Rank S r docs options countDocsOnly ([] : List (FilterOptions ν ω)) orderAtTheEnd ∧
    (∀ (attri : AttrMap ν) (f : FilterOptions ν ω) (pre post : List (FilterOptions ν ω)),
      attri.lookup f.Attr = none →
      RankDocs.overFlag attri (pre ++ f :: post) = RankDocs.overFlag attri (pre ++ post)) ∧
    Rank smallSort fullRanker [candidate 1 0, candidate 3 1] (rankOptsOrder false) false
        [colorIs "red"] false =
      .ok (.docs [docRecord fullRanker (rankOptsOrder false) (candidate 1 0),
        docRecord fullRanker (rankOptsOrder false) (candidate 3 1)], 2) := by
  refine ⟨?_, ?_, by decide!⟩
  · refine Rank_filters_congr S r docs options countDocsOnly filterOpt [] orderAtTheEnd ?_
    intro d hd
    rw [overFlag_eq_any, overFlag_eq_any]
    simp only [List.any_nil, List.any_eq_false]
    intro f hf
    simp [rejects, hmiss d hd f hf]
  · intro attri f pre post hl
    exact overFlag_skip attri f pre post (by simp [rejects, hl])

/-- Witness for C12: documents 3 and 4 of the fixture carry no attributes, so
the filter `color == red` changes nothing. -/
theorem missing_attribute_never_excludes_witness :
    (∀ d ∈ [candidate 3 0, candidate 4 1], ∀ f ∈ [colorIs "red"],
      (fullRanker.attriAt d.DocId).lookup f.Attr = none) ∧
    Rank smallSort fullRanker [candidate 3 0, candidate 4 1] (rankOptsOrder false) false
        [colorIs "red"] false =
      Rank smallSort fullRanker [candidate 3 0, candidate 4 1] (rankOptsOrder false) false
        noFilters false :=
  ⟨by decide,
    (missing_attribute_never_excludes smallSort fullRanker [candidate 3 0, candidate 4 1]
      (rankOptsOrder false) false [colorIs "red"] false (by decide)).1⟩

/-- C13. Comparison errors are soft. A filter whose `Compare` returns an error
on a document is logged and the loop goes on with the next filter; it can be
dropped from any filter list without changing the verdict on that document.
When the filter fails on every candidate that has its attribute, `Rank` returns
what it returns without it; and a filter list never makes `Rank` fail: `Rank`
returns a list and a count whenever it counts only, defers sorting in
full-document mode, or has offset and limit in range. -/
theorem comparison_errors_are_soft {φ ν ω : Type} (S : Sorter) (r : Ranker φ ν)
    (docs : List IndexedDoc) (options : RankOpts φ) (countDocsOnly : Bool)
    (f : FilterOptions ν ω) (pre post : List (FilterOptions ν ω)) (orderAtTheEnd : Bool)
    (hinit : r.initialized = true)
    (herr : ∀ d ∈ docs, ∀ ori, (r.attriAt d.DocId).lookup f.Attr = some ori →
      ∃ err, f.Val.Compare ori.Value f.Op = .error err) :
    Rank S r docs options countDocsOnly (pre ++ f :: post) orderAtTheEnd =
      Rank S r docs options countDocsOnly (pre ++ post) orderAtTheEnd ∧
    (∀ (attri : AttrMap ν) (g : FilterOptions ν ω) (ori : Attribute ν) (err : String)
        (before after : List (FilterOptions ν ω)),
      attri.lookup g.Attr = some ori → g.Val.Compare ori.Value g.Op = .error err →
      RankDocs.overFlag attri (before ++ g :: after) =
        RankDocs.overFlag attri (before ++ after)) ∧
    (∀ (attri : AttrMap ν) (g : FilterOptions ν ω) (ori : Attribute ν) (err : String)
        (rest : List (FilterOptions ν ω)) (m : Machine φ ν),
      attri.lookup g.Attr = some ori → g.Val.Compare ori.Value g.Op = .error err →
      RankDocs.filterRun attri (g :: rest) m =
        RankDocs.filterRun attri rest
          ((m.emit (Event.compare g.Attr m.held)).emit (Event.logError err))) ∧
    (countDocsOnly = true ∨ InRange options ∨ (r.idOnly = false ∧ orderAtTheEnd = true) →
      ∃ out n, Rank S r docs options countDocsOnly (pre ++ f :: post) orderAtTheEnd =
        .ok (out, n)) := by
  refine ⟨?_, ?_, ?_, ?_⟩
  · refine Rank_filters_congr S r docs options countDocsOnly _ _ orderAtTheEnd ?_
    intro d hd
    refine overFlag_skip _ f pre post ?_
    unfold rejects
    cases hl : List.lookup f.Attr (r.attriAt d.DocId) with
    | none => rfl
    | some ori =>
      obtain ⟨err, he⟩ := herr d hd ori hl
      simp [he]
  · intro attri g ori err before after hl hc
    exact overFlag_skip attri g before after (by simp [rejects, hl, hc])
  · intro attri g ori err rest m hl hc
    simp [RankDocs.filterRun, hl, hc]
  · exact Rank_returns S r docs options countDocsOnly _ orderAtTheEnd hinit

/-- Witness for C13: the filter `brokenColor` fails on every document with a
`color`; ranking documents 1 and 2 with it equals ranking them without it. -/
theorem comparison_errors_are_soft_witness :
    fullRanker.initialized = true ∧
    Rank smallSort fullRanker [candidate 1 0, candidate 2 1] (rankOptsOrder false) false
        ([] ++ brokenColor :: [colorIs "blue"]) false =
      Rank smallSort fullRanker [candidate 1 0, candidate 2 1] (rankOptsOrder false) false
        ([] ++ [colorIs "blue"]) false :=
  ⟨rfl,
    (comparison_errors_are_soft smallSort fullRanker [candidate 1 0, candidate 2 1]
      (rankOptsOrder false) false brokenColor [] [colorIs "blue"] false rfl
      (fun _ _ _ _ => ⟨"bad operator", rfl⟩)).1⟩

/-- C14. Transient miss: a candidate whose `DocId` is no key of the presence
map is skipped, whatever lingers in the other maps. `Rank` over a candidate
list equals `Rank` over the list with the absent candidates deleted, in both
modes and for all options, filters and flags; and on such a candidate an
iteration of either loop takes and releases the read lock and does nothing
else: no call of `Score`, no change of the output and the count. -/
theorem transient_miss {φ ν ω : Type} (S : Sorter) (r : Ranker φ ν)
    (docs : List IndexedDoc) (options : RankOpts φ) (countDocsOnly : Bool)
    (filterOpt : List (FilterOptions ν ω)) (orderAtTheEnd : Bool) :
    Rank S r docs options countDocsOnly filterOpt orderAtTheEnd =
      Rank S r (docs.filter (fun d => (r.docs d.DocId).isSome)) options countDocsOnly
        filterOpt orderAtTheEnd ∧
    (∀ (m : Machine φ ν) (d : IndexedDoc), m.ranker.docs d.DocId = none →
      (∀ st, RankDocID.visitRun options countDocsOnly (st, m) d = (st, m.RLock.RUnlock)) ∧
      (∀ st, RankDocs.visitRun options countDocsOnly filterOpt (st, m) d =
        (st, m.RLock.RUnlock))) := by
  refine ⟨?_, ?_⟩
  · exact Rank_skips_absent S r docs options countDocsOnly filterOpt orderAtTheEnd
      (fun d => (r.docs d.DocId).isSome) (fun d h => h)
  · intro m d hnone
    have h1 : m.RLock.ranker.docs d.DocId = none := hnone
    constructor
    · intro st
      simp [RankDocID.visitRun, h1]
    · intro st
      simp [RankDocs.visitRun, h1]

/-- Witness for C14: after `RemoveDoc(5)` the candidates 1, 5, 6 of
`TestRemoveDoc` rank like the candidates 1 and 6: document 6 (score 9) before
document 1 (score 6). -/
theorem transient_miss_witness :
    removedRanker.docs 5 = none ∧
    Rank smallSort removedRanker [candidate 1 0, candidate 5 0, candidate 6 0] engOpts false
        noFilters false =
      .ok (.docs [docRecord removedRanker engOpts (candidate 6 0),
        docRecord removedRanker engOpts (candidate 1 0)], 2) :=
  ⟨by decide,
    ((transient_miss smallSort removedRanker [candidate 1 0, candidate 5 0, candidate 6 0]
      engOpts false noFilters false).1).trans (by decide!)⟩

/-- C15. Pass-through of candidate data. Every record that `Rank` returns was
produced from a candidate of the list: it has that candidate's `DocId`,
`TokenSnippetLocs` and `TokenLocs`, and its `Scores` are the `Score` result for
that candidate under the registered fields; in full-document mode its `Fields`,
`Content` and `Attri` are the registry's entries for that `DocId`. `Rank` does
return whenever it counts only, defers sorting in full-document mode, or has
offset and limit in range. -/
theorem pass_through {φ ν ω : Type} (S : Sorter) (hS : S.Lawful) (r : Ranker φ ν)
    (docs : List IndexedDoc) (options : RankOpts φ) (countDocsOnly : Bool)
    (filterOpt : List (FilterOptions ν ω)) (orderAtTheEnd : Bool)
    (hinit : r.initialized = true) :
    (∀ out n, Rank S r docs options countDocsOnly filterOpt orderAtTheEnd = .ok (out, n) →
      (∀ l, out = .ids l → ∀ x ∈ l, ∃ d ∈ docs,
        x.DocId = d.DocId ∧ x.TokenSnippetLocs = d.TokenSnippetLocs ∧
        x.TokenLocs = d.TokenLocs ∧
        x.Scores = options.ScoringCriteria.Score d (r.fieldsAt d.DocId)) ∧
      (∀ l, out = .docs l → ∀ x ∈ l, ∃ d ∈ docs,
        x.DocId = d.DocId ∧ x.TokenSnippetLocs = d.TokenSnippetLocs ∧
        x.TokenLocs = d.TokenLocs ∧
        x.Scores = options.ScoringCriteria.Score d (r.fieldsAt d.DocId) ∧
        x.Fields = r.fieldsAt d.DocId ∧ x.Content = r.contentAt d.DocId ∧
        x.Attri = r.attriAt d.DocId)) ∧
    (countDocsOnly = true ∨ InRange options ∨ (r.idOnly = false ∧ orderAtTheEnd = true) →
      ∃ out n, Rank S r docs options countDocsOnly filterOpt orderAtTheEnd = .ok (out, n)) := by
  refine ⟨?_, Rank_returns S r docs options countDocsOnly filterOpt orderAtTheEnd hinit⟩
  intro out n h
  have hw := Rank_within S hS r docs options countDocsOnly filterOpt orderAtTheEnd out n h
  constructor
  · intro l hl x hx
    subst hl
    have hmem := hw x hx
    simp only [survivingIDs, List.mem_map, List.mem_filter] at hmem
    obtain ⟨d, ⟨hd, _⟩, rfl⟩ := hmem
    exact ⟨d, hd, rfl, rfl, rfl, rfl⟩
  · intro l hl x hx
    subst hl
    have hmem := hw x hx
    simp only [survivingDocs, List.mem_map, List.mem_filter] at hmem
    obtain ⟨d, ⟨hd, _⟩, rfl⟩ := hmem
    exact ⟨d, hd, rfl, rfl, rfl, rfl, rfl, rfl, rfl⟩

/-- Witness for C15: the first record returned for the query of
`TestEngineIndexDoc` (document 2) stems from a candidate of the list. -/
theorem pass_through_witness :
    fullRanker.initialized = true ∧
    ∃ d ∈ worldCandidates,
      (docRecord fullRanker (rankOptsOrder false) (candidate 2 2)).DocId = d.DocId ∧
      (docRecord fullRanker (rankOptsOrder false) (candidate 2 2)).TokenSnippetLocs =
        d.TokenSnippetLocs ∧
      (docRecord fullRanker (rankOptsOrder false) (candidate 2 2)).TokenLocs = d.TokenLocs ∧
      (docRecord fullRanker (rankOptsOrder false) (candidate 2 2)).Scores =
        (rankOptsOrder false).ScoringCriteria.Score d (fullRanker.fieldsAt d.DocId) ∧
      (docRecord fullRanker (rankOptsOrder false) (candidate 2 2)).Fields =
        fullRanker.fieldsAt d.DocId ∧
      (docRecord fullRanker (rankOptsOrder false) (candidate 2 2)).Content =
        fullRanker.contentAt d.DocId ∧
      (docRecord fullRanker (rankOptsOrder false) (candidate 2 2)).Attri =
        fullRanker.attriAt d.DocId :=
  ⟨rfl,
    ((pass_through smallSort smallSort_lawful fullRanker worldCandidates (rankOptsOrder false)
      false noFilters false rfl).1
        (.docs [docRecord fullRanker (rankOptsOrder false) (candidate 2 2),
          docRecord fullRanker (rankOptsOrder false) (candidate 5 11),
          docRecord fullRanker (rankOptsOrder false) (candidate 1 14)]) 3 (by decide!)).2
      _ rfl _ (List.mem_cons_self _ _)⟩

/-- C16. `AddDoc` postcondition. On an initialized registry, after
`AddDoc(id, fields, ...)` the id is present and its stored fields are the
supplied ones, whatever was stored before. In full-document mode a string given
as first optional argument becomes the document's content and the call returns
normally; a `map[string]Attribute` given after it becomes the document's
attributes; a second optional argument of any other type leaves the attributes
map as it was. Without optional arguments, and in ID-only mode, the call
returns normally and touches neither content nor attributes. -/
theorem addDoc_postcondition {φ ν : Type} (r : Ranker φ ν) (docId : Nat)
    (fields : Option φ) (content : List (ContentArg ν)) (hinit : r.initialized = true) :
    (AddDoc r docId fields content).state.docs docId = some true ∧
    (AddDoc r docId fields content).state.fields docId = some fields ∧
    (r.idOnly = false → ∀ s rest, content = ContentArg.str s :: rest →
      (AddDoc r docId fields content).failure = none ∧
      (AddDoc r docId fields content).state.content docId = some s) ∧
    (r.idOnly = false → ∀ s c rest, content = ContentArg.str s :: ContentArg.attrs c :: rest →
      (AddDoc r docId fields content).state.attri docId = some c) ∧
    (∀ a b rest, content = a :: b :: rest → (∀ c, b ≠ ContentArg.attrs c) →
      (AddDoc r docId fields content).state.attri = r.attri) ∧
    (content = [] ∨ r.idOnly = true →
      (AddDoc r docId fields content).failure = none ∧
      (AddDoc r docId fields content).state.content = r.content ∧
      (AddDoc r docId fields content).state.attri = r.attri) := by
  obtain ⟨hdocs, hfields, _, _⟩ := AddDoc_presence r docId fields content hinit
  refine ⟨by rw [hdocs, mapSet_same], by rw [hfields, mapSet_same], ?_, ?_, ?_, ?_⟩
  · intro hmode s rest hc
    subst hc
    rw [AddDoc_content r docId fields s rest hinit hmode]
    refine ⟨rfl, ?_⟩
    cases rest with
    | nil => simp [AddDoc.storeAttri, mapSet]
    | cons b more => cases b <;> simp [AddDoc.storeAttri, mapSet]
  · intro hmode s c rest hc
    subst hc
    rw [AddDoc_content r docId fields s _ hinit hmode]
    simp [AddDoc.storeAttri, mapSet]
  · intro a b rest hc hb
    subst hc
    cases hm : r.idOnly
    · cases a with
      | str s =>
        rw [AddDoc_content r docId fields s _ hinit hm]
        cases b with
        | attrs c => exact absurd rfl (hb c)
        | nil => simp [AddDoc.storeAttri]
        | str t => simp [AddDoc.storeAttri]
        | other t => simp [AddDoc.storeAttri]
      | nil => simp [AddDoc, hinit, hm, AddDoc.storeContent]
      | attrs c => simp [AddDoc, hinit, hm, AddDoc.storeContent]
      | other t => simp [AddDoc, hinit, hm, AddDoc.storeContent]
    · rw [AddDoc_idOnly r docId fields _ hinit hm]
  · intro h
    rcases h with h | h
    · subst h
      rw [AddDoc_bare r docId fields hinit]
      exact ⟨rfl, rfl, rfl⟩
    · rw [AddDoc_idOnly r docId fields content hinit h]
      exact ⟨rfl, rfl, rfl⟩

/-- Witness for C16: adding document 7 with content and attributes to the
fixture registry. -/
theorem addDoc_postcondition_witness :
    fullRanker.initialized = true ∧
    (AddDoc fullRanker 7 none
      [ContentArg.str "text", ContentArg.attrs [("color", ⟨"green"⟩)]]).state.docs 7 =
      some true ∧
    (AddDoc fullRanker 7 none
      [ContentArg.str "text", ContentArg.attrs [("color", ⟨"green"⟩)]]).state.content 7 =
      some "text" :=
  ⟨rfl,
    (addDoc_postcondition fullRanker 7 none
      [ContentArg.str "text", ContentArg.attrs [("color", ⟨"green"⟩)]] rfl).1,
    ((addDoc_postcondition fullRanker 7 none
      [ContentArg.str "text", ContentArg.attrs [("color", ⟨"green"⟩)]] rfl).2.2.1
      rfl _ _ rfl).2⟩

/-- C17. `RemoveDoc` postcondition. On a registry produced by `Init` and any
`AddDoc` and `RemoveDoc` calls, `RemoveDoc(id)` returns normally and leaves
`id` a key of none of the fields, presence, content and attributes maps; a
subsequent `Rank` returns what it returns on the candidate list without the
candidates of that id; and an `AddDoc` of the same id without optional
arguments returns normally with no content and no attributes for it. -/
theorem removeDoc_postcondition {φ ν : Type} (r : Ranker φ ν) (id : Nat)
    (hr : Reachable r) :
    (RemoveDoc r id).failure = none ∧
    (RemoveDoc r id).state.fields id = none ∧
    (RemoveDoc r id).state.docs id = none ∧
    (RemoveDoc r id).state.content id = none ∧
    (RemoveDoc r id).state.attri id = none ∧
    (∀ {ω : Type} (S : Sorter) (docs : List IndexedDoc) (options : RankOpts φ)
        (countDocsOnly : Bool) (filterOpt : List (FilterOptions ν ω)) (orderAtTheEnd : Bool),
      Rank S (RemoveDoc r id).state docs options countDocsOnly filterOpt orderAtTheEnd =
        Rank S (RemoveDoc r id).state (docs.filter (fun d => decide (d.DocId ≠ id))) options
          countDocsOnly filterOpt orderAtTheEnd) ∧
    (∀ fields : Option φ,
      (AddDoc (RemoveDoc r id).state id fields []).failure = none ∧
      (AddDoc (RemoveDoc r id).state id fields []).state.content id = none ∧
      (AddDoc (RemoveDoc r id).state id fields []).state.attri id = none) := by
  have hw := hr.wellFormed
  have hinit := hw.initialized
  have hstate : (RemoveDoc r id).state.fields id = none ∧
      (RemoveDoc r id).state.docs id = none ∧
      (RemoveDoc r id).state.content id = none ∧
      (RemoveDoc r id).state.attri id = none := by
    cases hm : r.idOnly
    · rw [RemoveDoc_full r id hinit hm]
      simp [mapDelete]
    · rw [RemoveDoc_idOnly r id hinit hm]
      obtain ⟨hc, ha⟩ := hw.bare hm
      simp [mapDelete, hc id, ha id]
  have hinit' : (RemoveDoc r id).state.initialized = true := by
    rw [(RemoveDoc_flags r id).1]; exact hinit
  refine ⟨RemoveDoc_ok r id hinit, hstate.1, hstate.2.1, hstate.2.2.1, hstate.2.2.2, ?_, ?_⟩
  · intro ω S docs options countDocsOnly filterOpt orderAtTheEnd
    refine Rank_skips_absent S _ docs options countDocsOnly filterOpt orderAtTheEnd _ ?_
    intro d hd
    have hid : d.DocId = id := by simpa using hd
    simp [present, hid, hstate.2.1]
  · intro fields
    rw [AddDoc_bare _ id fields hinit']
    exact ⟨rfl, hstate.2.2.1, hstate.2.2.2⟩

/-- Witness for C17: removing document 5 from the registry built by `Init` and
two `AddDoc` calls. -/
theorem removeDoc_postcondition_witness :
    Reachable builtRanker ∧
    (RemoveDoc builtRanker 5).state.docs 5 = none ∧
    (RemoveDoc builtRanker 5).state.content 5 = none :=
  ⟨builtRanker_reachable,
    (removeDoc_postcondition builtRanker 5 builtRanker_reachable).2.2.1,
    (removeDoc_postcondition builtRanker 5 builtRanker_reachable).2.2.2.1⟩

/-- C18. Idempotent removal: on an initialized registry `RemoveDoc(x)` returns
normally; applied to the state it left behind it returns normally again and
leaves that state as it is; and on a state where `x` is a key of none of the
four maps it returns the state unchanged. -/
theorem removeDoc_idempotent {φ ν : Type} (r : Ranker φ ν) (x : Nat)
    (hinit : r.initialized = true) :
    (RemoveDoc r x).failure = none ∧
    RemoveDoc (RemoveDoc r x).state x = RemoveDoc r x ∧
    (r.fields x = none → r.docs x = none → r.content x = none → r.attri x = none →
      RemoveDoc r x = { state := r, failure := none }) := by
  refine ⟨RemoveDoc_ok r x hinit, ?_, ?_⟩
  · cases hm : r.idOnly
    · simp [RemoveDoc, hinit, hm, mapDelete_idem]
    · simp [RemoveDoc, hinit, hm, mapDelete_idem]
  · intro hf hd hc ha
    cases hm : r.idOnly
    · rw [RemoveDoc_full r x hinit hm, mapDelete_absent _ _ hf, mapDelete_absent _ _ hd,
        mapDelete_absent _ _ hc, mapDelete_absent _ _ ha]
    · rw [RemoveDoc_idOnly r x hinit hm, mapDelete_absent _ _ hf, mapDelete_absent _ _ hd]

/-- Witness for C18: removing document 5 of the fixture twice. -/
theorem removeDoc_idempotent_witness :
    fullRanker.initialized = true ∧
    RemoveDoc (RemoveDoc fullRanker 5).state 5 = RemoveDoc fullRanker 5 :=
  ⟨rfl, (removeDoc_idempotent fullRanker 5 rfl).2.1⟩

/-- C19. Registry invariant: in every state reachable from `Init` by `AddDoc`
and `RemoveDoc` calls, the fields map and the presence map have the same keys,
and every key of the content map or of the attributes map is a key of the
presence map. -/
theorem registry_invariant {φ ν : Type} (r : Ranker φ ν) (hr : Reachable r) :
    (∀ id, (r.fields id).isSome = true ↔ (r.docs id).isSome = true) ∧
    (∀ id, (r.content id).isSome = true → (r.docs id).isSome = true) ∧
    (∀ id, (r.attri id).isSome = true → (r.docs id).isSome = true) := by
  have hw := hr.wellFormed
  refine ⟨?_, hw.content_docs, hw.attri_docs⟩
  intro id
  rw [hw.fields_docs id]

/-- Witness for C19: the registry built by `Init` and two `AddDoc` calls. -/
theorem registry_invariant_witness :
    Reachable builtRanker ∧
    (∀ id, (builtRanker.fields id).isSome = true ↔ (builtRanker.docs id).isSome = true) :=
  ⟨builtRanker_reachable, (registry_invariant builtRanker builtRanker_reachable).1⟩

/-- C20. `Rank` is read-only: run statement by statement on a machine state,
`Rank` (and each of `RankDocID` and `RankDocs` called directly) leaves the
registry as it found it, on every path, the failing ones included: the fields,
presence, content and attributes maps, the `idOnly` mode and the `initialized`
flag are those from before the call. The lock is released as often as it is
taken, and the value returned is that of the function `Rank`. -/
theorem rank_read_only {φ ν ω : Type} (S : Sorter) (m : Machine φ ν)
    (docs : List IndexedDoc) (options : RankOpts φ) (countDocsOnly : Bool)
    (filterOpt : List (FilterOptions ν ω)) (orderAtTheEnd : Bool) :
    (Rank.run S m docs options countDocsOnly filterOpt orderAtTheEnd).2.ranker = m.ranker ∧
    ((Rank.run S m docs options countDocsOnly filterOpt orderAtTheEnd).2.ranker.fields =
        m.ranker.fields ∧
      (Rank.run S m docs options countDocsOnly filterOpt orderAtTheEnd).2.ranker.docs =
        m.ranker.docs ∧
      (Rank.run S m docs options countDocsOnly filterOpt orderAtTheEnd).2.ranker.content =
        m.ranker.content ∧
      (Rank.run S m docs options countDocsOnly filterOpt orderAtTheEnd).2.ranker.attri =
        m.ranker.attri ∧
      (Rank.run S m docs options countDocsOnly filterOpt orderAtTheEnd).2.ranker.idOnly =
        m.ranker.idOnly ∧
      (Rank.run S m docs options countDocsOnly filterOpt orderAtTheEnd).2.ranker.initialized =
        m.ranker.initialized) ∧
    (RankDocID.run S m docs options countDocsOnly).2.ranker = m.ranker ∧
    (RankDocs.run S m docs options countDocsOnly filterOpt orderAtTheEnd).2.ranker =
      m.ranker ∧
    (Rank.run S m docs options countDocsOnly filterOpt orderAtTheEnd).2.held = m.held ∧
    (Rank.run S m docs options countDocsOnly filterOpt orderAtTheEnd).1 =
      Rank S m.ranker docs options countDocsOnly filterOpt orderAtTheEnd := by
  obtain ⟨h1, h2, h3⟩ :=
    Rank_run_spec S m docs options countDocsOnly filterOpt orderAtTheEnd
  refine ⟨h2, ?_, (RankDocID_run_spec S m docs options countDocsOnly).2.1,
    (RankDocs_run_spec S m docs options countDocsOnly filterOpt orderAtTheEnd).2.1, h3, h1⟩
  rw [h2]
  exact ⟨rfl, rfl, rfl, rfl, rfl, rfl⟩

/-- C21. Mode exclusivity. On a registry produced by `Init` and any `AddDoc`
and `RemoveDoc` calls whose mode is ID-only, `AddDoc` returns normally whatever
optional arguments it receives and leaves the content and attributes maps as
they were, the mode stays ID-only, no id has content or attributes, `Rank` is
`RankDocID`, and every result `Rank` returns has the `ScoredID` shape. -/
theorem mode_exclusivity {φ ν ω : Type} (S : Sorter) (r : Ranker φ ν) (hr : Reachable r)
    (hmode : r.idOnly = true) :
    (∀ (docId : Nat) (fields : Option φ) (content : List (ContentArg ν)),
      (AddDoc r docId fields content).failure = none ∧
      (AddDoc r docId fields content).state.content = r.content ∧
      (AddDoc r docId fields content).state.attri = r.attri ∧
      (AddDoc r docId fields content).state.idOnly = true ∧
      (∀ id, (AddDoc r docId fields content).state.content id = none ∧
        (AddDoc r docId fields content).state.attri id = none)) ∧
    (∀ (docs : List IndexedDoc) (options : RankOpts φ) (countDocsOnly : Bool)
        (filterOpt : List (FilterOptions ν ω)) (orderAtTheEnd : Bool),
      Rank S r docs options countDocsOnly filterOpt orderAtTheEnd =
          (RankDocID S r docs options countDocsOnly).map
            (fun res => (RankOutput.ids res.1, res.2)) ∧
      (∀ out n, Rank S r docs options countDocsOnly filterOpt orderAtTheEnd = .ok (out, n) →
        ∃ ids : List ScoredID, out = RankOutput.ids ids) ∧
      (countDocsOnly = true ∨ InRange options →
        ∃ ids n, Rank S r docs options countDocsOnly filterOpt orderAtTheEnd =
          .ok (RankOutput.ids ids, n))) := by
  have hw := hr.wellFormed
  have hinit := hw.initialized
  obtain ⟨hc, ha⟩ := hw.bare hmode
  refine ⟨?_, ?_⟩
  · intro docId fields content
    rw [AddDoc_idOnly r docId fields content hinit hmode]
    exact ⟨rfl, rfl, rfl, hmode, fun id => ⟨hc id, ha id⟩⟩
  · intro docs options countDocsOnly filterOpt orderAtTheEnd
    have heq := Rank_idOnly S r docs options countDocsOnly filterOpt orderAtTheEnd hinit hmode
    have hshape : ∀ out n,
        Rank S r docs options countDocsOnly filterOpt orderAtTheEnd = .ok (out, n) →
        ∃ ids : List ScoredID, out = RankOutput.ids ids := by
      intro out n h
      rw [heq] at h
      cases hres : RankDocID S r docs options countDocsOnly with
      | error f => rw [hres] at h; cases h
      | ok res =>
        rw [hres] at h
        simp only [Except.map] at h
        cases h
        exact ⟨_, rfl⟩
    refine ⟨heq, hshape, ?_⟩
    intro h
    have hret := Rank_returns S r docs options countDocsOnly filterOpt orderAtTheEnd hinit
      (by rcases h with h | h
          · exact Or.inl h
          · exact Or.inr (Or.inl h))
    obtain ⟨out, n, hout⟩ := hret
    obtain ⟨ids, hids⟩ := hshape out n hout
    exact ⟨ids, n, by rw [hout, hids]⟩

/-- Witness for C21: the ID-only registry built by `Init(true)` and an `AddDoc`
with content and attributes holds neither, a further `AddDoc` with both stores
neither, and `Rank` on it is `RankDocID`. -/
theorem mode_exclusivity_witness :
    Reachable idBuiltRanker ∧ idBuiltRanker.idOnly = true ∧
    (AddDoc idBuiltRanker 2 none
      [ContentArg.str "text", ContentArg.attrs [("color", ⟨"green"⟩)]]).failure = none ∧
    (AddDoc idBuiltRanker 2 none
      [ContentArg.str "text", ContentArg.attrs [("color", ⟨"green"⟩)]]).state.content 2 =
      none ∧
    Rank smallSort idBuiltRanker [candidate 1 0] engOpts false [colorIs "red"] false =
      (RankDocID smallSort idBuiltRanker [candidate 1 0] engOpts false).map
        (fun res => (RankOutput.ids res.1, res.2)) :=
  ⟨idBuiltRanker_reachable, rfl,
    ((@mode_exclusivity _ _ Bool smallSort idBuiltRanker idBuiltRanker_reachable rfl).1 2 none
      [ContentArg.str "text", ContentArg.attrs [("color", ⟨"green"⟩)]]).1,
    (((@mode_exclusivity _ _ Bool smallSort idBuiltRanker idBuiltRanker_reachable rfl).1 2 none
      [ContentArg.str "text", ContentArg.attrs [("color", ⟨"green"⟩)]]).2.2.2.2 2).1,
    ((@mode_exclusivity _ _ Bool smallSort idBuiltRanker idBuiltRanker_reachable rfl).2
      [candidate 1 0] engOpts false [colorIs "red"] false).1⟩

/-- C22. ID-only ranking never filters: on an ID-only registry `Rank` returns
the same outcome (result list and matchedCount, or the same failure) for every
two filter lists, whatever the candidates, the options and the flags; run
statement by statement it also performs the same effects, so no comparison is
made and no filter diagnostic is logged. -/
theorem idOnly_never_filters {φ ν ω₁ ω₂ : Type} (S : Sorter) (m : Machine φ ν)
    (docs : List IndexedDoc) (options : RankOpts φ) (countDocsOnly : Bool)
    (filterOpt₁ : List (FilterOptions ν ω₁)) (filterOpt₂ : List (FilterOptions ν ω₂))
    (orderAtTheEnd : Bool) (hmode : m.ranker.idOnly = true) :
    Rank S m.ranker docs options countDocsOnly filterOpt₁ orderAtTheEnd =
      Rank S m.ranker docs options countDocsOnly filterOpt₂ orderAtTheEnd ∧
    (Rank.run S m docs options countDocsOnly filterOpt₁ orderAtTheEnd).1 =
      (Rank.run S m docs options countDocsOnly filterOpt₂ orderAtTheEnd).1 ∧
    (Rank.run S m docs options countDocsOnly filterOpt₁ orderAtTheEnd).2.trace =
      (Rank.run S m docs options countDocsOnly filterOpt₂ orderAtTheEnd).2.trace := by
  refine ⟨?_, ?_, ?_⟩
  · simp [Rank, hmode]
  · simp [Rank.run, hmode]
  · simp [Rank.run, hmode]

/-- Witness for C22: on the ID-only fixture the filter `color == red`, which
document 2 fails in the full-document fixture, changes nothing: documents 2, 5
and 1 are returned with and without it. -/
theorem idOnly_never_filters_witness :
    idRanker.idOnly = true ∧
    Rank smallSort idRanker worldCandidates (rankOptsOrder false) false
        [colorIs "red"] false =
      Rank smallSort idRanker worldCandidates (rankOptsOrder false) false noFilters false ∧
    (Rank smallSort idRanker worldCandidates (rankOptsOrder false) false
        noFilters false).map (fun res => (res.1.docIds, res.2)) = .ok ([2, 5, 1], 3) :=
  ⟨rfl,
    (idOnly_never_filters smallSort ⟨idRanker, 0, []⟩ worldCandidates (rankOptsOrder false)
      false [colorIs "red"] noFilters false rfl).1,
    by decide!⟩

/-- C23. Double initialization is fatal. `Init` on a registry whose
`initialized` flag is set fails fatally and leaves the registry, its maps
included, as it was. `Init` on a registry whose flag is not set returns normally,
sets the flag and leaves the fields and presence maps without keys; on the fresh
(zero-value) registry all four maps are without keys afterwards, the mode is the
one given, full-document mode when none is given, and a second `Init` is
fatal. -/
theorem init_once {φ ν : Type} (r : Ranker φ ν) (onlyID : List Bool) :
    (r.initialized = true →
      Init r onlyID = { state := r, failure := some Failure.fatal }) ∧
    (r.initialized = false →
      (Init r onlyID).failure = none ∧
      (Init r onlyID).state.initialized = true ∧
      (∀ id, (Init r onlyID).state.fields id = none ∧
        (Init r onlyID).state.docs id = none)) ∧
    ((Init (Ranker.zero : Ranker φ ν) onlyID).failure = none ∧
      (Init (Ranker.zero : Ranker φ ν) onlyID).state.initialized = true ∧
      (∀ id, (Init (Ranker.zero : Ranker φ ν) onlyID).state.fields id = none ∧
        (Init (Ranker.zero : Ranker φ ν) onlyID).state.docs id = none ∧
        (Init (Ranker.zero : Ranker φ ν) onlyID).state.content id = none ∧
        (Init (Ranker.zero : Ranker φ ν) onlyID).state.attri id = none) ∧
      (Init (Ranker.zero : Ranker φ ν) onlyID).state.idOnly = onlyID.headD false ∧
      (Init (Ranker.zero : Ranker φ ν) []).state.idOnly = false ∧
      ∀ again : List Bool,
        Init (Init (Ranker.zero : Ranker φ ν) onlyID).state again =
          { state := (Init (Ranker.zero : Ranker φ ν) onlyID).state,
            failure := some Failure.fatal }) := by
  refine ⟨?_, ?_, ?_⟩
  · intro h
    simp [Init, h]
  · intro h
    cases onlyID with
    | nil => cases hm : r.idOnly <;> simp [Init, h, hm, emptyMap]
    | cons b rest => cases b <;> simp [Init, h, emptyMap]
  · cases onlyID with
    | nil => simp [Init, Ranker.zero, emptyMap]
    | cons b rest => cases b <;> simp [Init, Ranker.zero, emptyMap]

/-- Witness for C23: `Init` on the initialized fixture registry is fatal and
keeps its documents; `Init` on the fresh registry succeeds. -/
theorem init_once_witness :
    fullRanker.initialized = true ∧ freshRanker.initialized = false ∧
    Init fullRanker [] = { state := fullRanker, failure := some Failure.fatal } ∧
    (Init freshRanker []).failure = none ∧
    (Init freshRanker []).state.initialized = true :=
  ⟨rfl, rfl, (init_once fullRanker []).1 rfl,
    ((init_once freshRanker []).2.1 rfl).1, ((init_once freshRanker []).2.1 rfl).2.1⟩

/-- C24. Use-before-init of the mutators is fatal: `AddDoc` and `RemoveDoc`
fail fatally exactly when the registry is not initialized, and then they leave
the registry, all four maps included, as it was. -/
theorem mutators_before_init {φ ν : Type} (r : Ranker φ ν) (docId : Nat)
    (fields : Option φ) (content : List (ContentArg ν)) :
    ((AddDoc r docId fields content).failure = some Failure.fatal ↔
      r.initialized = false) ∧
    ((RemoveDoc r docId).failure = some Failure.fatal ↔ r.initialized = false) ∧
    (r.initialized = false →
      (AddDoc r docId fields content).state = r ∧ (RemoveDoc r docId).state = r ∧
      (AddDoc r docId fields content).state.fields = r.fields ∧
      (AddDoc r docId fields content).state.docs = r.docs ∧
      (AddDoc r docId fields content).state.content = r.content ∧
      (AddDoc r docId fields content).state.attri = r.attri ∧
      (RemoveDoc r docId).state.fields = r.fields ∧
      (RemoveDoc r docId).state.docs = r.docs ∧
      (RemoveDoc r docId).state.content = r.content ∧
      (RemoveDoc r docId).state.attri = r.attri) := by
  refine ⟨?_, ?_, ?_⟩
  · cases hi : r.initialized with
    | false => simp [AddDoc, hi]
    | true =>
      simp only [iff_false, Bool.true_eq_false]
      cases hm : r.idOnly with
      | true => rw [AddDoc_idOnly r docId fields content hi hm]; simp
      | false =>
        cases content with
        | nil => rw [AddDoc_bare r docId fields hi]; simp
        | cons a rest =>
          cases a with
          | str s => rw [AddDoc_content r docId fields s rest hi hm]; simp
          | nil => simp [AddDoc, hi, hm, AddDoc.storeContent]
          | attrs c => simp [AddDoc, hi, hm, AddDoc.storeContent]
          | other t => simp [AddDoc, hi, hm, AddDoc.storeContent]
  · cases hi : r.initialized with
    | false => simp [RemoveDoc, hi]
    | true => simp [RemoveDoc_ok r docId hi]
  · intro hi
    have ha : (AddDoc r docId fields content).state = r := by simp [AddDoc, hi]
    have hd : (RemoveDoc r docId).state = r := by simp [RemoveDoc, hi]
    rw [ha, hd]
    exact ⟨rfl, rfl, rfl, rfl, rfl, rfl, rfl, rfl, rfl, rfl⟩

/-- Witness for C24: on the fresh registry `AddDoc` and `RemoveDoc` are fatal and
store nothing. -/
theorem mutators_before_init_witness :
    freshRanker.initialized = false ∧
    (AddDoc freshRanker 1 none [ContentArg.str "text"]).failure = some Failure.fatal ∧
    (RemoveDoc freshRanker 1).failure = some Failure.fatal ∧
    (AddDoc freshRanker 1 none [ContentArg.str "text"]).state.docs = freshRanker.docs :=
  ⟨rfl,
    (mutators_before_init freshRanker 1 none [ContentArg.str "text"]).1.2 rfl,
    (mutators_before_init freshRanker 1 none [ContentArg.str "text"]).2.1.2 rfl,
    ((mutators_before_init freshRanker 1 none [ContentArg.str "text"]).2.2 rfl).2.2.2.1⟩

/-- C25. Use-before-init of ranking. `Rank` on a registry that has not been
initialized is fatal. `RankDocID` and `RankDocs` have no such check: on every
registry, initialized or not, they return a result or panic in the slice
expression, and never fail fatally; on the zero-value registry, on which `Init`
was never called, they read the `nil` maps, skip every candidate and return the
empty result with matchedCount 0. -/
theorem ranking_loops_unguarded {φ ν ω : Type} (S : Sorter) (r : Ranker φ ν)
    (docs : List IndexedDoc) (options : RankOpts φ) (countDocsOnly : Bool)
    (filterOpt : List (FilterOptions ν ω)) (orderAtTheEnd : Bool) :
    (Ranker.zero : Ranker φ ν).initialized = false ∧
    Rank S (Ranker.zero : Ranker φ ν) docs options countDocsOnly filterOpt orderAtTheEnd =
      .error Failure.fatal ∧
    ((∃ res, RankDocID S r docs options countDocsOnly = .ok res) ∨
      RankDocID S r docs options countDocsOnly = .error Failure.panic) ∧
    ((∃ res, RankDocs S r docs options countDocsOnly filterOpt orderAtTheEnd = .ok res) ∨
      RankDocs S r docs options countDocsOnly filterOpt orderAtTheEnd =
        .error Failure.panic) ∧
    RankDocID S (Ranker.zero : Ranker φ ν) docs options true = .ok ([], 0) ∧
    RankDocs S (Ranker.zero : Ranker φ ν) docs options true filterOpt orderAtTheEnd =
      .ok ([], 0) ∧
    RankDocs S (Ranker.zero : Ranker φ ν) docs options false filterOpt true = .ok ([], 0) ∧
    RankDocID smallSort (Ranker.zero : Ranker φ ν) docs
      { options with OutputOffset := 0, MaxOutputs := 0 } false = .ok ([], 0) ∧
    RankDocs smallSort (Ranker.zero : Ranker φ ν) docs
      { options with OutputOffset := 0, MaxOutputs := 0 } false filterOpt false =
      .ok ([], 0) := by
  refine ⟨rfl, by simp [Rank, Ranker.zero], ?_, ?_, ?_, ?_, ?_, ?_, ?_⟩
  · cases countDocsOnly with
    | true => rw [RankDocID_counting]; exact Or.inl ⟨_, rfl⟩
    | false => rw [RankDocID_sorting]; exact paginate_ok_or_panic _ _ _
  · cases countDocsOnly with
    | true => rw [RankDocs_counting]; exact Or.inl ⟨_, rfl⟩
    | false =>
      cases orderAtTheEnd with
      | true => rw [RankDocs_deferred]; exact Or.inl ⟨_, rfl⟩
      | false => rw [RankDocs_sorting]; exact paginate_ok_or_panic _ _ _
  · rw [RankDocID_counting, scoredCount_zero]
  · rw [RankDocs_counting, scoredCount_zero]
  · rw [RankDocs_deferred, survivingDocs_zero]; rfl
  · rw [RankDocID_sorting, survivingIDs_zero]
    cases hrev : options.ReverseOrder <;> rfl
  · rw [RankDocs_sorting, survivingDocs_zero]
    cases hrev : options.ReverseOrder <;> rfl

/-- C26. Scenario A. On the full-document registry built by `Init()`,
`AddDoc(1, {A:1, B:2, C:3})` and `AddDoc(2, nil)`, with `TestScoringCriteria`
and the default options, `Rank([c1, c2], options, false, nil, false)` for a
candidate `c1` of document 1 with token proximity 0 and a candidate `c2` of
document 2 returns exactly one record, that of document 1 with the single score
6, and matchedCount 1. -/
theorem scenario_A (S : Sorter) (hS : S.Lawful) (c1 c2 : IndexedDoc)
    (h1 : c1.DocId = 1) (hp : c1.TokenProximity = 0) (h2 : c2.DocId = 2) :
    Rank S scenarioRanker [c1, c2] engOpts false noFilters false =
      .ok (RankOutput.docs
        [{ DocId := 1, Fields := some (FieldValue.scoring ⟨1, 2, 3⟩), Content := "",
           Attri := [], Scores := [6], TokenSnippetLocs := c1.TokenSnippetLocs,
           TokenLocs := c1.TokenLocs }], 1) := by
  obtain ⟨id1, p1, b1, s1, t1⟩ := c1
  obtain ⟨id2, p2, b2, s2, t2⟩ := c2
  simp only at h1 hp h2
  subst h1 hp h2
  have hsurv : survivingDocs scenarioRanker engOpts noFilters
      [⟨1, 0, b1, s1, t1⟩, ⟨2, p2, b2, s2, t2⟩] =
      [{ DocId := 1, Fields := some (FieldValue.scoring ⟨1, 2, 3⟩), Content := "",
         Attri := [], Scores := [6], TokenSnippetLocs := s1, TokenLocs := t1 }] := by
    simp [survivingDocs, scored, present, scoresOf, excluded, docRecord, scenarioRanker,
      AddDoc, Init, Ranker.zero, emptyMap, mapSet, AddDoc.storeContent, AddDoc.storeAttri,
      Ranker.fieldsAt, Ranker.contentAt, Ranker.attriAt, engOpts, TestScoringCriteria,
      noFilters, RankDocs.overFlag]
    decide!
  rw [Rank_noCut S hS scenarioRanker _ engOpts noFilters rfl ⟨rfl, Or.inl rfl⟩]
  have hmode : scenarioRanker.idOnly = false := rfl
  simp only [sortedSurvivors, survivors, hmode, hsurv, lawful_sort_singleton S hS,
    RankOutput.length, List.length_singleton]
  rfl

/-- Witness for C26: Scenario A with the sorter for small inputs and candidates
without token locations. -/
theorem scenario_A_witness :
    smallSort.Lawful ∧ (candidate 1 0).DocId = 1 ∧ (candidate 1 0).TokenProximity = 0 ∧
    (candidate 2 0).DocId = 2 ∧
    Rank smallSort scenarioRanker [candidate 1 0, candidate 2 0] engOpts false noFilters
        false =
      .ok (RankOutput.docs
        [{ DocId := 1, Fields := some (FieldValue.scoring ⟨1, 2, 3⟩), Content := "",
           Attri := [], Scores := [6], TokenSnippetLocs := [], TokenLocs := [] }], 1) :=
  ⟨smallSort_lawful, rfl, rfl, rfl,
    scenario_A smallSort smallSort_lawful (candidate 1 0) (candidate 2 0) rfl rfl rfl⟩

/-- C27. Shape-tolerant scoring. For every candidate and every fields value,
the bodies of `TestScoringCriteria.Score` and `BM25ScoringCriteria.Score` return
without panic, the type assertion never failing behind the type test. For a
fields value that is not a `ScoringFields`, `nil` included, both return the empty
sequence; for a `ScoringFields` value they return exactly one score,
`TokenProximity * A + B * C` and the candidate's `BM25` respectively. -/
theorem shape_tolerant_scoring (doc : IndexedDoc) (fields : Option FieldValue) :
    TestScoringCriteria.run doc fields = .ok (TestScoringCriteria.Score doc fields) ∧
    BM25ScoringCriteria.run doc fields = .ok (BM25ScoringCriteria.Score doc fields) ∧
    ((∀ fs, fields ≠ some (FieldValue.scoring fs)) →
      TestScoringCriteria.Score doc fields = [] ∧
      BM25ScoringCriteria.Score doc fields = []) ∧
    TestScoringCriteria.Score doc none = [] ∧
    BM25ScoringCriteria.Score doc none = [] ∧
    (∀ fs, fields = some (FieldValue.scoring fs) →
      TestScoringCriteria.Score doc fields =
        [(doc.TokenProximity : Score) * fs.A + fs.B * fs.C] ∧
      BM25ScoringCriteria.Score doc fields = [doc.BM25]) := by
  refine ⟨?_, ?_, ?_, rfl, rfl, ?_⟩
  · cases fields with
    | none => rfl
    | some v => cases v <;> rfl
  · cases fields with
    | none => rfl
    | some v => cases v <;> rfl
  · intro h
    cases fields with
    | none => exact ⟨rfl, rfl⟩
    | some v =>
      cases v with
      | scoring fs => exact absurd rfl (h fs)
      | other tag => exact ⟨rfl, rfl⟩
  · intro fs h
    subst h
    exact ⟨rfl, rfl⟩

/-- Witness for C27: a fields value of another type gives no score; the
fields `{A:1, B:2, C:3}` give the score `3 * 1 + 2 * 3 = 9`. -/
theorem shape_tolerant_scoring_witness :
    (∀ fs, some (FieldValue.other 7) ≠ some (FieldValue.scoring fs)) ∧
    TestScoringCriteria.Score (candidate 1 3) (some (FieldValue.other 7)) = [] ∧
    BM25ScoringCriteria.Score (candidate 1 3) (some (FieldValue.other 7)) = [] ∧
    TestScoringCriteria.Score (candidate 1 3) (some (FieldValue.scoring ⟨1, 2, 3⟩)) =
      [((candidate 1 3).TokenProximity : Score) * 1 + 2 * 3] :=
  ⟨(fun _ h => by cases h),
    ((shape_tolerant_scoring (candidate 1 3) (some (FieldValue.other 7))).2.2.1
      (fun _ h => by cases h)).1,
    ((shape_tolerant_scoring (candidate 1 3) (some (FieldValue.other 7))).2.2.1
      (fun _ h => by cases h)).2,
    ((shape_tolerant_scoring (candidate 1 3) (some (FieldValue.scoring ⟨1, 2, 3⟩))).2.2.2.2.2
      ⟨1, 2, 3⟩ rfl).1⟩

/-- Counterexample to C28 as stated: the token proximities 16777216 and 16777217
(2^24 and 2^24 + 1) get the same score, 2^-24, because `float32` cannot tell
the two integers apart, so the score is not strictly decreasing; and token
proximity 2 gets the `float32` nearest to 1/3, which is 11184811/33554432 and
not 1/3. -/
theorem proximity_rounding_counterexample :
    RankByTokenProximity.Score (candidate 1 16777216) none = [Score.num (1 / 16777216)] ∧
    RankByTokenProximity.Score (candidate 1 16777217) none = [Score.num (1 / 16777216)] ∧
    ¬ primary (RankByTokenProximity.Score (candidate 1 16777217) none) <
      primary (RankByTokenProximity.Score (candidate 1 16777216) none) ∧
    RankByTokenProximity.Score (candidate 2 2) none =
      [Score.num (11184811 / 33554432)] ∧
    (11184811 / 33554432 : ℚ) ≠ 1 / 3 := by
  decide!

/-- C28, amended. Proximity scoring. For every candidate and every fields value,
`RankByTokenProximity.Score` returns the empty sequence exactly when
`TokenProximity < 0`; for a token proximity from 0 up to the largest Go `int`
it returns exactly one score, the `float32` quotient
`1.0 / (float32(TokenProximity) + 1)` with the conversion, the sum and the
quotient each rounded to the nearest `float32`; that score is a finite number,
positive and at most 1; and of two candidates with such token proximities the
one with the larger proximity has a score that is less or equal (not always
less). -/
theorem proximity_scoring (doc : IndexedDoc) (fields : Option FieldValue) :
    (RankByTokenProximity.Score doc fields = [] ↔ doc.TokenProximity < 0) ∧
    (0 ≤ doc.TokenProximity → doc.TokenProximity ≤ maxInt →
      ∃ v : ℚ, RankByTokenProximity.Score doc fields = [Score.num v] ∧
        Score.num v = 1 / ((doc.TokenProximity : Score) + 1) ∧
        0 < v ∧ v ≤ 1 ∧ (0 : Score) < Score.num v ∧ Score.num v ≤ 1) ∧
    (∀ (other : IndexedDoc) (fields' : Option FieldValue),
      0 ≤ doc.TokenProximity → doc.TokenProximity ≤ other.TokenProximity →
      other.TokenProximity ≤ maxInt →
      primary (RankByTokenProximity.Score other fields') ≤
        primary (RankByTokenProximity.Score doc fields)) := by
  have hscore : ∀ (d : IndexedDoc) (f : Option FieldValue), 0 ≤ d.TokenProximity →
      RankByTokenProximity.Score d f = [1 / ((d.TokenProximity : Score) + 1)] := by
    intro d f h
    simp [RankByTokenProximity, not_lt.mpr h]
  refine ⟨?_, ?_, ?_⟩
  · by_cases h : doc.TokenProximity < 0
    · simp [RankByTokenProximity, h]
    · simp [RankByTokenProximity, h]
  · intro h hmax
    obtain ⟨hv, h1, h64⟩ := proximity_value doc.TokenProximity h hmax
    obtain ⟨hv0, hv1⟩ := roundPos_reciprocal _ h1 h64
    refine ⟨_, ?_, hv.symm, hv0, hv1, ?_, ?_⟩
    · rw [hscore doc fields h, hv]
    · exact Score.num_pos _ hv0
    · exact Score.num_le_one _ hv1
  · intro other fields' h hle hmax
    obtain ⟨hv, _, _⟩ := proximity_value doc.TokenProximity h (le_trans hle hmax)
    obtain ⟨hv', _, _⟩ := proximity_value other.TokenProximity (le_trans h hle) hmax
    rw [hscore doc fields h, hscore other fields' (le_trans h hle)]
    simp only [primary, List.headD_cons]
    rw [hv, hv']
    exact Score.num_le_num _ _ (proximity_value_mono _ _ h hle hmax)

/-- Witness for C28 (amended): token proximity 2 gives one score, a positive
number, and the score of token proximity 11 is not above it. -/
theorem proximity_scoring_witness :
    (0 : Int) ≤ (candidate 2 2).TokenProximity ∧
    (candidate 2 2).TokenProximity ≤ (candidate 5 11).TokenProximity ∧
    (candidate 5 11).TokenProximity ≤ maxInt ∧
    primary (RankByTokenProximity.Score (candidate 5 11) none) ≤
      primary (RankByTokenProximity.Score (candidate 2 2) none) :=
  ⟨by decide, by decide, by decide!,
    (proximity_scoring (candidate 2 2) none).2.2 (candidate 5 11) none (by decide)
      (by decide) (by decide!)⟩

/-- C30. Log retention limit. With room for one rotated file, a directory that
holds one rotated file written in the past and one dated into the future is left
as it is by `cleanUpLog`: nothing is removed and two rotated files remain. The
files dated into the future are removed only in the branch
`len(fl) > t.maxFile`, which counts the other files alone. Without such files
the limit is kept: of three rotated files the most recently modified one
remains. -/
theorem retention_limit_exceeded :
    cleanUpLog smallSort literalRegexp testHandler (some futureListing) 1000 =
      .ok { err := none, removed := [] } ∧
    rotated literalRegexp testHandler (remaining futureListing []) =
      [{ Name := "test_1970_01_01.log", IsDir := false, ModTime := 500 },
       { Name := "test_1970_01_02.log", IsDir := false, ModTime := 4600 }] ∧
    testHandler.maxFile = 1 ∧
    cleanUpLog smallSort literalRegexp testHandler (some pastListing) 1000 =
      .ok { err := none,
            removed := [{ name := "test_1970_01_02.log", modTime := 600 },
                        { name := "test_1970_01_01.log", modTime := 500 }] } ∧
    rotated literalRegexp testHandler
        (remaining pastListing [{ name := "test_1970_01_02.log", modTime := 600 },
                                { name := "test_1970_01_01.log", modTime := 500 }]) =
      [{ Name := "test_1970_01_03.log", IsDir := false, ModTime := 700 }] := by
  refine ⟨by decide, by decide, rfl, by decide, by decide⟩

/-- C31. Lock discipline per candidate. With the read lock as a hold counter,
one iteration of the loop of `RankDocs` and of `RankDocID`, from any state and
for any candidate (present and scored, present without score, excluded by a
filter, absent), extends the trace by `RLock`, `RUnlock` and then effects among
which there is no lock operation, and leaves the counter as it found it: the
lock is acquired exactly once and released exactly once. Every call of `Score`
and of a filter's `Compare` sees the counter at its value from before the
iteration. Started with the lock not held, a whole run takes and releases the
lock once per candidate and makes every such call with the lock not held. -/
theorem lock_discipline {φ ν ω : Type} (options : RankOpts φ) (countDocsOnly : Bool)
    (filterOpt : List (FilterOptions ν ω)) (m : Machine φ ν)
    (outD : List (ScoredDoc φ ν) × Nat) (outI : List ScoredID × Nat) (d : IndexedDoc) :
    (∃ rest, (RankDocs.visitRun options countDocsOnly filterOpt (outD, m) d).2.trace =
        m.trace ++ Event.rlock :: Event.runlock :: rest ∧
      (∀ e ∈ rest, e.isLock = false) ∧
      (Event.rlock :: Event.runlock :: rest).count Event.rlock = 1 ∧
      (Event.rlock :: Event.runlock :: rest).count Event.runlock = 1 ∧
      ∀ e ∈ rest, ∀ k, e.callHeld = some k → k = m.held) ∧
    (RankDocs.visitRun options countDocsOnly filterOpt (outD, m) d).2.held = m.held ∧
    (∃ rest, (RankDocID.visitRun options countDocsOnly (outI, m) d).2.trace =
        m.trace ++ Event.rlock :: Event.runlock :: rest ∧
      (∀ e ∈ rest, e.isLock = false) ∧
      (Event.rlock :: Event.runlock :: rest).count Event.rlock = 1 ∧
      (Event.rlock :: Event.runlock :: rest).count Event.runlock = 1 ∧
      ∀ e ∈ rest, ∀ k, e.callHeld = some k → k = m.held) ∧
    (RankDocID.visitRun options countDocsOnly (outI, m) d).2.held = m.held ∧
    (m.held = 0 → ∀ (S : Sorter) (docs : List IndexedDoc) (orderAtTheEnd : Bool),
      (∃ tail, (RankDocs.run S m docs options countDocsOnly filterOpt orderAtTheEnd).2.trace =
          m.trace ++ tail ∧
        tail.count Event.rlock = docs.length ∧ tail.count Event.runlock = docs.length ∧
        ∀ e ∈ tail, ∀ k, e.callHeld = some k → k = 0) ∧
      (∃ tail, (RankDocID.run S m docs options countDocsOnly).2.trace = m.trace ++ tail ∧
        tail.count Event.rlock = docs.length ∧ tail.count Event.runlock = docs.length ∧
        ∀ e ∈ tail, ∀ k, e.callHeld = some k → k = 0)) := by
  refine ⟨?_, (RankDocs_visitRun_spec options countDocsOnly filterOpt (outD, m) d).2.2, ?_,
    (RankDocID_visitRun_spec options countDocsOnly (outI, m) d).2.2, ?_⟩
  · obtain ⟨rest, h1, h2⟩ :=
      RankDocs_visitRun_trace options countDocsOnly filterOpt (outD, m) d
    obtain ⟨c1, c2⟩ := count_lock_of_not_isLock rest (fun e he => (h2 e he).1)
    exact ⟨rest, h1, fun e he => (h2 e he).1, by simp [List.count_cons, c1],
      by simp [List.count_cons, c2], fun e he => (h2 e he).2⟩
  · obtain ⟨rest, h1, h2⟩ := RankDocID_visitRun_trace options countDocsOnly (outI, m) d
    obtain ⟨c1, c2⟩ := count_lock_of_not_isLock rest (fun e he => (h2 e he).1)
    exact ⟨rest, h1, fun e he => (h2 e he).1, by simp [List.count_cons, c1],
      by simp [List.count_cons, c2], fun e he => (h2 e he).2⟩
  · intro h0 S docs orderAtTheEnd
    constructor
    · obtain ⟨tail, t1, t2, t3, t4⟩ :=
        fold_trace (RankDocs.visitRun options countDocsOnly filterOpt)
          (fun st d => (RankDocs_visitRun_spec options countDocsOnly filterOpt st d).2.2)
          (fun st d => RankDocs_visitRun_trace options countDocsOnly filterOpt st d)
          docs ((([] : List (ScoredDoc φ ν)), 0), m)
      refine ⟨tail, ?_, t2, t3, fun e he k hk => by rw [← h0]; exact t4 e he k hk⟩
      simp only [RankDocs.run]
      split <;> exact t1
    · obtain ⟨tail, t1, t2, t3, t4⟩ :=
        fold_trace (RankDocID.visitRun options countDocsOnly)
          (fun st d => (RankDocID_visitRun_spec options countDocsOnly st d).2.2)
          (fun st d => RankDocID_visitRun_trace options countDocsOnly st d)
          docs ((([] : List ScoredID), 0), m)
      refine ⟨tail, ?_, t2, t3, fun e he k hk => by rw [← h0]; exact t4 e he k hk⟩
      simp only [RankDocID.run]
      split <;> exact t1

/-- Witness for C31: on the fixture registry, started with the lock not held,
the run over the three candidates of the test query with the filter
`color == red` takes and releases the read lock three times. -/
theorem lock_discipline_witness :
    (⟨fullRanker, 0, []⟩ : Machine FieldValue String).held = 0 ∧
    ∃ tail, (RankDocs.run smallSort ⟨fullRanker, 0, []⟩ worldCandidates (rankOptsOrder false)
        false [colorIs "red"] false).2.trace = [] ++ tail ∧
      tail.count Event.rlock = 3 ∧ tail.count Event.runlock = 3 ∧
      ∀ e ∈ tail, ∀ k, e.callHeld = some k → k = 0 :=
  ⟨rfl,
    ((lock_discipline (rankOptsOrder false) false [colorIs "red"] ⟨fullRanker, 0, []⟩
      ([], 0) ([], 0) (candidate 1 14)).2.2.2.2 rfl smallSort worldCandidates false).1⟩

/-- C32. Future-dated log files. In the fixture directory the rotated file
`test_1970_01_02.log` matches the handler's filename and is dated more than 60
seconds after the current time, yet for every limit `maxFile` of one or more
`cleanUpLog` selects nothing for removal: the removals, those of the
future-dated files included, stand in the branch `len(fl) > t.maxFile`, and the
directory holds one other rotated file only. With the limit 0 that branch is
taken and the file is removed. -/
theorem future_dated_files_kept (k : Nat) :
    ({ Name := "test_1970_01_02.log", IsDir := false, ModTime := 4600 } : FileInfo) ∈
      rotated literalRegexp (NewRotateHandler "logs" "test" "log" ((k : Int) + 1))
        futureListing ∧
    (4600 : Int) > 1000 + 60 ∧
    cleanUpLog smallSort literalRegexp (NewRotateHandler "logs" "test" "log" ((k : Int) + 1))
        (some futureListing) 1000 =
      .ok { err := none, removed := [] } ∧
    cleanUpLog smallSort literalRegexp (NewRotateHandler "logs" "test" "log" 0)
        (some futureListing) 1000 =
      .ok { err := none,
            removed := [{ name := "test_1970_01_01.log", modTime := 500 },
                        { name := "test_1970_01_02.log", modTime := 4600 }] } := by
  have hrot : rotated literalRegexp (NewRotateHandler "logs" "test" "log" ((k : Int) + 1))
      futureListing = rotated literalRegexp testHandler futureListing := rfl
  have hcollect : cleanUpLog.collect literalRegexp
      (NewRotateHandler "logs" "test" "log" ((k : Int) + 1)) 1000 futureListing ([], []) =
      .ok ([{ name := "test_1970_01_01.log", modTime := 500 }],
        [{ name := "test_1970_01_02.log", modTime := 4600 }]) := by
    have h : cleanUpLog.collect literalRegexp
        (NewRotateHandler "logs" "test" "log" ((k : Int) + 1)) 1000 futureListing ([], []) =
        cleanUpLog.collect literalRegexp testHandler 1000 futureListing ([], []) := rfl
    rw [h]
    decide
  refine ⟨by rw [hrot]; decide, by decide, ?_, by decide⟩
  simp only [cleanUpLog, hcollect]
  have hlen : (smallSort.sort fileList.Less
      [({ name := "test_1970_01_01.log", modTime := 500 } : simpleFileInfo)]).length = 1 := by
    decide
  rw [hlen]
  have hk : ¬ (((1 : Nat) : Int) >
      (NewRotateHandler "logs" "test" "log" ((k : Int) + 1)).maxFile) := by
    simp only [NewRotateHandler]
    omega
  rw [if_neg hk]

/-- C33. The count is the length before pagination. With countOnly=false the
loops of `RankDocs` and `RankDocID` end with `numDocs` equal to the length of
`outputDocs`. For every result that `RankDocs` or `RankDocID` returns,
matchedCount is that length, the returned list is not longer than matchedCount,
and matchedCount is not larger than the number of candidates; with deferSort,
or with `OutputOffset = 0` and `MaxOutputs = 0`, a result is returned and its
length is matchedCount. -/
theorem matchedCount_is_length {φ ν ω : Type} (S : Sorter) (hS : S.Lawful)
    (r : Ranker φ ν) (docs : List IndexedDoc) (options : RankOpts φ)
    (filterOpt : List (FilterOptions ν ω)) (orderAtTheEnd : Bool) :
    (docs.foldl (RankDocs.visit r options false filterOpt) ([], 0)).2 =
      (docs.foldl (RankDocs.visit r options false filterOpt) ([], 0)).1.length ∧
    (docs.foldl (RankDocID.visit r options false) ([], 0)).2 =
      (docs.foldl (RankDocID.visit r options false) ([], 0)).1.length ∧
    (∀ out n, RankDocs S r docs options false filterOpt orderAtTheEnd = .ok (out, n) →
      n = (docs.foldl (RankDocs.visit r options false filterOpt) ([], 0)).1.length ∧
      out.length ≤ n ∧ n ≤ docs.length ∧
      (orderAtTheEnd = true → out.length = n) ∧
      (options.OutputOffset = 0 → options.MaxOutputs = 0 → out.length = n)) ∧
    (∀ out n, RankDocID S r docs options false = .ok (out, n) →
      n = (docs.foldl (RankDocID.visit r options false) ([], 0)).1.length ∧
      out.length ≤ n ∧ n ≤ docs.length ∧
      (options.OutputOffset = 0 → options.MaxOutputs = 0 → out.length = n)) ∧
    (orderAtTheEnd = true ∨ (options.OutputOffset = 0 ∧ options.MaxOutputs = 0) →
      ∃ out n, RankDocs S r docs options false filterOpt orderAtTheEnd = .ok (out, n)) ∧
    (options.OutputOffset = 0 ∧ options.MaxOutputs = 0 →
      ∃ out n, RankDocID S r docs options false = .ok (out, n)) := by
  obtain ⟨hdl, hil⟩ := surviving_length_le r options filterOpt docs
  refine ⟨?_, ?_, ?_, ?_, ?_, ?_⟩
  · rw [RankDocs_loop_output]; simp
  · rw [RankDocID_loop_output]; simp
  · intro out n h
    rw [RankDocs_loop_output]
    simp only [List.nil_append]
    cases orderAtTheEnd with
    | true =>
      rw [RankDocs_deferred] at h
      cases h
      exact ⟨rfl, le_refl _, hdl, fun _ => rfl, fun _ _ => rfl⟩
    | false =>
      rw [RankDocs_sorting] at h
      obtain ⟨hn, hle, hall⟩ := paged_result S hS options _ _ _ _ _ h
      subst hn
      exact ⟨rfl, hle, hdl, (fun hfalse => by cases hfalse), hall⟩
  · intro out n h
    rw [RankDocID_loop_output]
    simp only [List.nil_append]
    rw [RankDocID_sorting] at h
    obtain ⟨hn, hle, hall⟩ := paged_result S hS options _ _ _ _ _ h
    subst hn
    exact ⟨rfl, hle, hil, hall⟩
  · intro h
    cases orderAtTheEnd with
    | true => rw [RankDocs_deferred]; exact ⟨_, _, rfl⟩
    | false =>
      rcases h with h | ⟨hoff, hmax⟩
      · cases h
      · rw [RankDocs_sorting, page_eq_paginate, page_whole options _ hoff hmax]
        exact ⟨_, _, rfl⟩
  · intro ⟨hoff, hmax⟩
    rw [RankDocID_sorting, page_eq_paginate, page_whole options _ hoff hmax]
    exact ⟨_, _, rfl⟩

/-- Witness for C33: the test query on the fixture registry with the filter
`color == red`, which excludes document 2: two records, matchedCount 2. -/
theorem matchedCount_is_length_witness :
    smallSort.Lawful ∧
    RankDocs smallSort fullRanker worldCandidates (rankOptsOrder false) false
        [colorIs "red"] true =
      .ok ([docRecord fullRanker (rankOptsOrder false) (candidate 1 14),
            docRecord fullRanker (rankOptsOrder false) (candidate 5 11)], 2) ∧
    [docRecord fullRanker (rankOptsOrder false) (candidate 1 14),
      docRecord fullRanker (rankOptsOrder false) (candidate 5 11)].length = 2 :=
  ⟨smallSort_lawful, by decide!,
    ((matchedCount_is_length smallSort smallSort_lawful fullRanker worldCandidates
      (rankOptsOrder false) [colorIs "red"] true).2.2.1 _ 2 (by decide!)).2.2.2.1 rfl⟩

/-- C34. Filter order independence. For every registry, candidate list, option
record and flags, `RankDocs` (and `Rank`) returns the same outcome, documents and
matchedCount, for every two filter lists that are permutations of each other;
and the filter step finds no excluding filter in the `nil` list as in the empty
one, being the loop over the list whichever of the two it is given. -/
theorem filter_order_independence {φ ν ω : Type} (S : Sorter) (r : Ranker φ ν)
    (docs : List IndexedDoc) (options : RankOpts φ) (countDocsOnly : Bool)
    (filterOpt filterOpt' : List (FilterOptions ν ω)) (orderAtTheEnd : Bool)
    (hperm : filterOpt.Perm filterOpt') :
    RankDocs S r docs options countDocsOnly filterOpt orderAtTheEnd =
      RankDocs S r docs options countDocsOnly filterOpt' orderAtTheEnd ∧
    Rank S r docs options countDocsOnly filterOpt orderAtTheEnd =
      Rank S r docs options countDocsOnly filterOpt' orderAtTheEnd ∧
    (∀ attri : AttrMap ν,
      RankDocs.overFlagOf attri (none : Option (List (FilterOptions ν ω))) =
        RankDocs.overFlagOf attri (some ([] : List (FilterOptions ν ω)))) ∧
    (∀ (attri : AttrMap ν) (given : Option (List (FilterOptions ν ω))),
      RankDocs.overFlagOf attri given = RankDocs.overFlag attri (given.getD [])) := by
  have h : ∀ d ∈ docs, RankDocs.overFlag (r.attriAt d.DocId) filterOpt =
      RankDocs.overFlag (r.attriAt d.DocId) filterOpt' :=
    fun d _ => overFlag_perm _ _ _ hperm
  refine ⟨RankDocs_filters_congr S r docs options countDocsOnly _ _ orderAtTheEnd h,
    Rank_filters_congr S r docs options countDocsOnly _ _ orderAtTheEnd h, ?_, ?_⟩
  · intro attri
    rfl
  · intro attri given
    cases given <;> rfl

/-- Witness for C34: the filters `color == red` and `size == L` in either
order leave documents 1 and 5 of the test query. -/
theorem filter_order_independence_witness :
    [colorIs "red", sizeIs "L"].Perm [sizeIs "L", colorIs "red"] ∧
    RankDocs smallSort fullRanker worldCandidates (rankOptsOrder false) false
        [colorIs "red", sizeIs "L"] false =
      RankDocs smallSort fullRanker worldCandidates (rankOptsOrder false) false
        [sizeIs "L", colorIs "red"] false ∧
    (RankDocs smallSort fullRanker worldCandidates (rankOptsOrder false) false
        [sizeIs "L", colorIs "red"] false).map
          (fun res => (res.1.map (fun x => x.DocId), res.2)) = .ok ([5, 1], 2) :=
  ⟨List.Perm.swap _ _ _,
    (filter_order_independence smallSort fullRanker worldCandidates (rankOptsOrder false)
      false [colorIs "red", sizeIs "L"] [sizeIs "L", colorIs "red"] false
      (List.Perm.swap _ _ _)).1,
    by decide!⟩

/-- C35. Pages tile the result. For every sorted result list, every offset
`o ≥ 0` and all limits `k1, k2 > 0` with `o + k1 + k2` a Go `int`, the pages for
`(o, k1)`, `(o + k1, k2)` and `(o, k1 + k2)` are all returned, and the first
followed by the second is the third. The page for `(o, 0)` is the page for
`(o, K)` for every limit `K` of at least `n - o` whose sum with `o` does not
overflow. The list that `RankDocs` and `RankDocID` cut their page from does not
depend on offset and limit. -/
theorem pages_tile {α φ ν ω : Type} (options : RankOpts φ) (sorted : List α)
    (o k1 k2 : Int) (ho : 0 ≤ o) (h1 : 0 < k1) (h2 : 0 < k2)
    (hsum : o + k1 + k2 ≤ maxInt) :
    (∃ p1 p2 p, page (withPage options o k1) sorted = .ok p1 ∧
      page (withPage options (o + k1) k2) sorted = .ok p2 ∧
      page (withPage options o (k1 + k2)) sorted = .ok p ∧ p1 ++ p2 = p) ∧
    (∀ K : Int, 0 ≤ K → (sorted.length : Int) - o ≤ K → o + K ≤ maxInt →
      page (withPage options o 0) sorted = page (withPage options o K) sorted) ∧
    (∀ (S : Sorter) (r : Ranker φ ν) (docs : List IndexedDoc)
        (filterOpt : List (FilterOptions ν ω)) (off lim : Int),
      RankDocs S r docs (withPage options off lim) false filterOpt false =
        (page (withPage options off lim)
          (S.sort (direction options.ReverseOrder ScoredDocs.Less)
            (survivingDocs r options filterOpt docs))).map
          (fun p => (p, (survivingDocs r options filterOpt docs).length)) ∧
      RankDocID S r docs (withPage options off lim) false =
        (page (withPage options off lim)
          (S.sort (direction options.ReverseOrder ScoredIDs.Less)
            (survivingIDs r options docs))).map
          (fun p => (p, (survivingIDs r options docs).length))) := by
  obtain ⟨o', rfl⟩ := Int.eq_ofNat_of_zero_le ho
  obtain ⟨a, rfl⟩ := Int.eq_ofNat_of_zero_le (le_of_lt h1)
  obtain ⟨b, rfl⟩ := Int.eq_ofNat_of_zero_le (le_of_lt h2)
  have ha : a ≠ 0 := by omega
  have hb : b ≠ 0 := by omega
  refine ⟨?_, ?_, ?_⟩
  · refine ⟨(sorted.drop o').take a, (sorted.drop (o' + a)).take b,
      (sorted.drop o').take (a + b), page_limited options sorted o' a ha (by omega), ?_, ?_, ?_⟩
    · have h := page_limited options sorted (o' + a) b hb (by push_cast; omega)
      rw [Nat.cast_add] at h
      exact h
    · have h := page_limited options sorted o' (a + b) (by omega) (by push_cast; omega)
      rw [Nat.cast_add] at h
      exact h
    · rw [List.take_add, List.drop_drop]
  · intro K hK hn hmax
    obtain ⟨c, rfl⟩ := Int.eq_ofNat_of_zero_le hK
    by_cases hc : c = 0
    · subst hc; rfl
    · rw [page_unlimited, page_limited options sorted o' c hc hmax]
      rw [List.take_of_length_le]
      simp only [List.length_drop]
      omega
  · intro S r docs filterOpt off lim
    exact ⟨RankDocs_sorting S r docs (withPage options off lim) filterOpt,
      RankDocID_sorting S r docs (withPage options off lim)⟩

/-- Witness for C35: five results; the page of one result from offset 1 followed
by the page of two results from offset 2 is the page of three results from
offset 1. -/
theorem pages_tile_witness :
    (0 : Int) ≤ 1 ∧ (0 : Int) < 1 ∧ (0 : Int) < 2 ∧ (1 : Int) + 1 + 2 ≤ maxInt ∧
    page (withPage (rankOptsOrder false) 1 1) [10, 20, 30, 40, 50] = .ok [20] ∧
    page (withPage (rankOptsOrder false) (1 + 1) 2) [10, 20, 30, 40, 50] = .ok [30, 40] ∧
    page (withPage (rankOptsOrder false) 1 (1 + 2)) [10, 20, 30, 40, 50] =
      .ok [20, 30, 40] ∧
    page (withPage (rankOptsOrder false) 1 0) [10, 20, 30, 40, 50] =
      page (withPage (rankOptsOrder false) 1 7) [10, 20, 30, 40, 50] :=
  ⟨by decide, by decide, by decide, by decide, by decide, by decide, by decide,
    (@pages_tile Nat FieldValue String Bool (rankOptsOrder false) [10, 20, 30, 40, 50] 1 1 2
      (by decide) (by decide) (by decide) (by decide)).2.1 7 (by decide) (by decide)
      (by decide)⟩

/-- C36. Sorting neither drops nor duplicates. For every registry, candidate
list, filter list and option record with `OutputOffset = 0` and
`MaxOutputs = 0`, `RankDocs` returns a list with deferSort=false and a list with
deferSort=true, with the same matchedCount, and the first is a permutation of
the second. -/
theorem sorting_permutes {φ ν ω : Type} (S : Sorter) (hS : S.Lawful) (r : Ranker φ ν)
    (docs : List IndexedDoc) (options : RankOpts φ) (filterOpt : List (FilterOptions ν ω))
    (hoff : options.OutputOffset = 0) (hmax : options.MaxOutputs = 0) :
    ∃ sorted unsorted n,
      RankDocs S r docs options false filterOpt false = .ok (sorted, n) ∧
      RankDocs S r docs options false filterOpt true = .ok (unsorted, n) ∧
      sorted.Perm unsorted ∧ sorted.length = unsorted.length ∧
      (∀ x, x ∈ sorted ↔ x ∈ unsorted) := by
  refine ⟨S.sort (direction options.ReverseOrder ScoredDocs.Less)
      (survivingDocs r options filterOpt docs),
    survivingDocs r options filterOpt docs,
    (survivingDocs r options filterOpt docs).length, ?_, ?_, hS.perm _ _,
    (hS.perm _ _).length_eq, ?_⟩
  · rw [RankDocs_sorting, page_eq_paginate, page_whole options _ hoff hmax]
    rfl
  · rw [RankDocs_deferred]
  · intro x
    exact (hS.perm _ _).mem_iff

/-- Witness for C36: five candidates on the fixture registry with
`TestScoringCriteria`; documents 1, 4 and 5 are scored, sorted or not. -/
theorem sorting_permutes_witness :
    smallSort.Lawful ∧ engOpts.OutputOffset = 0 ∧ engOpts.MaxOutputs = 0 ∧
    ∃ sorted unsorted n,
      RankDocs smallSort fullRanker fiveCandidates engOpts false noFilters false =
        .ok (sorted, n) ∧
      RankDocs smallSort fullRanker fiveCandidates engOpts false noFilters true =
        .ok (unsorted, n) ∧
      sorted.Perm unsorted ∧ sorted.length = unsorted.length ∧
      (∀ x, x ∈ sorted ↔ x ∈ unsorted) :=
  ⟨smallSort_lawful, rfl, rfl,
    sorting_permutes smallSort smallSort_lawful fullRanker fiveCandidates engOpts noFilters
      rfl rfl⟩

/-- C37. The two ranking entry points agree. For a sorter that rearranges
through `Less` alone, on every registry state, candidate list and option record,
`RankDocID` returns what `RankDocs` returns without filters and with
deferSort=false, each record reduced to `DocId`, `Scores`, `TokenSnippetLocs`
and `TokenLocs`: both fail, or both return, with the same matchedCount and with
lists of the same length that agree position by position on these
components. -/
theorem entry_points_agree {φ ν ω : Type} (S : Sorter) (hN : S.Natural) (r : Ranker φ ν)
    (docs : List IndexedDoc) (options : RankOpts φ) :
    RankDocID S r docs options false =
      (RankDocs S r docs options false ([] : List (FilterOptions ν ω)) false).map
        (fun res => (res.1.map ScoredDoc.toID, res.2)) ∧
    (∀ outD n,
      RankDocs S r docs options false ([] : List (FilterOptions ν ω)) false = .ok (outD, n) →
      ∃ outI : List ScoredID, RankDocID S r docs options false = .ok (outI, n) ∧
        outI.length = outD.length ∧
        ∀ i : Nat,
          (outI[i]?).map
              (fun x : ScoredID => (x.DocId, x.Scores, x.TokenSnippetLocs, x.TokenLocs)) =
            (outD[i]?).map
              (fun x : ScoredDoc φ ν =>
                (x.DocId, x.Scores, x.TokenSnippetLocs, x.TokenLocs))) := by
  have hless : ∀ a b : ScoredDoc φ ν,
      direction options.ReverseOrder ScoredIDs.Less a.toID b.toID =
        direction options.ReverseOrder ScoredDocs.Less a b := by
    intro a b
    cases hrev : options.ReverseOrder <;> rfl
  have heq : RankDocID S r docs options false =
      (RankDocs S r docs options false ([] : List (FilterOptions ν ω)) false).map
        (fun res => (res.1.map ScoredDoc.toID, res.2)) := by
    rw [RankDocID_sorting, RankDocs_sorting, @survivingIDs_eq_map φ ν ω r options docs,
      hN ScoredDoc.toID _ _ hless]
    simp only [paginate, List.length_map, sliceRange_map, Except_map_map]
    rfl
  refine ⟨heq, ?_⟩
  intro outD n h
  rw [heq, h]
  refine ⟨outD.map ScoredDoc.toID, rfl, List.length_map _ _, ?_⟩
  intro i
  rw [List.getElem?_map]
  cases outD[i]? <;> rfl

/-- Witness for C37: the test query on the fixture registry through both entry
points, with the sorter for small inputs. -/
theorem entry_points_agree_witness :
    smallSort.Natural ∧
    RankDocID smallSort fullRanker worldCandidates (rankOptsOrder false) false =
      (RankDocs smallSort fullRanker worldCandidates (rankOptsOrder false) false noFilters
        false).map (fun res => (res.1.map ScoredDoc.toID, res.2)) ∧
    (RankDocID smallSort fullRanker worldCandidates (rankOptsOrder false) false).map
      (fun res => (res.1.map (fun x => x.DocId), res.2)) = .ok ([2, 5, 1], 3) :=
  ⟨smallSort_natural,
    (entry_points_agree smallSort smallSort_natural fullRanker worldCandidates
      (rankOptsOrder false)).1,
    by decide!⟩

/-- C38. `AddDoc` retains stale content and attributes. On an initialized
full-document registry, `AddDoc(id, fields)` without optional arguments returns
normally and writes the fields and presence entries of `id` only: the content
and attributes maps stay as they were. With a second optional argument that is
not a `map[string]Attribute` the attributes map stays as it was, and when the
first one is a string the call returns normally having replaced the content of
`id`, and nothing else in the content map, by that string. Every record that a
later `Rank` returns for `id` carries the new fields and the attributes stored
before, and, when no content was supplied, the content stored before. -/
theorem stale_content_retained {φ ν ω : Type} (S : Sorter) (hS : S.Lawful)
    (r : Ranker φ ν) (id : Nat) (fields : Option φ) (hinit : r.initialized = true)
    (hmode : r.idOnly = false) :
    AddDoc r id fields [] =
      { state := { r with fields := mapSet r.fields id fields,
                          docs := mapSet r.docs id true },
        failure := none } ∧
    (∀ a b rest, (∀ c, b ≠ ContentArg.attrs c) →
      (AddDoc r id fields (a :: b :: rest)).state.attri = r.attri ∧
      (AddDoc r id fields (a :: b :: rest)).state.fields = mapSet r.fields id fields ∧
      ∀ s, a = ContentArg.str s →
        (AddDoc r id fields (a :: b :: rest)).failure = none ∧
        (AddDoc r id fields (a :: b :: rest)).state.content = mapSet r.content id s) ∧
    (∀ content : List (ContentArg ν),
      (content = [] ∨
        ∃ a b rest, content = a :: b :: rest ∧ ∀ c, b ≠ ContentArg.attrs c) →
      ∀ (docs : List IndexedDoc) (options : RankOpts φ) (countDocsOnly : Bool)
        (filterOpt : List (FilterOptions ν ω)) (orderAtTheEnd : Bool)
        (l : List (ScoredDoc φ ν)) (n : Nat),
        Rank S (AddDoc r id fields content).state docs options countDocsOnly filterOpt
          orderAtTheEnd = .ok (RankOutput.docs l, n) →
        ∀ x ∈ l, x.DocId = id →
          x.Fields = fields ∧ x.Attri = r.attriAt id ∧
          (content = [] → x.Content = r.contentAt id)) := by
  refine ⟨AddDoc_bare r id fields hinit, ?_, ?_⟩
  · intro a b rest hb
    refine ⟨AddDoc_keeps_attri r id fields _ hinit (Or.inr ⟨a, b, rest, rfl, hb⟩),
      (AddDoc_presence r id fields _ hinit).2.1, ?_⟩
    intro s hs
    subst hs
    rw [AddDoc_content r id fields s _ hinit hmode]
    refine ⟨rfl, ?_⟩
    cases b with
    | attrs c => exact absurd rfl (hb c)
    | nil => simp [AddDoc.storeAttri]
    | str t => simp [AddDoc.storeAttri]
    | other t => simp [AddDoc.storeAttri]
  · intro content hc docs options countDocsOnly filterOpt orderAtTheEnd l n h x hx hid
    have hw := Rank_within S hS _ docs options countDocsOnly filterOpt orderAtTheEnd _ n h
    have hmem := hw x hx
    simp only [survivingDocs, List.mem_map, List.mem_filter] at hmem
    obtain ⟨d, _, rfl⟩ := hmem
    have hd : d.DocId = id := hid
    have hattri := AddDoc_keeps_attri r id fields content hinit hc
    have hfields := (AddDoc_presence r id fields content hinit).2.1
    refine ⟨?_, ?_, ?_⟩
    · simp [docRecord, Ranker.fieldsAt, hfields, hd, mapSet]
    · simp [docRecord, Ranker.attriAt, hattri, hd]
    · intro hnil
      subst hnil
      rw [AddDoc_bare r id fields hinit]
      simp [docRecord, Ranker.contentAt, hd]

/-- Witness for C38: document 1 of the registry built by `Init` and two `AddDoc`
calls is added again with other fields and no optional argument; `Rank` returns
it with the new fields, the old content and the old attributes. -/
theorem stale_content_retained_witness :
    smallSort.Lawful ∧ builtRanker.initialized = true ∧ builtRanker.idOnly = false ∧
    Rank smallSort (AddDoc builtRanker 1 (some (FieldValue.scoring ⟨2, 2, 2⟩)) []).state
        [candidate 1 0] engOpts false noFilters false =
      .ok (RankOutput.docs
        [{ DocId := 1, Fields := some (FieldValue.scoring ⟨2, 2, 2⟩),
           Content := "The world", Attri := [("color", ⟨"red"⟩)], Scores := [4],
           TokenSnippetLocs := [], TokenLocs := [] }], 1) ∧
    (AddDoc builtRanker 1 (some (FieldValue.scoring ⟨2, 2, 2⟩)) []).state.attri =
      builtRanker.attri :=
  ⟨smallSort_lawful, rfl, rfl, by decide!,
    congrArg (fun e => e.state.attri)
      (@stale_content_retained _ _ Bool smallSort smallSort_lawful builtRanker 1
        (some (FieldValue.scoring ⟨2, 2, 2⟩)) rfl rfl).1⟩

/-- C39. `AddDoc` failure condition. On an initialized registry `AddDoc` ends
in a runtime panic exactly when the registry is in full-document mode and a
first optional argument is supplied that is not a string (the `nil` interface
included); in every other case, ID-only mode and an absent or string first
argument, it returns normally, whatever the other arguments. A panic leaves the
fields and presence entries already written in place. -/
theorem addDoc_failure_condition {φ ν : Type} (r : Ranker φ ν) (docId : Nat)
    (fields : Option φ) (content : List (ContentArg ν)) (hinit : r.initialized = true) :
    ((AddDoc r docId fields content).failure = some Failure.panic ↔
      r.idOnly = false ∧ ∃ a rest, content = a :: rest ∧ ∀ s, a ≠ ContentArg.str s) ∧
    ((AddDoc r docId fields content).failure = none ↔
      r.idOnly = true ∨ content = [] ∨ ∃ s rest, content = ContentArg.str s :: rest) ∧
    ((AddDoc r docId fields content).failure = none ∨
      (AddDoc r docId fields content).failure = some Failure.panic) ∧
    (AddDoc r docId fields content).state.fields docId = some fields ∧
    (AddDoc r docId fields content).state.docs docId = some true := by
  obtain ⟨hdocs, hfields, _, _⟩ := AddDoc_presence r docId fields content hinit
  have hstate : (AddDoc r docId fields content).state.fields docId = some fields ∧
      (AddDoc r docId fields content).state.docs docId = some true :=
    ⟨by rw [hfields, mapSet_same], by rw [hdocs, mapSet_same]⟩
  cases hm : r.idOnly with
  | true =>
    rw [AddDoc_idOnly r docId fields content hinit hm] at hstate ⊢
    exact ⟨by simp, by simp, Or.inl rfl, hstate⟩
  | false =>
    cases content with
    | nil =>
      rw [AddDoc_bare r docId fields hinit] at hstate ⊢
      exact ⟨by simp, by simp, Or.inl rfl, hstate⟩
    | cons a rest =>
      cases a with
      | str s =>
        rw [AddDoc_content r docId fields s rest hinit hm] at hstate ⊢
        exact ⟨by simp, by simp, Or.inl rfl, hstate⟩
      | nil =>
        refine ⟨?_, ?_, ?_, hstate⟩ <;> simp [AddDoc, hinit, hm, AddDoc.storeContent]
      | attrs c =>
        refine ⟨?_, ?_, ?_, hstate⟩ <;> simp [AddDoc, hinit, hm, AddDoc.storeContent]
      | other t =>
        refine ⟨?_, ?_, ?_, hstate⟩ <;> simp [AddDoc, hinit, hm, AddDoc.storeContent]

/-- Witness for C39: on the full-document fixture a `nil` first optional
argument makes `AddDoc` panic; on the ID-only fixture the same call returns. -/
theorem addDoc_failure_condition_witness :
    fullRanker.initialized = true ∧ idRanker.initialized = true ∧
    (AddDoc fullRanker 7 none [ContentArg.nil]).failure = some Failure.panic ∧
    (AddDoc idRanker 7 none [ContentArg.nil]).failure = none :=
  ⟨rfl, rfl,
    (addDoc_failure_condition fullRanker 7 none [ContentArg.nil] rfl).1.2
      ⟨rfl, ContentArg.nil, [], rfl, fun _ h => by cases h⟩,
    (addDoc_failure_condition idRanker 7 none [ContentArg.nil] rfl).2.1.2 (Or.inl rfl)⟩

/-- C40. Per-id frame. On an initialized registry and for ids `x ≠ y`,
`AddDoc(x, ...)` and `RemoveDoc(x)` leave the presence, fields, content and
attributes entries of `y` as they were, whether they return or panic, and they
change neither the mode nor the `initialized` flag. Hence `AddDoc(x, ...)`
followed by `RemoveDoc(x)` gives back the registry it started from when `x` was
a key of none of the four maps, which on a registry produced by `Init`, `AddDoc`
and `RemoveDoc` calls is the case as soon as `x` is not present. -/
theorem per_id_frame {φ ν : Type} (r : Ranker φ ν) (x y : Nat) (fields : Option φ)
    (content : List (ContentArg ν)) (hinit : r.initialized = true) (hxy : x ≠ y) :
    ((AddDoc r x fields content).state.docs y = r.docs y ∧
      (AddDoc r x fields content).state.fields y = r.fields y ∧
      (AddDoc r x fields content).state.content y = r.content y ∧
      (AddDoc r x fields content).state.attri y = r.attri y) ∧
    ((RemoveDoc r x).state.docs y = r.docs y ∧
      (RemoveDoc r x).state.fields y = r.fields y ∧
      (RemoveDoc r x).state.content y = r.content y ∧
      (RemoveDoc r x).state.attri y = r.attri y) ∧
    ((AddDoc r x fields content).state.idOnly = r.idOnly ∧
      (AddDoc r x fields content).state.initialized = r.initialized ∧
      (RemoveDoc r x).state.idOnly = r.idOnly ∧
      (RemoveDoc r x).state.initialized = r.initialized) ∧
    (r.fields x = none → r.docs x = none → r.content x = none → r.attri x = none →
      (RemoveDoc (AddDoc r x fields content).state x).state = r) ∧
    (Reachable r → r.docs x = none →
      (RemoveDoc (AddDoc r x fields content).state x).state = r) := by
  obtain ⟨_, _, hmode, hini⟩ := AddDoc_presence r x fields content hinit
  obtain ⟨hrini, hrmode⟩ := RemoveDoc_flags r x
  refine ⟨AddDoc_frame r x y fields content hinit hxy, RemoveDoc_frame r x y hinit hxy,
    ⟨hmode, hini, hrmode, hrini⟩, AddDoc_RemoveDoc r x fields content hinit, ?_⟩
  intro hr hd
  have hw := hr.wellFormed
  have hnone : ∀ {α : Type} (o : Option α), o.isSome = false → o = none := by
    intro α o h
    cases o with
    | none => rfl
    | some v => cases h
  have hf : r.fields x = none := hnone _ (by rw [hw.fields_docs x, hd]; rfl)
  have hc : r.content x = none := by
    cases h : r.content x with
    | none => rfl
    | some v =>
      have := hw.content_docs x (by rw [h]; rfl)
      rw [hd] at this
      cases this
  have ha : r.attri x = none := by
    cases h : r.attri x with
    | none => rfl
    | some v =>
      have := hw.attri_docs x (by rw [h]; rfl)
      rw [hd] at this
      cases this
  exact AddDoc_RemoveDoc r x fields content hinit hf hd hc ha

/-- Witness for C40: on the registry built by `Init` and two `AddDoc` calls,
adding document 7 with content and attributes leaves document 1 as it was, and
removing document 7 again gives the registry back. -/
theorem per_id_frame_witness :
    builtRanker.initialized = true ∧ (7 : Nat) ≠ 1 ∧ Reachable builtRanker ∧
    builtRanker.docs 7 = none ∧
    (AddDoc builtRanker 7 none
      [ContentArg.str "text", ContentArg.attrs [("color", ⟨"green"⟩)]]).state.content 1 =
      builtRanker.content 1 ∧
    (RemoveDoc (AddDoc builtRanker 7 none
      [ContentArg.str "text", ContentArg.attrs [("color", ⟨"green"⟩)]]).state 7).state =
      builtRanker :=
  ⟨rfl, by decide, builtRanker_reachable, rfl,
    (per_id_frame builtRanker 7 1 none
      [ContentArg.str "text", ContentArg.attrs [("color", ⟨"green"⟩)]] rfl (by decide)).1.2.2.1,
    (per_id_frame builtRanker 7 1 none
      [ContentArg.str "text", ContentArg.attrs [("color", ⟨"green"⟩)]] rfl
      (by decide)).2.2.2.2 builtRanker_reachable rfl⟩

end Riot
